import Mathlib

/-!
# Server-side user authentication (auth2.c)

A shallow embedding of the SSH-2 user-authentication controller of
`ssh/auth2.c`: the method registry, the multi-method list policy
(`list_starts_with`, `remove_method`, `auth2_update_methods_lists`,
`auth2_methods_valid`, `auth2_setup_methods_lists`, `method_allowed`,
`authmethods_get`, `authmethod_lookup`) and the two controller entry points
`input_userauth_request` and `userauth_finish`.

C strings are lists of characters (the bytes before the terminating NUL).
Array-with-count pairs (`auth_methods`, `num_auth_methods`) are lists whose
length is the count. `int` fields are `Int`: the counters `attempt` and
`failures` stay far below `INT_MAX` on a connection, and no wrap-around is
modelled. A call ends by returning, in `ssh_packet_disconnect` or `fatal`
(both declared not to return), or in a NULL dereference. Packet writes succeed:
the `fatal` calls that follow a failed `sshpkt_*` write are outside the model,
as are logging, `setproctitle` and the notification of the monitor.
-/

namespace Auth2

/-! ## Strings -/

/-- A C string: the characters before the terminating NUL. -/
abbrev CString := List Char

/-- The literal "none". -/
def s_none : CString := ['n', 'o', 'n', 'e']

/-- The literal "ssh-connection". -/
def s_ssh_connection : CString :=
  ['s', 's', 'h', '-', 'c', 'o', 'n', 'n', 'e', 'c', 't', 'i', 'o', 'n']

/-- The literal "ssh-userauth". -/
def s_ssh_userauth : CString :=
  ['s', 's', 'h', '-', 'u', 's', 'e', 'r', 'a', 'u', 't', 'h']

/-- The test `strcmp(a, b) == 0`. -/
def strcmp_eq (a b : CString) : Bool := decide (a = b)

/-- The test `strncmp(a, b, n) == 0`: at most `n` characters are compared, and the
comparison stops after a terminating NUL found in both strings. -/
def strncmp_eq : CString → CString → Nat → Bool
  | _, _, 0 => true
  | [], [], _ + 1 => true
  | x :: a, y :: b, n + 1 => x == y && strncmp_eq a b n
  | [], _ :: _, _ + 1 => false
  | _ :: _, [], _ + 1 => false

/-- The test `strcasecmp(a, b) == 0` (ASCII case folding). -/
def strcasecmp_eq (a b : CString) : Bool :=
  decide (a.map Char.toLower = b.map Char.toLower)

/-- One call `strsep(&s, ",")` on a non-NULL `s`: the token before the first
comma, and the new value of `s` (`none` is NULL: no comma was found). -/
def strsep : CString → CString × Option CString
  | [] => ([], none)
  | c :: cs =>
    if c = ',' then ([], some cs)
    else ((c :: (strsep cs).1), (strsep cs).2)

/-- The successive tokens returned by `strsep(&s, ",")` until it returns NULL:
the comma-separated tokens of `s`, empty tokens included. -/
def strsep_all : CString → List CString
  | [] => [[]]
  | c :: cs =>
    if c = ',' then [] :: strsep_all cs
    else
      match strsep_all cs with
      | [] => [[c]]
      | t :: ts => (c :: t) :: ts

/-- The string `user` is cut at the first ':' (`*style++ = 0`): the part before it,
and the style after it when a ':' is present. -/
def split_style : CString → CString × Option CString
  | [] => ([], none)
  | c :: cs =>
    if c = ':' then ([], some cs)
    else ((c :: (split_style cs).1), (split_style cs).2)

/-! ## Data model -/

/-- The account record; only `pw_uid` is read by the controller. -/
structure Passwd where
  pw_name : CString
  pw_uid : Nat
  deriving DecidableEq, Repr

/-- The struct `Authctxt` of auth.h, restricted to the fields auth2.c uses.
`auth_methods` holds the `num_auth_methods` remaining lists. Pointers that may
be NULL are options. -/
structure Authctxt where
  success : Int
  postponed : Int
  valid : Int
  attempt : Int
  failures : Int
  server_caused_failure : Int
  user : Option CString
  service : Option CString
  style : Option CString
  pw : Option Passwd
  auth_methods : List CString
  deriving DecidableEq, Repr

/-- What a method handler `m->userauth(ssh)` reports. -/
structure HandlerResult where
  authenticated : Int
  postponed : Int
  server_caused_failure : Int
  deriving DecidableEq, Repr

/-- The struct `Authmethod` of auth.h. `enabled` is the `int *enabled` pointer: `none` is
NULL, `some v` points at the value `v`.

Modelled from the spec: the method implementations are outside the source;
a handler takes the session and the method-specific rest of the request and
reports authenticated, and may mark the context postponed or the failure as
server-caused. -/
structure Authmethod where
  name : CString
  enabled : Option Int
  userauth : Authctxt → List Nat → HandlerResult

/-- The fields of `ServerOptions` the controller reads; `auth_methods` holds
the `num_auth_methods` configured lists. -/
structure ServerOptions where
  banner : Option CString
  max_authtries : Int
  auth_methods : List CString

/-- The file at `options.banner` as `auth2_read_banner` sees it: the size
`fstat` reports (`none` when `fstat` fails) and the bytes `atomicio` reads. -/
structure BannerFile where
  st_size : Option Int
  contents : CString

/-- The globals and external collaborators of auth2.c: the options, the
registry `authmethods[]` (its entries are defined outside the source), the
account oracle `getpwnamallow`, `fakepw`, `auth_root_allowed`, and the banner
file (`none` when `open` fails). -/
structure Env where
  options : ServerOptions
  authmethods : List Authmethod
  getpwnamallow : CString → Option Passwd
  fakepw : Passwd
  auth_root_allowed : CString → Int
  banner_file : Option BannerFile

/-- The count `options.num_auth_methods`. -/
def Env.num_auth_methods (env : Env) : Nat := env.options.auth_methods.length

/-- Packets written by the controller. The last field of `USERAUTH_FAILURE` is
the partial-success byte. -/
inductive Packet where
  | SERVICE_ACCEPT (service : CString)
  | USERAUTH_BANNER (msg : CString)
  | USERAUTH_SUCCESS
  | USERAUTH_FAILURE (methods : CString) (part : Int)
  deriving DecidableEq, Repr

/-- Observable events, in program order: a packet sent, a method handler
invoked, an `auth_log` record (authenticated, partial, method, submethod). -/
inductive Event where
  | send (p : Packet)
  | userauth (name : CString)
  | auth_log (authenticated : Int) (part : Int) (method : CString)
      (submethod : Option CString)
  deriving DecidableEq, Repr

/-- The handler installed for `SSH2_MSG_USERAUTH_REQUEST`. -/
inductive Handler where
  | dispatch_protocol_error
  | input_userauth_request
  | dispatch_protocol_ignore
  deriving DecidableEq, Repr

/-- The session: its authentication context, the peer's `SSH_BUG_BANNER`
compatibility bit, the dispatch entry for user-auth requests and the events so
far. The context is allocated before authentication starts, so `ssh->authctxt`
is never NULL and the two `fatal("... no authctxt")` guards cannot fire. -/
structure Ssh where
  authctxt : Authctxt
  bug_banner : Bool
  userauth_request : Handler
  trace : List Event
  deriving DecidableEq, Repr

/-- The reasons given to `ssh_packet_disconnect`. -/
inductive Disconnect where
  /-- The message "no authentication methods enabled". -/
  | no_methods
  /-- The message "Change of username or service not allowed: ...". -/
  | change_of_user
  /-- The message AUTH_FAIL_MSG, the exhausted-attempts message. -/
  | auth_fail
  /-- The message "bad service request ...". -/
  | bad_service
  /-- The disconnect of the dispatcher on a message it has no handler for. -/
  | protocol_error
  deriving DecidableEq, Repr

/-- The calls of `fatal`. -/
inductive Fatal where
  /-- The message "INTERNAL ERROR: authenticated invalid user". -/
  | authenticated_invalid_user
  /-- The message "INTERNAL ERROR: authenticated and postponed". -/
  | authenticated_and_postponed
  /-- The message "method not in AuthenticationMethods". -/
  | method_not_in_lists
  /-- The message "ssh_dispatch_run failed: ...". -/
  | dispatch_run_failed
  deriving DecidableEq, Repr

/-- How a call ends: it returns `r`, or the process ends in
`ssh_packet_disconnect` or `fatal` (neither returns), or it dereferences a NULL
pointer. Each case carries the state reached. -/
inductive Outcome (σ : Type) (α : Type) where
  | returned (s : σ) (r : α)
  | disconnect (s : σ) (why : Disconnect)
  | fatal (s : σ) (why : Fatal)
  | segv (s : σ)
  deriving DecidableEq, Repr

/-- A parsed `SSH2_MSG_USERAUTH_REQUEST`: the three strings read by
`input_userauth_request` and the method-specific rest of the packet. -/
structure Request where
  user : CString
  service : CString
  method : CString
  payload : List Nat
  deriving DecidableEq, Repr

/-- The state in which the call ended. -/
def Outcome.state {σ α : Type} : Outcome σ α → σ
  | .returned s _ => s
  | .disconnect s _ => s
  | .fatal s _ => s
  | .segv s => s

/-- The same ending with another return value. -/
def Outcome.ret {σ α β : Type} (o : Outcome σ α) (r : β) : Outcome σ β :=
  match o with
  | .returned s _ => .returned s r
  | .disconnect s why => .disconnect s why
  | .fatal s why => .fatal s why
  | .segv s => .segv s

/-! ## Method-list policy -/

/-- The function `list_starts_with(methods, method)`. `methods[l]` is read only when the
first `l` characters matched, so it is in bounds; `none` is the NUL. -/
def list_starts_with (methods method : CString) : Int :=
  let l := method.length
  if strncmp_eq methods method l = false then 0
  else if methods[l]? ≠ some ',' ∧ methods[l]? ≠ none then 0
  else 1

/-- The function `remove_method(&methods, method)`: the return value and the new
`*methods`. -/
def remove_method (methods method : CString) : Int × CString :=
  let l := method.length
  if list_starts_with methods method = 0 then (0, methods)
  else (1, methods.drop (l + (if methods[l]? = some ',' then 1 else 0)))

/-- The `for` loop of `auth2_update_methods_lists` from index `i` on: the
lists from `i` on as the loop leaves them, whether the loop left through
`return 1`, and the final value of `found`. -/
def update_loop (method : CString) : List CString → Int → List CString × Bool × Int
  | [], found => ([], false, found)
  | m :: rest, found =>
    if (remove_method m method).1 = 0 then
      (m :: (update_loop method rest found).1, (update_loop method rest found).2)
    else if (remove_method m method).2 = [] then
      ((remove_method m method).2 :: rest, true, 1)
    else
      ((remove_method m method).2 :: (update_loop method rest 1).1,
        (update_loop method rest 1).2)

/-- The function `auth2_update_methods_lists(authctxt, method)`. -/
def auth2_update_methods_lists (authctxt : Authctxt) (method : CString) :
    Outcome Authctxt Int :=
  let r := update_loop method authctxt.auth_methods 0
  let authctxt := { authctxt with auth_methods := r.1 }
  if r.2.1 then .returned authctxt 1
  else if r.2.2 = 0 then .fatal authctxt .method_not_in_lists
  else .returned authctxt 0

/-- The scan of `authctxt->auth_methods` in `method_allowed`. -/
def method_allowed_loop (method : CString) : List CString → Int
  | [] => 0
  | l :: ls =>
    if list_starts_with l method ≠ 0 then 1 else method_allowed_loop method ls

/-- The function `method_allowed(authctxt, method)`. -/
def method_allowed (env : Env) (authctxt : Authctxt) (method : CString) : Int :=
  if env.num_auth_methods = 0 then 1
  else method_allowed_loop method authctxt.auth_methods

/-- The three ways the inner `for` of `auth2_methods_valid` ends for one
token. -/
inductive Lookup where
  | found
  | disabled
  | unknown
  deriving DecidableEq, Repr

/-- The inner `for` of `auth2_methods_valid`: the first registry entry with the
token's name decides. -/
def methods_valid_find (need_enable : Int) (method : CString) : List Authmethod → Lookup
  | [] => .unknown
  | m :: ms =>
    if strcmp_eq method m.name = false then methods_valid_find need_enable method ms
    else if need_enable ≠ 0 ∧ (m.enabled = none ∨ m.enabled = some 0) then .disabled
    else .found

/-- The `while` of `auth2_methods_valid` over the tokens `strsep` yields: the
value of `ret` at `out`. -/
def methods_valid_loop (authmethods : List Authmethod) (need_enable : Int) :
    List CString → Int
  | [] => 0
  | method :: rest =>
    match methods_valid_find need_enable method authmethods with
    | .found => methods_valid_loop authmethods need_enable rest
    | .disabled => -1
    | .unknown => -1

/-- The function `auth2_methods_valid(_methods, need_enable)`. -/
def auth2_methods_valid (env : Env) (methods : CString) (need_enable : Int) : Int :=
  if methods = [] then -1
  else methods_valid_loop env.authmethods need_enable (strsep_all methods)

/-- The `for` of `auth2_setup_methods_lists`: the lists copied into the
context, in order. -/
def setup_loop (env : Env) : List CString → List CString
  | [] => []
  | l :: ls =>
    if auth2_methods_valid env l 1 ≠ 0 then setup_loop env ls
    else l :: setup_loop env ls

/-- The function `auth2_setup_methods_lists(authctxt)`: the context and the return value. -/
def auth2_setup_methods_lists (env : Env) (authctxt : Authctxt) : Authctxt × Int :=
  if env.num_auth_methods = 0 then (authctxt, 0)
  else
    let authctxt := { authctxt with auth_methods := setup_loop env env.options.auth_methods }
    if authctxt.auth_methods.length = 0 then (authctxt, -1)
    else (authctxt, 0)

/-- The buffer of `authmethods_get` after the loop has visited the given
entries, starting from buffer `b`. -/
def authmethods_get_loop (env : Env) (authctxt : Authctxt) :
    List Authmethod → CString → CString
  | [], b => b
  | m :: ms, b =>
    if strcmp_eq m.name s_none then authmethods_get_loop env authctxt ms b
    else if m.enabled = none ∨ m.enabled = some 0 then authmethods_get_loop env authctxt ms b
    else if method_allowed env authctxt m.name = 0 then authmethods_get_loop env authctxt ms b
    else authmethods_get_loop env authctxt ms
      (b ++ (if b.length ≠ 0 then [','] else []) ++ m.name)

/-- The function `authmethods_get(authctxt)`. -/
def authmethods_get (env : Env) (authctxt : Authctxt) : CString :=
  authmethods_get_loop env authctxt env.authmethods []

/-- The scan of the registry in `authmethod_lookup`. -/
def authmethod_lookup_loop (env : Env) (authctxt : Authctxt) (name : CString) :
    List Authmethod → Option Authmethod
  | [] => none
  | m :: ms =>
    if m.enabled ≠ none ∧ m.enabled ≠ some 0 ∧ strcmp_eq name m.name = true ∧
        method_allowed env authctxt m.name ≠ 0 then some m
    else authmethod_lookup_loop env authctxt name ms

/-- The function `authmethod_lookup(authctxt, name)`; `none` is NULL, for the name and for
the result. -/
def authmethod_lookup (env : Env) (authctxt : Authctxt) (name : Option CString) :
    Option Authmethod :=
  match name with
  | none => none
  | some name => authmethod_lookup_loop env authctxt name env.authmethods

/-! ## Controller -/

/-- The function `auth2_read_banner()`: the banner text, or `none` (NULL) when
the file cannot be opened or examined, its size is not in 1..1048576, or fewer
bytes than its size are read. -/
def auth2_read_banner (env : Env) : Option CString :=
  match env.banner_file with
  | none => none
  | some f =>
    match f.st_size with
    | none => none
    | some size =>
      if size ≤ 0 ∨ size > 1 * 1024 * 1024 then none
      else if (f.contents.length : Int) ≠ size then none
      else some f.contents

/-- The function `userauth_banner(ssh)`. -/
def userauth_banner (env : Env) (ssh : Ssh) : Ssh :=
  match env.options.banner with
  | none => ssh
  | some path =>
    if strcasecmp_eq path s_none = true ∨ ssh.bug_banner = true then ssh
    else
      match auth2_read_banner env with
      | none => ssh
      | some banner => { ssh with trace := ssh.trace ++ [.send (.USERAUTH_BANNER banner)] }

/-- The end of `userauth_finish`, from `auth_log` on, with the locals
`authenticated` and `partial` as they stand there. -/
def userauth_finish_reply (env : Env) (ssh : Ssh) (authenticated part : Int)
    (method : CString) (submethod : Option CString) : Outcome Ssh Unit :=
  let ssh := { ssh with trace := ssh.trace ++ [.auth_log authenticated part method submethod] }
  if ssh.authctxt.postponed ≠ 0 then .returned ssh ()
  else if authenticated = 1 then
    .returned { ssh with
      userauth_request := .dispatch_protocol_ignore
      trace := ssh.trace ++ [.send .USERAUTH_SUCCESS]
      authctxt := { ssh.authctxt with success := 1 } } ()
  else
    let authctxt := ssh.authctxt
    let authctxt :=
      if authctxt.server_caused_failure = 0 ∧
          (authctxt.attempt > 1 ∨ strcmp_eq method s_none = false) then
        { authctxt with failures := authctxt.failures + 1 }
      else authctxt
    let ssh := { ssh with authctxt := authctxt }
    if authctxt.failures ≥ env.options.max_authtries then .disconnect ssh .auth_fail
    else
      .returned { ssh with
        trace := ssh.trace ++ [.send (.USERAUTH_FAILURE (authmethods_get env authctxt) part)] } ()

/-- The "special handling for root" of `userauth_finish`: the value of
`authenticated` after it. -/
def userauth_finish_root (env : Env) (authctxt : Authctxt) (authenticated : Int)
    (method : CString) : Int :=
  if authenticated ≠ 0 ∧ authctxt.pw.map Passwd.pw_uid = some 0 ∧
      env.auth_root_allowed method = 0 then 0
  else authenticated

/-- The function `userauth_finish(ssh, authenticated, method, submethod)`. The root check
reads `authctxt->pw->pw_uid` only when `authenticated` is set; a NULL `pw`
there is a NULL dereference. -/
def userauth_finish (env : Env) (ssh : Ssh) (authenticated : Int) (method : CString)
    (submethod : Option CString) : Outcome Ssh Unit :=
  let authctxt := ssh.authctxt
  if authctxt.valid = 0 ∧ authenticated ≠ 0 then .fatal ssh .authenticated_invalid_user
  else if authenticated ≠ 0 ∧ authctxt.postponed ≠ 0 then
    .fatal ssh .authenticated_and_postponed
  else if authenticated ≠ 0 ∧ authctxt.pw = none then .segv ssh
  else
    let authenticated := userauth_finish_root env authctxt authenticated method
    if authenticated ≠ 0 ∧ env.num_auth_methods ≠ 0 then
      match auth2_update_methods_lists authctxt method with
      | .returned authctxt r =>
        if r = 0 then
          userauth_finish_reply env { ssh with authctxt := authctxt } 0 1 method submethod
        else
          userauth_finish_reply env { ssh with authctxt := authctxt } authenticated 0
            method submethod
      | .disconnect authctxt why => .disconnect { ssh with authctxt := authctxt } why
      | .fatal authctxt why => .fatal { ssh with authctxt := authctxt } why
      | .segv authctxt => .segv { ssh with authctxt := authctxt }
    else userauth_finish_reply env ssh authenticated 0 method submethod

/-- The "setup auth context" block of `input_userauth_request`, before the
banner: the account oracle is asked for `user`, `valid` is set when it knows
the user and the service is "ssh-connection", the fake record is used
otherwise, and user, service and style are stored. -/
def input_userauth_request_setup (env : Env) (authctxt : Authctxt) (user service : CString)
    (style : Option CString) : Authctxt :=
  let pw := env.getpwnamallow user
  let authctxt :=
    if pw ≠ none ∧ strcmp_eq service s_ssh_connection = true then
      { authctxt with pw := pw, valid := 1 }
    else { authctxt with pw := some env.fakepw }
  { authctxt with user := some user, service := some service, style := style }

/-- The first part of `input_userauth_request`, up to the "reset state"
comment: the user is cut at ':', `attempt` is counted, and the request either
binds the context (first request) or is checked against the bound user and
service. -/
def input_userauth_request_bind (env : Env) (ssh : Ssh) (rq : Request) : Outcome Ssh Unit :=
  let user := (split_style rq.user).1
  let style := (split_style rq.user).2
  let attempt0 := ssh.authctxt.attempt
  let authctxt := { ssh.authctxt with attempt := attempt0 + 1 }
  if attempt0 = 0 then
    let authctxt := input_userauth_request_setup env authctxt user rq.service style
    let ssh := userauth_banner env { ssh with authctxt := authctxt }
    let r := auth2_setup_methods_lists env ssh.authctxt
    if r.2 ≠ 0 then .disconnect { ssh with authctxt := r.1 } .no_methods
    else .returned { ssh with authctxt := r.1 } ()
  else
    match authctxt.user with
    | none => .segv { ssh with authctxt := authctxt }
    | some bound_user =>
      if strcmp_eq user bound_user = false then
        .disconnect { ssh with authctxt := authctxt } .change_of_user
      else
        match authctxt.service with
        | none => .segv { ssh with authctxt := authctxt }
        | some bound_service =>
          if strcmp_eq rq.service bound_service = false then
            .disconnect { ssh with authctxt := authctxt } .change_of_user
          else .returned { ssh with authctxt := authctxt } ()

/-- The second part of `input_userauth_request`, from the "reset state" comment
on: the flags are cleared, the method is looked up and tried, and
`userauth_finish` is called; the function then returns 0. The calls that stop
a challenge, J-PAKE or GSSAPI exchange in progress act on state outside the
context and leave no mark here. -/
def input_userauth_request_try (env : Env) (ssh : Ssh) (rq : Request) : Outcome Ssh Int :=
  let authctxt := { ssh.authctxt with postponed := 0, server_caused_failure := 0 }
  let ssh := { ssh with authctxt := authctxt }
  match authmethod_lookup env authctxt (some rq.method) with
  | none => (userauth_finish env ssh 0 rq.method none).ret 0
  | some m =>
    if authctxt.failures < env.options.max_authtries then
      let res := m.userauth authctxt rq.payload
      let ssh := { ssh with
        authctxt := { authctxt with
          postponed := res.postponed
          server_caused_failure := res.server_caused_failure }
        trace := ssh.trace ++ [.userauth m.name] }
      (userauth_finish env ssh res.authenticated rq.method none).ret 0
    else (userauth_finish env ssh 0 rq.method none).ret 0

/-- The function `input_userauth_request(type, seq, ssh)`; `none` is a packet from which
the three strings cannot be read: the function then returns the non-zero
error and leaves the state as it was. -/
def input_userauth_request (env : Env) (ssh : Ssh) (pkt : Option Request) : Outcome Ssh Int :=
  match pkt with
  | none => .returned ssh (-1)
  | some rq =>
    match input_userauth_request_bind env ssh rq with
    | .returned ssh _ => input_userauth_request_try env ssh rq
    | .disconnect ssh why => .disconnect ssh why
    | .fatal ssh why => .fatal ssh why
    | .segv ssh => .segv ssh

/-- The function `input_service_request(type, seq, ssh)`; `none` is a packet from which the
service name cannot be read. -/
def input_service_request (ssh : Ssh) (pkt : Option CString) : Outcome Ssh Int :=
  match pkt with
  | none => .returned ssh (-1)
  | some service =>
    if strcmp_eq service s_ssh_userauth = true ∧ ssh.authctxt.success = 0 then
      .returned { ssh with
        userauth_request := .input_userauth_request
        trace := ssh.trace ++ [.send (.SERVICE_ACCEPT service)] } 0
    else .disconnect ssh .bad_service

/-- The requests of a connection handled one after the other by
`input_userauth_request`, as the dispatch loop does while the handler returns
0: the ending of the last request handled. The options and the registry are
those of `env` throughout. -/
def run_requests (env : Env) : Ssh → List (Option Request) → Outcome Ssh Int
  | ssh, [] => .returned ssh 0
  | ssh, pkt :: rest =>
    match input_userauth_request env ssh pkt with
    | .returned ssh r => if r = 0 then run_requests env ssh rest else .returned ssh r
    | .disconnect ssh why => .disconnect ssh why
    | .fatal ssh why => .fatal ssh why
    | .segv ssh => .segv ssh

/-- Modelled from the spec: the allocation of the context is outside the
source; a new context has success false, attempt 0 and failures 0, and here
every other flag zero, every pointer NULL and no lists. -/
def Authctxt.new : Authctxt :=
  { success := 0, postponed := 0, valid := 0, attempt := 0, failures := 0,
    server_caused_failure := 0, user := none, service := none, style := none,
    pw := none, auth_methods := [] }

/-! ## Specification-side notions -/

/-- Following the claim's words: `L` after its first token `name` and the comma
after it have been removed, and `L` itself when its first token is not
`name`. -/
def strip_first_token (name L : CString) : CString :=
  if (strsep_all L).head? = some name then L.drop (name.length + 1) else L

/-- Every name of the registry is non-empty. -/
def registry_names_nonempty (env : Env) : Prop :=
  ∀ m ∈ env.authmethods, m.name ≠ []

instance (env : Env) : Decidable (registry_names_nonempty env) := by
  unfold registry_names_nonempty; infer_instance

/-- Every name of the registry is non-empty and has no comma. -/
def registry_names_ok (env : Env) : Prop :=
  ∀ m ∈ env.authmethods, m.name ≠ [] ∧ ',' ∉ m.name

instance (env : Env) : Decidable (registry_names_ok env) := by
  unfold registry_names_ok; infer_instance

/-- A list that `method` completes: it is `method` alone, or `method` and a
trailing comma. -/
def completes (method L : CString) : Prop := L = method ∨ L = method ++ [',']

instance (method L : CString) : Decidable (completes method L) := by
  unfold completes; infer_instance

/-- What is known of a remaining list `K` that came from the configured list
`L0` after the names `done` succeeded: no token of `K` is empty, and the tokens
of `L0` are tokens removed in order, a subsequence of `done`, then those of
`K`. -/
def remains_of (done : List CString) (L0 K : CString) : Prop :=
  (∀ t ∈ strsep_all K, t ≠ []) ∧
  ∃ t, strsep_all L0 = t ++ strsep_all K ∧ t.Sublist done

/-- The successive calls `auth2_update_methods_lists(authctxt, s)` for the names
`s` of the list, in order, as long as each call returns 0: the context after
the last call, and `none` when some call ended otherwise. -/
def feed_methods : Authctxt → List CString → Option Authctxt
  | a, [] => some a
  | a, s :: ss =>
    match auth2_update_methods_lists a s with
    | .returned a1 r => if r = 0 then feed_methods a1 ss else none
    | .disconnect _ _ => none
    | .fatal _ _ => none
    | .segv _ => none

/-- The events a call added to the trace of `before`. -/
def new_events {α : Type} (before : Ssh) (o : Outcome Ssh α) : List Event :=
  o.state.trace.drop before.trace.length

/-- The event is a `USERAUTH_FAILURE` reply. -/
def Event.is_failure_reply : Event → Bool
  | .send (.USERAUTH_FAILURE _ _) => true
  | _ => false

/-- The event is a packet sent. -/
def Event.is_send : Event → Bool
  | .send _ => true
  | _ => false

/-- The event is the invocation of a method handler. -/
def Event.is_userauth : Event → Bool
  | .userauth _ => true
  | _ => false

/-- The call disconnected with the exhausted-attempts message. -/
def Outcome.is_auth_fail {σ α : Type} : Outcome σ α → Bool
  | .disconnect _ .auth_fail => true
  | _ => false

/-- The call ended as a failed attempt (not authenticated, not postponed): it
sent a failure reply, or it disconnected with the exhausted-attempts
message. -/
def failed_attempt {α : Type} (before : Ssh) (o : Outcome Ssh α) : Bool :=
  (new_events before o).any Event.is_failure_reply || o.is_auth_fail

/-- Following the spec's words: the failed attempts of a sequence of requests
that count, that is, those that are not server-caused and are not the opening
request with method "none". `opening` tells whether the next request is the
first of the connection. -/
def count_failures (env : Env) : Bool → Ssh → List (Option Request) → Int
  | _, _, [] => 0
  | opening, ssh, pkt :: rest =>
    let o := input_userauth_request env ssh pkt
    (if failed_attempt ssh o = true ∧ o.state.authctxt.server_caused_failure = 0 ∧
        ¬ (opening = true ∧ (pkt.map Request.method) = some s_none) then 1 else 0) +
    (match o with
      | .returned s r => if r = 0 then count_failures env false s rest else 0
      | .disconnect _ _ => 0
      | .fatal _ _ => 0
      | .segv _ => 0)

/-- Following the spec's words: the names of the registry entries, in registry
order, whose name is not "none", whose enabled flag is set and which
`method_allowed` accepts. -/
def advertised_of (env : Env) (authctxt : Authctxt) (ms : List Authmethod) : List CString :=
  (ms.filter (fun m =>
    decide (m.name ≠ s_none ∧ m.enabled ≠ none ∧ m.enabled ≠ some 0 ∧
      method_allowed env authctxt m.name ≠ 0))).map Authmethod.name

/-- The names `advertised_of` selects from the registry of the environment. -/
def advertised (env : Env) (authctxt : Authctxt) : List CString :=
  advertised_of env authctxt env.authmethods


/-! ## Example data -/

/-- A handler that always reports the same result. -/
def const_handler (authenticated : Int) : Authctxt → List Nat → HandlerResult :=
  fun _ _ => { authenticated := authenticated, postponed := 0, server_caused_failure := 0 }

/-- A registry with the names of the five standard methods; hostbased is
disabled, and every handler but the one of none reports authenticated. -/
def ex_authmethods : List Authmethod :=
  [ { name := "none".toList, enabled := some 1, userauth := const_handler 0 },
    { name := "publickey".toList, enabled := some 1, userauth := const_handler 1 },
    { name := "password".toList, enabled := some 1, userauth := const_handler 1 },
    { name := "keyboard-interactive".toList, enabled := some 1, userauth := const_handler 1 },
    { name := "hostbased".toList, enabled := some 0, userauth := const_handler 1 } ]

/-- An environment with the given tries limit and configured lists, one known
account alice (uid 1000), no banner. -/
def ex_env (max_authtries : Int) (lists : List CString) : Env :=
  { options := { banner := none, max_authtries := max_authtries, auth_methods := lists }
    authmethods := ex_authmethods
    getpwnamallow := fun u => if u = "alice".toList then some ⟨u, 1000⟩ else none
    fakepw := ⟨"NOUSER".toList, 65534⟩
    auth_root_allowed := fun _ => 1
    banner_file := none }

/-- A context with the given remaining lists. -/
def ex_ctx (lists : List CString) : Authctxt := { Authctxt.new with auth_methods := lists }

/-- The state of a new connection whose request handler is installed. -/
def ex_ssh : Ssh :=
  { authctxt := Authctxt.new, bug_banner := false,
    userauth_request := .input_userauth_request, trace := [] }

/-- A request of alice for "ssh-connection" with the given method. -/
def ex_request (method : CString) : Option Request :=
  some { user := "alice".toList, service := "ssh-connection".toList, method := method,
         payload := [] }

/-- Following the claim's words: tries are left, and the registry has an entry
whose name is exactly the requested method, whose enabled flag is set and which
`method_allowed` accepts. -/
def dispatchable (env : Env) (authctxt : Authctxt) (method : CString) : Prop :=
  authctxt.failures < env.options.max_authtries ∧
  ∃ m ∈ env.authmethods, m.name = method ∧ m.enabled ≠ none ∧ m.enabled ≠ some 0 ∧
    method_allowed env authctxt m.name ≠ 0

instance (env : Env) (authctxt : Authctxt) (method : CString) :
    Decidable (dispatchable env authctxt method) := by
  unfold dispatchable; infer_instance

/-- The names of the registry are pairwise different. -/
def registry_names_distinct (env : Env) : Prop :=
  (env.authmethods.map Authmethod.name).Nodup

instance (env : Env) : Decidable (registry_names_distinct env) := by
  unfold registry_names_distinct; infer_instance

/-- The enabled flag of the entry is set: the pointer is not NULL and the value
it points at is not 0. -/
def Authmethod.is_enabled (m : Authmethod) : Prop :=
  m.enabled ≠ none ∧ m.enabled ≠ some 0

instance (m : Authmethod) : Decidable m.is_enabled := by
  unfold Authmethod.is_enabled; infer_instance

/-- A state as a first request of alice for "ssh-connection" leaves it, at a
later request: the user is bound and valid, with the given attempt number,
failures and remaining lists. -/
def ex_ssh_alice (attempt failures : Int) (lists : List CString) : Ssh :=
  { authctxt :=
      { Authctxt.new with
        valid := 1, attempt := attempt, failures := failures,
        user := some "alice".toList, service := some "ssh-connection".toList,
        pw := some ⟨"alice".toList, 1000⟩, auth_methods := lists }
    bug_banner := false
    userauth_request := .input_userauth_request
    trace := [] }

/-- An environment without policy whose only account is root (uid 0) and in
which no method is allowed for root. -/
def ex_env_root (max_authtries : Int) : Env :=
  { ex_env max_authtries [] with
    getpwnamallow := fun u => if u = "root".toList then some ⟨u, 0⟩ else none
    auth_root_allowed := fun _ => 0 }

/-- A state as a first request of root for "ssh-connection" leaves it under
`ex_env_root`, at a later request. -/
def ex_ssh_root (attempt failures : Int) : Ssh :=
  { authctxt :=
      { Authctxt.new with
        valid := 1, attempt := attempt, failures := failures,
        user := some "root".toList, service := some "ssh-connection".toList,
        pw := some ⟨"root".toList, 0⟩ }
    bug_banner := false
    userauth_request := .input_userauth_request
    trace := [] }

/-! ## The dispatch loop -/

/-- An incoming message of one of the two types the authentication phase
handles, with the fields its handler reads (`none`: they cannot be read). -/
inductive Msg where
  | SERVICE_REQUEST (pkt : Option CString)
  | USERAUTH_REQUEST (pkt : Option Request)
  deriving DecidableEq, Repr

/-- Modelled from the spec: `dispatch_protocol_error` of the dispatcher, which
is outside the source; the table "initially rejects every message except a
service request", and an unexpected message is a protocol violation answered
by a disconnect. -/
def dispatch_protocol_error (ssh : Ssh) : Outcome Ssh Int :=
  .disconnect ssh .protocol_error

/-- Modelled from the spec: `dispatch_protocol_ignore` of the dispatcher, the
ignore sink: the message is dropped, the state stays as it is and the handler
returns 0. -/
def dispatch_protocol_ignore (ssh : Ssh) : Outcome Ssh Int :=
  .returned ssh 0

/-- Modelled from the spec: one turn of the dispatcher, which maps the message
type to the handler installed for it. Service requests go to
`input_service_request`, installed by `do_authentication2`; user-auth requests
go to the entry `userauth_request` of the table. -/
def ssh_dispatch (env : Env) (ssh : Ssh) : Msg → Outcome Ssh Int
  | .SERVICE_REQUEST pkt => input_service_request ssh pkt
  | .USERAUTH_REQUEST pkt =>
    match ssh.userauth_request with
    | .dispatch_protocol_error => dispatch_protocol_error ssh
    | .input_userauth_request => input_userauth_request env ssh pkt
    | .dispatch_protocol_ignore => dispatch_protocol_ignore ssh

/-- Modelled from the spec: `ssh_dispatch_run(ssh, DISPATCH_BLOCK, done)` with
`done` the `success` flag, on the messages that arrive: each message goes to
its handler; a handler result other than 0 is returned at once; after a
handler returned 0 the loop ends with 0 if the flag is set. When the messages
run out the result is the state in which the loop waits. -/
def ssh_dispatch_run (env : Env) : Ssh → List Msg → Outcome Ssh Int
  | ssh, [] => .returned ssh 0
  | ssh, m :: rest =>
    match ssh_dispatch env ssh m with
    | .returned s r =>
      if r ≠ 0 then .returned s r
      else if s.authctxt.success ≠ 0 then .returned s 0
      else ssh_dispatch_run env s rest
    | .disconnect s why => .disconnect s why
    | .fatal s why => .fatal s why
    | .segv s => .segv s

/-- The function `do_authentication2(ssh)` on the messages that arrive: the
table is reset to `dispatch_protocol_error`, the service-request handler is
installed and the loop runs until `success` is set; an error of the loop is
fatal. -/
def do_authentication2 (env : Env) (ssh : Ssh) (msgs : List Msg) : Outcome Ssh Unit :=
  match ssh_dispatch_run env { ssh with userauth_request := .dispatch_protocol_error } msgs with
  | .returned s r => if r ≠ 0 then .fatal s .dispatch_run_failed else .returned s ()
  | .disconnect s why => .disconnect s why
  | .fatal s why => .fatal s why
  | .segv s => .segv s

/-- The messages of a connection taken through the dispatch table one after
the other while the handlers return 0, also those that arrive after `success`
is set (the loop of `do_authentication2` has ended by then; the table is as
`userauth_finish` left it). -/
def dispatch_all (env : Env) : Ssh → List Msg → Outcome Ssh Int
  | ssh, [] => .returned ssh 0
  | ssh, m :: rest =>
    match ssh_dispatch env ssh m with
    | .returned s r => if r ≠ 0 then .returned s r else dispatch_all env s rest
    | .disconnect s why => .disconnect s why
    | .fatal s why => .fatal s why
    | .segv s => .segv s

/-- The event is the success packet. -/
def Event.is_success : Event → Bool
  | .send .USERAUTH_SUCCESS => true
  | _ => false

/-- The number of success packets sent so far. -/
def success_count (ssh : Ssh) : Nat := ssh.trace.countP Event.is_success

/-- The two phases of a connection: `success` is 0 and no success packet has
been sent; or `success` is 1, exactly one success packet has been sent and
user-auth requests go to the ignore sink. -/
def auth_phase (ssh : Ssh) : Prop :=
  (ssh.authctxt.success = 0 ∧ success_count ssh = 0) ∨
  (ssh.authctxt.success = 1 ∧ success_count ssh = 1 ∧
    ssh.userauth_request = .dispatch_protocol_ignore)

instance (ssh : Ssh) : Decidable (auth_phase ssh) := by
  unfold auth_phase; infer_instance

/-- A step that leaves the success flag, the user-auth entry of the dispatch
table and the number of success packets as they were. -/
def success_kept (before after : Ssh) : Prop :=
  after.authctxt.success = before.authctxt.success ∧
  after.userauth_request = before.userauth_request ∧
  success_count after = success_count before

/-- A step that sets the success flag, sends one success packet and points
user-auth requests at the ignore sink. -/
def success_made (before after : Ssh) : Prop :=
  after.authctxt.success = 1 ∧
  after.userauth_request = .dispatch_protocol_ignore ∧
  success_count after = success_count before + 1

/-- The state of a new connection before any message: user-auth requests are
still rejected. -/
def ex_ssh_new : Ssh :=
  { authctxt := Authctxt.new, bug_banner := false,
    userauth_request := .dispatch_protocol_error, trace := [] }

/-- Alice asks for the user-auth service, probes with "none" and logs in with
her password. -/
def ex_msgs : List Msg :=
  [ .SERVICE_REQUEST (some "ssh-userauth".toList),
    .USERAUTH_REQUEST (ex_request "none".toList),
    .USERAUTH_REQUEST (ex_request "password".toList) ]

/-- Messages sent after the login: one more password request and one more
request for the user-auth service. -/
def ex_msgs_late : List Msg :=
  [ .USERAUTH_REQUEST (ex_request "password".toList),
    .SERVICE_REQUEST (some "ssh-userauth".toList) ]

/-- Following the claim's words: the tokens of a comma-separated list of names
as it is sent in a packet; the empty string is the list without names, and any
other string has the tokens `strsep` yields. -/
def name_list (s : CString) : List CString :=
  if s = [] then [] else strsep_all s

/-- Following the claim's words: the client succeeds at the method: every
registry entry of that name reports authenticated, neither postponed nor
server-caused, whatever the context and the rest of the request. -/
def succeeds_at (env : Env) (name : CString) : Prop :=
  ∀ m ∈ env.authmethods, m.name = name →
    ∀ (c : Authctxt) (payload : List Nat), m.userauth c payload = ⟨1, 0, 0⟩

/-- The requests of a client that asks for "ssh-connection" with each of the
methods in order. -/
def policy_requests (user : CString) (methods : List CString) : List (Option Request) :=
  methods.map (fun m => some ⟨user, s_ssh_connection, m, []⟩)

/-- Following the claim's words: the policy consists of the one list of the
given methods, which `auth2_methods_valid` accepts; the user is known to the
account oracle; and every method of the list has a non-empty name without a
comma, is one the client succeeds at and is not refused to the user by the
root check. -/
def policy_client (env : Env) (user : CString) (pw : Passwd) (methods : List CString) : Prop :=
  env.options.auth_methods = [[','].intercalate methods] ∧
  auth2_methods_valid env ([','].intercalate methods) 1 = 0 ∧
  env.getpwnamallow (split_style user).1 = some pw ∧
  ∀ x ∈ methods, x ≠ [] ∧ ',' ∉ x ∧ succeeds_at env x ∧
    ¬ (pw.pw_uid = 0 ∧ env.auth_root_allowed x = 0)

/-- A registry in which every method is enabled and every handler, the one of
"none" included, reports authenticated. -/
def ex_authmethods_open : List Authmethod :=
  [ { name := "none".toList, enabled := some 1, userauth := const_handler 1 },
    { name := "publickey".toList, enabled := some 1, userauth := const_handler 1 },
    { name := "password".toList, enabled := some 1, userauth := const_handler 1 } ]

/-- The example environment with the registry `ex_authmethods_open`. -/
def ex_env_open (max_authtries : Int) (lists : List CString) : Env :=
  { ex_env max_authtries lists with authmethods := ex_authmethods_open }

end Auth2

/-! # The MAC table and engine of `mac.c` -/

namespace Mac

open Auth2

/-- A byte string; every element stands for one `u_char`. -/
abbrev Bytes := List Nat

/-- The value of `SSH_EVP`: an OpenSSL EVP-based MAC. -/
def SSH_EVP : Int := 1

/-- The value of `SSH_UMAC`. -/
def SSH_UMAC : Int := 2

/-- The value of `SSH_UMAC128`. -/
def SSH_UMAC128 : Int := 3

/-- The message digests the table names through `EVP_sha1`, `EVP_sha256`,
`EVP_sha512`, `EVP_md5` and `EVP_ripemd160`; a value stands for the
`const EVP_MD *` the function returns. -/
inductive EvpMd where
  | sha1
  | sha256
  | sha512
  | md5
  | ripemd160
  deriving DecidableEq, Repr

/-- One row of the table `macs[]`; `mdfunc` is `none` for a null function
pointer. -/
structure MacEntry where
  name : CString
  type : Int
  mdfunc : Option EvpMd
  truncatebits : Int
  key_len : Int
  len : Int
  etm : Int
  deriving DecidableEq, Repr

/-- The table `macs[]` up to its terminating row. -/
def macs : List MacEntry :=
  [ ⟨"hmac-sha1".toList, SSH_EVP, some .sha1, 0, 0, 0, 0⟩,
    ⟨"hmac-sha1-96".toList, SSH_EVP, some .sha1, 96, 0, 0, 0⟩,
    ⟨"hmac-sha2-256".toList, SSH_EVP, some .sha256, 0, 0, 0, 0⟩,
    ⟨"hmac-sha2-512".toList, SSH_EVP, some .sha512, 0, 0, 0, 0⟩,
    ⟨"hmac-md5".toList, SSH_EVP, some .md5, 0, 0, 0, 0⟩,
    ⟨"hmac-md5-96".toList, SSH_EVP, some .md5, 96, 0, 0, 0⟩,
    ⟨"hmac-ripemd160".toList, SSH_EVP, some .ripemd160, 0, 0, 0, 0⟩,
    ⟨"hmac-ripemd160@openssh.com".toList, SSH_EVP, some .ripemd160, 0, 0, 0, 0⟩,
    ⟨"umac-64@openssh.com".toList, SSH_UMAC, none, 0, 128, 64, 0⟩,
    ⟨"umac-128@openssh.com".toList, SSH_UMAC128, none, 0, 128, 128, 0⟩,
    ⟨"hmac-sha1-etm@openssh.com".toList, SSH_EVP, some .sha1, 0, 0, 0, 1⟩,
    ⟨"hmac-sha1-96-etm@openssh.com".toList, SSH_EVP, some .sha1, 96, 0, 0, 1⟩,
    ⟨"hmac-sha2-256-etm@openssh.com".toList, SSH_EVP, some .sha256, 0, 0, 0, 1⟩,
    ⟨"hmac-sha2-512-etm@openssh.com".toList, SSH_EVP, some .sha512, 0, 0, 0, 1⟩,
    ⟨"hmac-md5-etm@openssh.com".toList, SSH_EVP, some .md5, 0, 0, 0, 1⟩,
    ⟨"hmac-md5-96-etm@openssh.com".toList, SSH_EVP, some .md5, 96, 0, 0, 1⟩,
    ⟨"hmac-ripemd160-etm@openssh.com".toList, SSH_EVP, some .ripemd160, 0, 0, 0, 1⟩,
    ⟨"umac-64-etm@openssh.com".toList, SSH_UMAC, none, 0, 128, 64, 1⟩,
    ⟨"umac-128-etm@openssh.com".toList, SSH_UMAC128, none, 0, 128, 128, 1⟩ ]

/-- The state of an OpenSSL `HMAC_CTX` as far as a caller can tell: the digest
and the key it was keyed with, and the bytes fed since the last reset. -/
structure HMAC_CTX where
  md : Option EvpMd
  key : Bytes
  data : Bytes
  deriving DecidableEq, Repr

/-- The state of a `struct umac_ctx` as far as a caller can tell: the key it was
made with and the bytes fed since the last tag. -/
structure UmacCtx where
  key : Bytes
  data : Bytes
  deriving DecidableEq, Repr

/-- The struct `sshmac` of `mac.h`, which is outside the source, with the
fields `mac.c` reads or writes; `none` stands for a null pointer, and `key`
holds the bytes `key` points to. -/
structure sshmac where
  type : Int
  mac_len : Nat
  key : Option Bytes
  key_len : Nat
  etm : Int
  evp_md : Option EvpMd
  evp_ctx : HMAC_CTX
  umac_ctx : Option UmacCtx
  deriving DecidableEq, Repr

/-- What `mac.c` takes from outside: the error codes of `err.h`, the size
`MAC_DIGEST_LEN_MAX` of the staging buffer from `mac.h`, the OpenSSL calls and
the UMAC calls of `umac.c`. The field `HMAC` is the keyed hash itself, as a
function of digest, key and message; the calls are tied to it by
`MacEnv.hmac_library`. A call returns its result and what it leaves in the
objects it was given. -/
structure MacEnv where
  SSH_ERR_INTERNAL_ERROR : Int
  SSH_ERR_ALLOC_FAIL : Int
  SSH_ERR_INVALID_ARGUMENT : Int
  SSH_ERR_LIBCRYPTO_ERROR : Int
  MAC_DIGEST_LEN_MAX : Nat
  EVP_MD_size : EvpMd → Int
  HMAC : EvpMd → Bytes → Bytes → Bytes
  HMAC_CTX_init : HMAC_CTX → HMAC_CTX
  HMAC_Init : HMAC_CTX → Option Bytes → Nat → Option EvpMd → Int × HMAC_CTX
  HMAC_Update : HMAC_CTX → Bytes → Int × HMAC_CTX
  HMAC_Final : HMAC_CTX → Int × HMAC_CTX × Bytes
  HMAC_cleanup : HMAC_CTX → HMAC_CTX
  umac_new : Bytes → Option UmacCtx
  umac_update : UmacCtx → Bytes → UmacCtx
  umac_final : UmacCtx → Bytes → UmacCtx × Bytes
  umac128_new : Bytes → Option UmacCtx
  umac128_update : UmacCtx → Bytes → UmacCtx
  umac128_final : UmacCtx → Bytes → UmacCtx × Bytes

/-- Modelled from the spec: the macro `POKE_U32` of `misc.h`, which is outside
the source: the "4 big-endian bytes of `seqno`". -/
def POKE_U32 (v : Nat) : Bytes :=
  [v / 2 ^ 24 % 256, v / 2 ^ 16 % 256, v / 2 ^ 8 % 256, v % 256]

/-- Modelled from the spec: the macro `POKE_U64` of `misc.h`, which is outside
the source: "write `seqno` big-endian into an 8-byte nonce". -/
def POKE_U64 (v : Nat) : Bytes :=
  [v / 2 ^ 56 % 256, v / 2 ^ 48 % 256, v / 2 ^ 40 % 256, v / 2 ^ 32 % 256,
    v / 2 ^ 24 % 256, v / 2 ^ 16 % 256, v / 2 ^ 8 % 256, v % 256]

/-- Modelled from the spec: the function `put_u64`, which is outside the
source; the 128-bit variant is "the same" as the 64-bit one, so the nonce is
the 8 big-endian bytes of `seqno`. -/
def put_u64 (v : Nat) : Bytes := POKE_U64 v

/-- Bytes stored at the start of a buffer; the rest of the buffer stays. -/
def store (buf bytes : Bytes) : Bytes := bytes ++ buf.drop bytes.length

/-- The function `mac_setup_by_id(mac, which)` on the row `macs[which]`. The
result is `none` when the call does not return (a call through the null
`mdfunc`). The conversion `(u_int)evp_len` is the remainder modulo 2^32. -/
def mac_setup_by_id (env : MacEnv) (mac : sshmac) (e : MacEntry) : Option (Int × sshmac) :=
  let mac := { mac with type := e.type }
  let bound : Option (Int × sshmac) :=
    if mac.type = SSH_EVP then
      match e.mdfunc with
      | none => none
      | some md =>
        let mac := { mac with evp_md := some md }
        let evp_len := env.EVP_MD_size md
        if evp_len ≤ 0 then some (env.SSH_ERR_LIBCRYPTO_ERROR, mac)
        else
          some (0, { mac with
            mac_len := (evp_len % 2 ^ 32).toNat
            key_len := (evp_len % 2 ^ 32).toNat })
    else
      some (0, { mac with
        mac_len := (Int.tdiv e.len 8 % 2 ^ 32).toNat
        key_len := (Int.tdiv e.key_len 8 % 2 ^ 32).toNat
        umac_ctx := none })
  match bound with
  | none => none
  | some (r, mac) =>
    if r ≠ 0 then some (r, mac)
    else
      let mac :=
        if e.truncatebits ≠ 0 then
          { mac with mac_len := (Int.tdiv e.truncatebits 8 % 2 ^ 32).toNat }
        else mac
      some (0, { mac with etm := e.etm })

/-- The loop of `mac_setup` over the rows from `macs[i]` on. -/
def mac_setup_loop (env : MacEnv) (mac : Option sshmac) (name : CString) :
    List MacEntry → Option (Int × Option sshmac)
  | [] => some (env.SSH_ERR_INVALID_ARGUMENT, mac)
  | e :: rest =>
    if strcmp_eq name e.name = true then
      match mac with
      | some m =>
        match mac_setup_by_id env m e with
        | none => none
        | some (r, m) => some (r, some m)
      | none => some (0, none)
    else mac_setup_loop env mac name rest

/-- The function `mac_setup(mac, name)`; `mac` is `none` for a null pointer. -/
def mac_setup (env : MacEnv) (mac : Option sshmac) (name : CString) :
    Option (Int × Option sshmac) :=
  mac_setup_loop env mac name macs

/-- The function `mac_init(mac)`; `none` when the call does not return. -/
def mac_init (env : MacEnv) (mac : sshmac) : Option (Int × sshmac) :=
  match mac.key with
  | none => some (env.SSH_ERR_INVALID_ARGUMENT, mac)
  | some key =>
    if mac.type = SSH_EVP then
      match mac.evp_md with
      | none => some (env.SSH_ERR_INVALID_ARGUMENT, mac)
      | some md =>
        let ctx := env.HMAC_CTX_init mac.evp_ctx
        let (r, ctx) := env.HMAC_Init ctx (some key) mac.key_len (some md)
        if r ≠ 1 then
          some (env.SSH_ERR_LIBCRYPTO_ERROR, { mac with evp_ctx := env.HMAC_cleanup ctx })
        else some (0, { mac with evp_ctx := ctx })
    else if mac.type = SSH_UMAC then
      match env.umac_new key with
      | none => some (env.SSH_ERR_ALLOC_FAIL, { mac with umac_ctx := none })
      | some ctx => some (0, { mac with umac_ctx := some ctx })
    else if mac.type = SSH_UMAC128 then
      some (0, { mac with umac_ctx := env.umac128_new key })
    else some (env.SSH_ERR_INVALID_ARGUMENT, mac)

/-- What a call of `mac_compute` leaves: its result, the mac, the static buffer
`m` and the caller's buffer `digest`. -/
structure Computed where
  result : Int
  mac : sshmac
  m : Bytes
  digest : Option Bytes
  deriving DecidableEq, Repr

/-- The function `mac_compute(mac, seqno, data, datalen, digest, dlen)`, with
`datalen` the length of `data`, `digest` the contents of the caller's buffer
(`none` for a null pointer) and `m` the contents of the static buffer, whose
size is `MAC_DIGEST_LEN_MAX`. The result is `none` when the call does not
return or writes outside a buffer. -/
def mac_compute (env : MacEnv) (mac : sshmac) (seqno : Nat) (data : Bytes)
    (digest : Option Bytes) (dlen : Nat) (m : Bytes) : Option Computed :=
  let finish (mac : sshmac) (m : Bytes) : Option Computed :=
    match digest with
    | none => some ⟨0, mac, m, none⟩
    | some d =>
      let dlen := if dlen > mac.mac_len then mac.mac_len else dlen
      if dlen ≤ d.length then some ⟨0, mac, m, some (store d (m.take dlen))⟩ else none
  if mac.mac_len > env.MAC_DIGEST_LEN_MAX then
    some ⟨env.SSH_ERR_INTERNAL_ERROR, mac, m, digest⟩
  else if mac.type = SSH_EVP then
    let b := POKE_U32 seqno
    let (r1, c1) := env.HMAC_Init mac.evp_ctx none 0 none
    if r1 ≠ 1 then some ⟨env.SSH_ERR_LIBCRYPTO_ERROR, { mac with evp_ctx := c1 }, m, digest⟩
    else
      let (r2, c2) := env.HMAC_Update c1 b
      if r2 ≠ 1 then some ⟨env.SSH_ERR_LIBCRYPTO_ERROR, { mac with evp_ctx := c2 }, m, digest⟩
      else
        let (r3, c3) := env.HMAC_Update c2 data
        if r3 ≠ 1 then
          some ⟨env.SSH_ERR_LIBCRYPTO_ERROR, { mac with evp_ctx := c3 }, m, digest⟩
        else
          let (r4, c4, out) := env.HMAC_Final c3
          if out.length > m.length then none
          else if r4 ≠ 1 then
            some ⟨env.SSH_ERR_LIBCRYPTO_ERROR, { mac with evp_ctx := c4 }, store m out, digest⟩
          else finish { mac with evp_ctx := c4 } (store m out)
  else if mac.type = SSH_UMAC then
    let nonce := POKE_U64 seqno
    match mac.umac_ctx with
    | none => none
    | some ctx =>
      let ctx := env.umac_update ctx data
      let (ctx, out) := env.umac_final ctx nonce
      if out.length > m.length then none
      else finish { mac with umac_ctx := some ctx } (store m out)
  else if mac.type = SSH_UMAC128 then
    let nonce := put_u64 seqno
    match mac.umac_ctx with
    | none => none
    | some ctx =>
      let ctx := env.umac128_update ctx data
      let (ctx, out) := env.umac128_final ctx nonce
      if out.length > m.length then none
      else finish { mac with umac_ctx := some ctx } (store m out)
  else some ⟨env.SSH_ERR_INVALID_ARGUMENT, mac, m, digest⟩

/-- The function `mac_clear(mac)`. The deleted UMAC context is freed and the
pointer to it is then set to null, so nothing of it stays in the struct. -/
def mac_clear (env : MacEnv) (mac : sshmac) : sshmac :=
  let mac :=
    if mac.type = SSH_UMAC then mac
    else if mac.type = SSH_UMAC128 then mac
    else if mac.evp_md ≠ none then { mac with evp_ctx := env.HMAC_cleanup mac.evp_ctx }
    else mac
  { mac with evp_md := none, umac_ctx := none }

/-- The loop of `mac_valid` over the tokens `strsep` yields: it ends at the
first empty token and when the tokens run out. The result is `none` when the
call does not return. -/
def mac_valid_loop (env : MacEnv) : List CString → Option Int
  | [] => some 1
  | p :: rest =>
    if p = [] then some 1
    else
      match mac_setup env none p with
      | none => none
      | some (r, _) => if r < 0 then some 0 else mac_valid_loop env rest

/-- The function `mac_valid(names)`; `names` is `none` for a null pointer. The
copy made by `strdup` is taken to succeed. -/
def mac_valid (env : MacEnv) (names : Option CString) : Option Int :=
  match names with
  | none => some 0
  | some names =>
    if strcmp_eq names [] = true then some 0
    else mac_valid_loop env (strsep_all names)

/-! ## Notions of the claims about the MAC engine -/

/-- The error codes are negative, as the test `mac_setup(NULL, p) < 0` of
`mac_valid` expects. -/
def MacEnv.errors_negative (env : MacEnv) : Prop :=
  env.SSH_ERR_INTERNAL_ERROR < 0 ∧ env.SSH_ERR_ALLOC_FAIL < 0 ∧
  env.SSH_ERR_INVALID_ARGUMENT < 0 ∧ env.SSH_ERR_LIBCRYPTO_ERROR < 0

/-- Every digest has a size, and the size is a positive `int`. -/
def MacEnv.digest_sizes (env : MacEnv) : Prop :=
  ∀ md, 0 < env.EVP_MD_size md ∧ env.EVP_MD_size md < 2 ^ 31

/-- The digest sizes of OpenSSL in bytes. -/
def MacEnv.openssl_sizes (env : MacEnv) : Prop :=
  env.EVP_MD_size .sha1 = 20 ∧ env.EVP_MD_size .sha256 = 32 ∧
  env.EVP_MD_size .sha512 = 64 ∧ env.EVP_MD_size .md5 = 16 ∧
  env.EVP_MD_size .ripemd160 = 20

/-- The contract of the OpenSSL calls `mac.c` makes, in terms of the keyed hash
`HMAC`: `HMAC_Init` with a key and a digest keys the context with the first
`len` bytes of the key; `HMAC_Init` without them resets a keyed context and
keeps its key; `HMAC_Update` feeds bytes to a keyed context; `HMAC_Final` on a
keyed context gives the keyed hash of the bytes fed and leaves the context
keyed; all of them then return 1; and the keyed hash has the size of its
digest. -/
def MacEnv.hmac_library (env : MacEnv) : Prop :=
  (∀ ctx key len md,
    env.HMAC_Init ctx (some key) len (some md) = (1, ⟨some md, key.take len, []⟩)) ∧
  (∀ ctx, ctx.md ≠ none → env.HMAC_Init ctx none 0 none = (1, { ctx with data := [] })) ∧
  (∀ ctx bytes, ctx.md ≠ none →
    env.HMAC_Update ctx bytes = (1, { ctx with data := ctx.data ++ bytes })) ∧
  (∀ ctx md, ctx.md = some md →
    (env.HMAC_Final ctx).1 = 1 ∧
    (env.HMAC_Final ctx).2.2 = env.HMAC md ctx.key ctx.data ∧
    (env.HMAC_Final ctx).2.1.md = some md ∧
    (env.HMAC_Final ctx).2.1.key = ctx.key) ∧
  (∀ md key msg, ((env.HMAC md key msg).length : Int) = env.EVP_MD_size md)

/-- A mac that has been set up and keyed: `mac_setup` for the name returned 0,
the key was stored and `mac_init` returned 0. -/
def mac_keyed (env : MacEnv) (mac : sshmac) (name : CString) (key : Bytes) : Option sshmac :=
  match mac_setup env (some mac) name with
  | some (r, some mac) =>
    if r = 0 then
      match mac_init env { mac with key := some key } with
      | some (r, mac) => if r = 0 then some mac else none
      | none => none
    else none
  | _ => none

/-- An HMAC-family mac whose context is keyed with the digest `md` and the key
`key` and whose tag length is `n`. -/
def hmac_ready (md : EvpMd) (key : Bytes) (n : Nat) (mac : sshmac) : Prop :=
  mac.type = SSH_EVP ∧ mac.mac_len = n ∧ mac.evp_ctx.md = some md ∧ mac.evp_ctx.key = key

instance (md : EvpMd) (key : Bytes) (n : Nat) (mac : sshmac) :
    Decidable (hmac_ready md key n mac) := by
  unfold hmac_ready; infer_instance

/-- The tag length of a table row of the HMAC family over a digest of `size`
bytes: the truncation in bytes if there is one, otherwise the digest size. -/
def entry_mac_len (e : MacEntry) (size : Int) : Int :=
  if e.truncatebits ≠ 0 then e.truncatebits / 8 else size

/-- A struct `sshmac` as allocated, all fields zero or null. -/
def sshmac.zero : sshmac :=
  { type := 0, mac_len := 0, key := none, key_len := 0, etm := 0, evp_md := none,
    evp_ctx := ⟨none, [], []⟩, umac_ctx := none }

/-- The tag of a packet under the named algorithm and the key: the mac is set up
and keyed, and `mac_compute` fills a buffer of `mac_len` bytes. -/
def packet_tag (env : MacEnv) (name : CString) (key : Bytes) (seqno : Nat) (data : Bytes) :
    Option Bytes :=
  match mac_keyed env sshmac.zero name key with
  | none => none
  | some mac =>
    match mac_compute env mac seqno data (some (List.replicate mac.mac_len 0)) mac.mac_len
        (List.replicate env.MAC_DIGEST_LEN_MAX 0) with
    | none => none
    | some c => c.digest

/-! ## Example data for the MAC engine -/

/-- A stand-in for the keyed hash with the digest sizes of OpenSSL: byte `i` of
the result is `i` plus the sums of key and message, modulo 256. It has the
length of the real keyed hash and none of its strength. -/
def ex_hmac (md : EvpMd) (key msg : Bytes) : Bytes :=
  let size : Nat :=
    match md with
    | .sha1 => 20
    | .sha256 => 32
    | .sha512 => 64
    | .md5 => 16
    | .ripemd160 => 20
  (List.range size).map (fun i => (i + key.sum + msg.sum) % 256)

/-- A library that meets the contract `MacEnv.hmac_library` with the stand-in
`ex_hmac`, the digest sizes of OpenSSL, a staging buffer of 64 bytes and the
error codes -1, -2, -10 and -22. -/
def ex_macenv : MacEnv :=
  { SSH_ERR_INTERNAL_ERROR := -1
    SSH_ERR_ALLOC_FAIL := -2
    SSH_ERR_INVALID_ARGUMENT := -10
    SSH_ERR_LIBCRYPTO_ERROR := -22
    MAC_DIGEST_LEN_MAX := 64
    EVP_MD_size := fun md =>
      match md with
      | .sha1 => 20
      | .sha256 => 32
      | .sha512 => 64
      | .md5 => 16
      | .ripemd160 => 20
    HMAC := ex_hmac
    HMAC_CTX_init := fun _ => ⟨none, [], []⟩
    HMAC_Init := fun ctx key len md =>
      match key, md with
      | some k, some d => (1, ⟨some d, k.take len, []⟩)
      | _, _ => if ctx.md ≠ none then (1, { ctx with data := [] }) else (0, ctx)
    HMAC_Update := fun ctx bytes =>
      if ctx.md ≠ none then (1, { ctx with data := ctx.data ++ bytes }) else (0, ctx)
    HMAC_Final := fun ctx =>
      match ctx.md with
      | some d => (1, ctx, ex_hmac d ctx.key ctx.data)
      | none => (0, ctx, [])
    HMAC_cleanup := fun _ => ⟨none, [], []⟩
    umac_new := fun key => some ⟨key, []⟩
    umac_update := fun ctx bytes => { ctx with data := ctx.data ++ bytes }
    umac_final := fun ctx nonce =>
      ({ ctx with data := [] },
        (List.range 8).map (fun i => (i + ctx.key.sum + ctx.data.sum + nonce.sum) % 256))
    umac128_new := fun key => some ⟨key, []⟩
    umac128_update := fun ctx bytes => { ctx with data := ctx.data ++ bytes }
    umac128_final := fun ctx nonce =>
      ({ ctx with data := [] },
        (List.range 16).map (fun i => (i + ctx.key.sum + ctx.data.sum + nonce.sum) % 256)) }

/-- A key of 20 bytes. -/
def ex_key : Bytes := (List.range 20).map (fun i => i + 1)

end Mac

namespace Auth2

/-! ## Strings: helper lemmas -/

theorem strncmp_eq_length_iff (s : CString) :
    ∀ L : CString, strncmp_eq L s s.length = true ↔ ∃ rest, L = s ++ rest := by
  induction s with
  | nil => intro L; simp [strncmp_eq]
  | cons y b ih =>
    intro L
    cases L with
    | nil => simp [strncmp_eq]
    | cons x a =>
      simp only [List.length_cons, strncmp_eq, Bool.and_eq_true, beq_iff_eq, ih a,
        List.cons_append, List.cons.injEq]
      constructor
      · rintro ⟨rfl, rest, rfl⟩
        exact ⟨rest, rfl, rfl⟩
      · rintro ⟨rest, rfl, rfl⟩
        exact ⟨rfl, rest, rfl⟩

theorem getElem?_append_length (s rest : CString) :
    (s ++ rest)[s.length]? = rest.head? := by
  induction s with
  | nil => cases rest <;> simp
  | cons c s ih => simpa using ih

theorem list_starts_with_cases (L s : CString) :
    list_starts_with L s = 0 ∨ list_starts_with L s = 1 := by
  unfold list_starts_with
  simp only
  split
  · exact Or.inl rfl
  · split
    · exact Or.inl rfl
    · exact Or.inr rfl

theorem list_starts_with_eq_one_iff (L s : CString) :
    list_starts_with L s = 1 ↔ L = s ∨ ∃ rest, L = s ++ ',' :: rest := by
  unfold list_starts_with
  simp only
  constructor
  · intro h
    split at h
    · simp at h
    · rename_i h1
      simp only [Bool.not_eq_false] at h1
      obtain ⟨rest, rfl⟩ := (strncmp_eq_length_iff s L).1 h1
      split at h
      · simp at h
      · rename_i h2
        rw [getElem?_append_length] at h2
        cases rest with
        | nil => left; simp
        | cons c r =>
          right
          simp only [List.head?_cons, ne_eq, Option.some.injEq, not_false_eq_true,
            and_true, reduceCtorEq, Decidable.not_not] at h2
          exact ⟨r, by rw [h2]⟩
  · intro h
    have h1 : strncmp_eq L s s.length = true := by
      rw [strncmp_eq_length_iff]
      rcases h with rfl | ⟨rest, rfl⟩
      · exact ⟨[], by simp⟩
      · exact ⟨_, rfl⟩
    rw [if_neg (by simp [h1])]
    rcases h with rfl | ⟨rest, rfl⟩
    · have := getElem?_append_length L []
      simp only [List.append_nil, List.head?_nil] at this
      simp [this]
    · rw [getElem?_append_length]
      simp

theorem list_starts_with_ne_zero_iff (L s : CString) :
    list_starts_with L s ≠ 0 ↔ list_starts_with L s = 1 := by
  rcases list_starts_with_cases L s with h | h <;> simp [h]

/-- The tokens of `strsep_all` are those of repeated `strsep`: the first token,
then the tokens of what `strsep` leaves, until it leaves NULL. -/
theorem strsep_all_eq_strsep (s : CString) :
    strsep_all s =
      (strsep s).1 ::
        (match (strsep s).2 with
          | none => []
          | some rest => strsep_all rest) := by
  induction s with
  | nil => rfl
  | cons c cs ih =>
    by_cases hc : c = ','
    · simp [strsep_all, strsep, hc]
    · rw [strsep_all, if_neg hc, ih]
      simp [strsep, hc]

theorem strsep_all_ne_nil (L : CString) : strsep_all L ≠ [] := by
  induction L with
  | nil => simp [strsep_all]
  | cons c cs ih =>
    unfold strsep_all
    split
    · simp
    · split <;> simp

theorem strsep_all_comma_free (s : CString) (hs : ',' ∉ s) : strsep_all s = [s] := by
  induction s with
  | nil => rfl
  | cons c cs ih =>
    simp only [List.mem_cons, not_or] at hs
    have hc : c ≠ ',' := fun h => hs.1 h.symm
    simp [strsep_all, hc, ih hs.2]

theorem strsep_all_append_comma (s rest : CString) (hs : ',' ∉ s) :
    strsep_all (s ++ ',' :: rest) = s :: strsep_all rest := by
  induction s with
  | nil => simp [strsep_all]
  | cons c cs ih =>
    simp only [List.mem_cons, not_or] at hs
    have hc : c ≠ ',' := fun h => hs.1 h.symm
    simp [strsep_all, hc, ih hs.2]

/-- Every string is a comma-free first token, alone or followed by a comma and
the rest. -/
theorem first_token_split (L : CString) :
    ∃ t, ',' ∉ t ∧ (L = t ∨ ∃ rest, L = t ++ ',' :: rest) := by
  induction L with
  | nil => exact ⟨[], by simp, Or.inl rfl⟩
  | cons c cs ih =>
    by_cases hc : c = ','
    · exact ⟨[], by simp, Or.inr ⟨cs, by simp [hc]⟩⟩
    · obtain ⟨t, ht, h⟩ := ih
      refine ⟨c :: t, ?_, ?_⟩
      · simp only [List.mem_cons, not_or]
        exact ⟨fun h => hc h.symm, ht⟩
      · rcases h with rfl | ⟨rest, rfl⟩
        · exact Or.inl rfl
        · exact Or.inr ⟨rest, rfl⟩

theorem head_strsep_all_iff (L s : CString) (hs : ',' ∉ s) :
    (strsep_all L).head? = some s ↔ L = s ∨ ∃ rest, L = s ++ ',' :: rest := by
  constructor
  · intro h
    obtain ⟨t, ht, hL⟩ := first_token_split L
    rcases hL with rfl | ⟨rest, rfl⟩
    · rw [strsep_all_comma_free _ ht] at h
      simp only [List.head?_cons, Option.some.injEq] at h
      exact Or.inl h
    · rw [strsep_all_append_comma _ _ ht] at h
      simp only [List.head?_cons, Option.some.injEq] at h
      exact Or.inr ⟨rest, by rw [h]⟩
  · rintro (rfl | ⟨rest, rfl⟩)
    · rw [strsep_all_comma_free _ hs]; rfl
    · rw [strsep_all_append_comma _ _ hs]; rfl

/-- For a comma-free name, `list_starts_with` is equality with the first
token. -/
theorem list_starts_with_iff_head (L s : CString) (hs : ',' ∉ s) :
    list_starts_with L s = 1 ↔ (strsep_all L).head? = some s := by
  rw [list_starts_with_eq_one_iff, head_strsep_all_iff L s hs]

theorem remove_method_fst (L s : CString) :
    (remove_method L s).1 = list_starts_with L s := by
  unfold remove_method
  simp only
  rcases list_starts_with_cases L s with h | h <;> simp [h]

theorem remove_method_snd_self (s : CString) : (remove_method s s).2 = [] := by
  have h : list_starts_with s s = 1 := (list_starts_with_eq_one_iff s s).2 (Or.inl rfl)
  unfold remove_method
  simp [h]

theorem remove_method_snd_comma (s rest : CString) :
    (remove_method (s ++ ',' :: rest) s).2 = rest := by
  have h : list_starts_with (s ++ ',' :: rest) s = 1 :=
    (list_starts_with_eq_one_iff _ s).2 (Or.inr ⟨rest, rfl⟩)
  unfold remove_method
  simp only
  rw [getElem?_append_length]
  simp [h]

theorem remove_method_snd_of_zero (L s : CString) (h : list_starts_with L s = 0) :
    (remove_method L s).2 = L := by
  unfold remove_method
  simp [h]

/-! ## The update loop -/

theorem remove_method_snd_eq_nil_iff (L s : CString) :
    (remove_method L s).1 ≠ 0 ∧ (remove_method L s).2 = [] ↔ completes s L := by
  rw [remove_method_fst, list_starts_with_ne_zero_iff, list_starts_with_eq_one_iff]
  unfold completes
  constructor
  · rintro ⟨h | ⟨rest, h⟩, h2⟩
    · exact Or.inl h
    · subst h
      rw [remove_method_snd_comma] at h2
      subst h2
      exact Or.inr rfl
  · rintro (rfl | rfl)
    · exact ⟨Or.inl rfl, remove_method_snd_self _⟩
    · exact ⟨Or.inr ⟨[], rfl⟩, remove_method_snd_comma _ _⟩

theorem update_loop_length (method : CString) (lists : List CString) :
    ∀ found, (update_loop method lists found).1.length = lists.length := by
  induction lists with
  | nil => intro found; simp [update_loop]
  | cons m rest ih =>
    intro found
    unfold update_loop
    split
    · simp [ih]
    · split <;> simp [ih]

theorem update_loop_returned_iff (method : CString) (lists : List CString) :
    ∀ found, (update_loop method lists found).2.1 = true ↔
      ∃ L ∈ lists, completes method L := by
  induction lists with
  | nil => intro found; simp [update_loop]
  | cons m rest ih =>
    intro found
    have key := remove_method_snd_eq_nil_iff m method
    unfold update_loop
    split
    · rename_i h0
      have hm : ¬ completes method m := fun hc => (key.2 hc).1 h0
      simp [ih, hm]
    · rename_i h0
      split
      · rename_i h1
        have hm : completes method m := key.1 ⟨h0, h1⟩
        simp [hm]
      · rename_i h1
        have hm : ¬ completes method m := fun hc => h1 (key.2 hc).2
        simp [ih, hm]

theorem update_loop_found (method : CString) (lists : List CString) :
    ∀ found, (update_loop method lists found).2.1 = false →
      (update_loop method lists found).2.2 =
        if ∃ L ∈ lists, list_starts_with L method = 1 then 1 else found := by
  induction lists with
  | nil => intro found _; simp [update_loop]
  | cons m rest ih =>
    intro found
    unfold update_loop
    split
    · rename_i h0
      rw [remove_method_fst] at h0
      intro h
      have := ih found h
      simp only [this, List.mem_cons, exists_eq_or_imp, h0]
      simp
    · rename_i h0
      rw [remove_method_fst, ← ne_eq, list_starts_with_ne_zero_iff] at h0
      split
      · simp
      · intro h
        have := ih 1 h
        simp only [this, List.mem_cons, exists_eq_or_imp, h0]
        simp

theorem update_loop_lists_of_not_returned (method : CString) (lists : List CString) :
    ∀ found, (update_loop method lists found).2.1 = false →
      (update_loop method lists found).1 = lists.map (fun L => (remove_method L method).2) := by
  induction lists with
  | nil => intro found _; simp [update_loop]
  | cons m rest ih =>
    intro found
    unfold update_loop
    split
    · rename_i h0
      rw [remove_method_fst] at h0
      intro h
      simp [ih found h, remove_method_snd_of_zero _ _ h0]
    · split
      · simp
      · intro h
        simp [ih 1 h]

theorem update_loop_lists_of_returned (method : CString) (lists : List CString) :
    ∀ found, (update_loop method lists found).2.1 = true →
      ∃ pre L post, lists = pre ++ L :: post ∧ (∀ K ∈ pre, ¬ completes method K) ∧
        completes method L ∧
        (update_loop method lists found).1 =
          pre.map (fun K => (remove_method K method).2) ++ [] :: post := by
  induction lists with
  | nil => intro found h; simp [update_loop] at h
  | cons m rest ih =>
    intro found
    have key := remove_method_snd_eq_nil_iff m method
    unfold update_loop
    split
    · rename_i h0
      intro h
      obtain ⟨pre, L, post, h1, h2, h3, h4⟩ := ih found h
      refine ⟨m :: pre, L, post, by simp [h1], ?_, h3, ?_⟩
      · intro K hK
        rcases List.mem_cons.1 hK with rfl | hK
        · exact fun hc => (key.2 hc).1 h0
        · exact h2 K hK
      · rw [remove_method_fst] at h0
        simp [h4, remove_method_snd_of_zero _ _ h0]
    · rename_i h0
      split
      · rename_i h1
        intro _
        exact ⟨[], m, rest, rfl, by simp, key.1 ⟨h0, h1⟩, by simp [h1]⟩
      · rename_i h1
        intro h
        obtain ⟨pre, L, post, h1', h2, h3, h4⟩ := ih 1 h
        refine ⟨m :: pre, L, post, by simp [h1'], ?_, h3, ?_⟩
        · intro K hK
          rcases List.mem_cons.1 hK with rfl | hK
          · exact fun hc => h1 (key.2 hc).2
          · exact h2 K hK
        · simp [h4]

theorem completes_starts (method L : CString) (h : completes method L) :
    list_starts_with L method = 1 := by
  rw [list_starts_with_eq_one_iff]
  rcases h with h | h
  · exact Or.inl h
  · exact Or.inr ⟨[], h⟩

/-- The three endings of `auth2_update_methods_lists`, by the lists of the
context. -/
theorem update_cases (authctxt : Authctxt) (method : CString) :
    ((∃ L ∈ authctxt.auth_methods, completes method L) ∧
      auth2_update_methods_lists authctxt method =
        .returned { authctxt with
          auth_methods := (update_loop method authctxt.auth_methods 0).1 } 1) ∨
    ((¬ ∃ L ∈ authctxt.auth_methods, completes method L) ∧
      (∃ L ∈ authctxt.auth_methods, list_starts_with L method = 1) ∧
      auth2_update_methods_lists authctxt method =
        .returned { authctxt with
          auth_methods :=
            authctxt.auth_methods.map (fun L => (remove_method L method).2) } 0) ∨
    ((¬ ∃ L ∈ authctxt.auth_methods, list_starts_with L method = 1) ∧
      auth2_update_methods_lists authctxt method = .fatal authctxt .method_not_in_lists) := by
  by_cases hc : ∃ L ∈ authctxt.auth_methods, completes method L
  · left
    refine ⟨hc, ?_⟩
    have := (update_loop_returned_iff method authctxt.auth_methods 0).2 hc
    simp [auth2_update_methods_lists, this]
  · right
    have hr : (update_loop method authctxt.auth_methods 0).2.1 = false := by
      rw [← Bool.not_eq_true, update_loop_returned_iff]; exact hc
    have hf := update_loop_found method authctxt.auth_methods 0 hr
    have hl := update_loop_lists_of_not_returned method authctxt.auth_methods 0 hr
    by_cases hs : ∃ L ∈ authctxt.auth_methods, list_starts_with L method = 1
    · left
      refine ⟨hc, hs, ?_⟩
      rw [if_pos hs] at hf
      simp [auth2_update_methods_lists, hr, hf, hl]
    · right
      refine ⟨hs, ?_⟩
      rw [if_neg hs] at hf
      have hmap : authctxt.auth_methods.map (fun L => (remove_method L method).2) =
          authctxt.auth_methods := by
        conv_rhs => rw [← List.map_id authctxt.auth_methods]
        apply List.map_congr_left
        intro L hL
        have h0 : list_starts_with L method = 0 := by
          rcases list_starts_with_cases L method with h | h
          · exact h
          · exact absurd ⟨L, hL, h⟩ hs
        simp [remove_method_snd_of_zero _ _ h0]
      simp [auth2_update_methods_lists, hr, hf, hl, hmap]

/-! ## Setup keeps well-formed lists -/

theorem methods_valid_find_found (need_enable : Int) (method : CString) (ms : List Authmethod)
    (h : methods_valid_find need_enable method ms = .found) :
    ∃ m ∈ ms, m.name = method ∧
      (need_enable ≠ 0 → m.enabled ≠ none ∧ m.enabled ≠ some 0) := by
  induction ms with
  | nil => simp [methods_valid_find] at h
  | cons m ms ih =>
    unfold methods_valid_find at h
    split at h
    · obtain ⟨m', hm', h'⟩ := ih h
      exact ⟨m', List.mem_cons_of_mem _ hm', h'⟩
    · rename_i hname
      split at h
      · simp at h
      · rename_i hen
        refine ⟨m, List.mem_cons_self _ _, ?_, ?_⟩
        · simp only [strcmp_eq, Bool.not_eq_false, decide_eq_true_eq] at hname
          exact hname.symm
        · intro hne
          simp only [not_and, not_or] at hen
          exact hen hne

theorem methods_valid_loop_zero (ms : List Authmethod) (need_enable : Int)
    (tokens : List CString) (h : methods_valid_loop ms need_enable tokens = 0) :
    ∀ t ∈ tokens, methods_valid_find need_enable t ms = .found := by
  induction tokens with
  | nil => simp
  | cons t ts ih =>
    unfold methods_valid_loop at h
    split at h
    · rename_i hf
      intro t' ht'
      rcases List.mem_cons.1 ht' with rfl | ht'
      · exact hf
      · exact ih h t' ht'
    · simp at h
    · simp at h

theorem setup_loop_eq_filter (env : Env) (cfg : List CString) :
    setup_loop env cfg = cfg.filter (fun L => decide (auth2_methods_valid env L 1 = 0)) := by
  induction cfg with
  | nil => rfl
  | cons l ls ih =>
    unfold setup_loop
    by_cases h : auth2_methods_valid env l 1 = 0
    · simp [h, ih]
    · simp [h, ih]

/-- The tokens of a list accepted by `auth2_methods_valid` are names of the
registry. -/
theorem valid_tokens_registered (env : Env) (L : CString) (need_enable : Int)
    (h : auth2_methods_valid env L need_enable = 0) :
    L ≠ [] ∧ ∀ t ∈ strsep_all L, ∃ m ∈ env.authmethods, m.name = t ∧
      (need_enable ≠ 0 → m.enabled ≠ none ∧ m.enabled ≠ some 0) := by
  unfold auth2_methods_valid at h
  split at h
  · simp at h
  · rename_i hne
    refine ⟨hne, fun t ht => ?_⟩
    exact methods_valid_find_found _ _ _ (methods_valid_loop_zero _ _ _ h t ht)

theorem kept_tokens_nonempty (env : Env) (hnames : registry_names_nonempty env) (L : CString)
    (hL : L ∈ setup_loop env env.options.auth_methods) :
    ∀ t ∈ strsep_all L, t ≠ [] := by
  rw [setup_loop_eq_filter, List.mem_filter] at hL
  have hv : auth2_methods_valid env L 1 = 0 := by simpa using hL.2
  intro t ht
  obtain ⟨m, hm, hname, _⟩ := (valid_tokens_registered env L 1 hv).2 t ht
  rw [← hname]
  exact hnames m hm

theorem setup_lists (env : Env) (authctxt : Authctxt) (h : env.num_auth_methods ≠ 0) :
    (auth2_setup_methods_lists env authctxt).1.auth_methods =
      setup_loop env env.options.auth_methods := by
  unfold auth2_setup_methods_lists
  rw [if_neg h]
  simp only
  split <;> rfl

theorem not_completes_comma_of_tokens (method L : CString) (hm : ',' ∉ method)
    (hL : ∀ t ∈ strsep_all L, t ≠ []) : L ≠ method ++ [','] := by
  intro h
  subst h
  rw [strsep_all_append_comma _ _ hm] at hL
  exact hL [] (by simp [strsep_all]) rfl

theorem remove_method_snd_eq_strip (name L : CString) (hn : ',' ∉ name) :
    (remove_method L name).2 = strip_first_token name L := by
  unfold strip_first_token
  by_cases h : list_starts_with L name = 1
  · have h' := (list_starts_with_iff_head L name hn).1 h
    rw [if_pos h']
    rcases (list_starts_with_eq_one_iff L name).1 h with rfl | ⟨rest, rfl⟩
    · rw [remove_method_snd_self]; simp
    · rw [remove_method_snd_comma]
      simp
  · have h' : ¬ (strsep_all L).head? = some name := fun hh =>
      h ((list_starts_with_iff_head L name hn).2 hh)
    rw [if_neg h']
    rcases list_starts_with_cases L name with h0 | h1
    · exact remove_method_snd_of_zero _ _ h0
    · exact absurd h1 h

theorem method_allowed_loop_iff (method : CString) (lists : List CString) :
    (method_allowed_loop method lists = 1 ↔ ∃ L ∈ lists, list_starts_with L method = 1) ∧
    (method_allowed_loop method lists = 0 ∨ method_allowed_loop method lists = 1) := by
  induction lists with
  | nil => simp [method_allowed_loop]
  | cons l ls ih =>
    unfold method_allowed_loop
    rcases list_starts_with_cases l method with h | h
    · simp only [h, ne_eq, not_true_eq_false, if_false, List.mem_cons, exists_eq_or_imp,
        zero_ne_one, false_or]
      exact ih
    · simp [h]

/-! ## Claims -/

/-- C6: for a method name without a comma, `method_allowed` returns 1 when no
multi-method policy is configured, and otherwise returns 1 iff one of the
context's remaining lists has the name as its first comma-separated token (and
0 if none has); `list_starts_with` is equality with the first token, not a
character-prefix match: "pass" does not start "password,publickey". -/
theorem C6_method_allowed (env : Env) (authctxt : Authctxt) (method : CString)
    (hm : ',' ∉ method) :
    (env.num_auth_methods = 0 → method_allowed env authctxt method = 1) ∧
    (env.num_auth_methods ≠ 0 →
      (method_allowed env authctxt method = 1 ↔
        ∃ L ∈ authctxt.auth_methods, (strsep_all L).head? = some method) ∧
      (method_allowed env authctxt method = 0 ↔
        ¬ ∃ L ∈ authctxt.auth_methods, (strsep_all L).head? = some method)) ∧
    (∀ L : CString, (list_starts_with L method = 1 ↔ (strsep_all L).head? = some method) ∧
      (list_starts_with L method = 0 ↔ (strsep_all L).head? ≠ some method)) ∧
    list_starts_with "password,publickey".toList "pass".toList = 0 := by
  have hL : ∀ L : CString,
      (list_starts_with L method = 1 ↔ (strsep_all L).head? = some method) ∧
      (list_starts_with L method = 0 ↔ (strsep_all L).head? ≠ some method) := by
    intro L
    have h1 := list_starts_with_iff_head L method hm
    refine ⟨h1, ?_⟩
    rw [ne_eq, ← h1]
    rcases list_starts_with_cases L method with h | h <;> simp [h]
  refine ⟨?_, ?_, hL, by decide⟩
  · intro h
    simp [method_allowed, h]
  · intro h
    have hl := method_allowed_loop_iff method authctxt.auth_methods
    have h1 : method_allowed env authctxt method = 1 ↔
        ∃ L ∈ authctxt.auth_methods, (strsep_all L).head? = some method := by
      simp only [method_allowed, h, if_false, hl.1]
      constructor
      · rintro ⟨L, hLm, hs⟩
        exact ⟨L, hLm, (hL L).1.1 hs⟩
      · rintro ⟨L, hLm, hs⟩
        exact ⟨L, hLm, (hL L).1.2 hs⟩
    refine ⟨h1, ?_⟩
    rw [← h1]
    have hv : method_allowed env authctxt method = 0 ∨ method_allowed env authctxt method = 1 := by
      simp only [method_allowed, h, if_false]
      exact hl.2
    rcases hv with hv | hv <;> simp [hv]

/-- C6 at the policy "password,publickey" and the name "password". -/
theorem C6_method_allowed_witness :
    ',' ∉ "password".toList ∧
    method_allowed (ex_env 6 ["password,publickey".toList])
      (ex_ctx ["password,publickey".toList]) "password".toList = 1 ∧
    method_allowed (ex_env 6 ["password,publickey".toList])
      (ex_ctx ["publickey".toList]) "password".toList = 0 :=
  ⟨by decide,
    ((C6_method_allowed (ex_env 6 ["password,publickey".toList])
      (ex_ctx ["password,publickey".toList]) "password".toList (by decide)).2.1
        (by decide)).1.2 ⟨"password,publickey".toList, by decide, by decide⟩,
    ((C6_method_allowed (ex_env 6 ["password,publickey".toList])
      (ex_ctx ["publickey".toList]) "password".toList (by decide)).2.1
        (by decide)).2.2 (by decide)⟩

theorem completes_iff_strip (method L : CString) (hm : ',' ∉ method) :
    completes method L ↔ (strsep_all L).head? = some method ∧ strip_first_token method L = [] := by
  rw [← remove_method_snd_eq_nil_iff, remove_method_fst, list_starts_with_ne_zero_iff,
    list_starts_with_iff_head L method hm, remove_method_snd_eq_strip method L hm]

theorem update_never_disconnects (authctxt : Authctxt) (method : CString) :
    (∀ a why, auth2_update_methods_lists authctxt method ≠ .disconnect a why) ∧
    (∀ a, auth2_update_methods_lists authctxt method ≠ .segv a) ∧
    (∀ a r, auth2_update_methods_lists authctxt method = .returned a r → r = 0 ∨ r = 1) := by
  rcases update_cases authctxt method with ⟨_, h⟩ | ⟨_, _, h⟩ | ⟨_, h⟩ <;> rw [h] <;>
    refine ⟨?_, ?_, ?_⟩ <;> intros <;> simp_all

/-- C7: for a method name without a comma, `auth2_update_methods_lists` returns
1 iff some remaining list whose first token is the name is empty once that
token and its trailing comma are stripped; it returns 0 iff some list starts
with the name and no such list is completed; it ends in `fatal` iff no list
starts with the name; and for the lists kept by `auth2_setup_methods_lists`
(registry names non-empty) it returns 1 iff some list is the name itself. -/
theorem C7_update_result (authctxt : Authctxt) (method : CString) (hm : ',' ∉ method) :
    ((∃ a, auth2_update_methods_lists authctxt method = .returned a 1) ↔
      ∃ L ∈ authctxt.auth_methods,
        (strsep_all L).head? = some method ∧ strip_first_token method L = []) ∧
    ((∃ a, auth2_update_methods_lists authctxt method = .returned a 0) ↔
      (∃ L ∈ authctxt.auth_methods, (strsep_all L).head? = some method) ∧
      ∀ L ∈ authctxt.auth_methods,
        (strsep_all L).head? = some method → strip_first_token method L ≠ []) ∧
    ((∃ a, auth2_update_methods_lists authctxt method = .fatal a .method_not_in_lists) ↔
      ∀ L ∈ authctxt.auth_methods, (strsep_all L).head? ≠ some method) ∧
    (∀ (env : Env) (ctx0 : Authctxt), registry_names_nonempty env →
      env.num_auth_methods ≠ 0 →
      authctxt = (auth2_setup_methods_lists env ctx0).1 →
      ((∃ a, auth2_update_methods_lists authctxt method = .returned a 1) ↔
        method ∈ authctxt.auth_methods)) := by
  have hA : (∃ L ∈ authctxt.auth_methods, completes method L) ↔
      ∃ L ∈ authctxt.auth_methods,
        (strsep_all L).head? = some method ∧ strip_first_token method L = [] := by
    constructor
    · rintro ⟨L, hL, h⟩; exact ⟨L, hL, (completes_iff_strip method L hm).1 h⟩
    · rintro ⟨L, hL, h⟩; exact ⟨L, hL, (completes_iff_strip method L hm).2 h⟩
  have hB : (∃ L ∈ authctxt.auth_methods, list_starts_with L method = 1) ↔
      ∃ L ∈ authctxt.auth_methods, (strsep_all L).head? = some method := by
    constructor
    · rintro ⟨L, hL, h⟩; exact ⟨L, hL, (list_starts_with_iff_head L method hm).1 h⟩
    · rintro ⟨L, hL, h⟩; exact ⟨L, hL, (list_starts_with_iff_head L method hm).2 h⟩
  have hAB : (∃ L ∈ authctxt.auth_methods, completes method L) →
      ∃ L ∈ authctxt.auth_methods, list_starts_with L method = 1 := by
    rintro ⟨L, hL, h⟩; exact ⟨L, hL, completes_starts method L h⟩
  have h1 : (∃ a, auth2_update_methods_lists authctxt method = .returned a 1) ↔
      ∃ L ∈ authctxt.auth_methods, completes method L := by
    rcases update_cases authctxt method with ⟨hc, h⟩ | ⟨hc, _, h⟩ | ⟨hs, h⟩
    · rw [h]; simp only [Outcome.returned.injEq, and_true, exists_eq', true_iff]; exact hc
    · rw [h]; simp only [Outcome.returned.injEq, zero_ne_one, and_false, exists_false, false_iff]
      exact hc
    · rw [h]; simp only [reduceCtorEq, exists_false, false_iff]
      exact fun hc => hs (hAB hc)
  refine ⟨h1.trans hA, ?_, ?_, ?_⟩
  · rw [← hB]
    have hall : (∀ L ∈ authctxt.auth_methods,
        (strsep_all L).head? = some method → strip_first_token method L ≠ []) ↔
        ¬ ∃ L ∈ authctxt.auth_methods, completes method L := by
      rw [hA]
      constructor
      · rintro h ⟨L, hL, h1, h2⟩; exact h L hL h1 h2
      · intro h L hL h1 h2; exact h ⟨L, hL, h1, h2⟩
    rw [hall]
    rcases update_cases authctxt method with ⟨hc, h⟩ | ⟨hc, hs, h⟩ | ⟨hs, h⟩
    · rw [h]; simp only [Outcome.returned.injEq, one_ne_zero, and_false, exists_false, false_iff]
      exact fun hh => hh.2 hc
    · rw [h]; simp only [Outcome.returned.injEq, and_true, exists_eq', true_iff]
      exact ⟨hs, hc⟩
    · rw [h]; simp only [reduceCtorEq, exists_false, false_iff]
      exact fun hh => hs hh.1
  · have hnone : (∀ L ∈ authctxt.auth_methods, (strsep_all L).head? ≠ some method) ↔
        ¬ ∃ L ∈ authctxt.auth_methods, list_starts_with L method = 1 := by
      rw [hB]
      constructor
      · rintro h ⟨L, hL, h1⟩; exact h L hL h1
      · intro h L hL h1; exact h ⟨L, hL, h1⟩
    rw [hnone]
    rcases update_cases authctxt method with ⟨hc, h⟩ | ⟨hc, hs, h⟩ | ⟨hs, h⟩
    · rw [h]; simp only [reduceCtorEq, exists_false, false_iff, not_not]
      exact hAB hc
    · rw [h]; simp only [reduceCtorEq, exists_false, false_iff, not_not]
      exact hs
    · rw [h]; simp only [Outcome.fatal.injEq, and_true, exists_eq', true_iff]
      exact hs
  · intro env ctx0 hnames hnum hctx
    rw [h1]
    have hl : authctxt.auth_methods = setup_loop env env.options.auth_methods := by
      rw [hctx]; exact setup_lists env ctx0 hnum
    constructor
    · rintro ⟨L, hL, hc | hc⟩
      · rw [← hc]; exact hL
      · exact absurd hc (not_completes_comma_of_tokens method L hm
          (kept_tokens_nonempty env hnames L (hl ▸ hL)))
    · intro h
      exact ⟨method, h, Or.inl rfl⟩

/-- C7 at the kept list "publickey,password" and the name "publickey": the
call returns 0. -/
theorem C7_update_result_witness :
    ',' ∉ "publickey".toList ∧
    ∃ a, auth2_update_methods_lists (ex_ctx ["publickey,password".toList])
      "publickey".toList = .returned a 0 :=
  ⟨by decide,
    (C7_update_result (ex_ctx ["publickey,password".toList]) "publickey".toList
      (by decide)).2.1.2 ⟨by decide, by decide⟩⟩

/-- C8, the claim as stated fails when the call returns 1: with the lists
"publickey" and "publickey,password" the first list is completed by
"publickey" and the second, which has "publickey" as its first token, is left
as it was. -/
theorem C8_counterexample :
    auth2_update_methods_lists (ex_ctx ["publickey".toList, "publickey,password".toList])
        "publickey".toList =
      .returned (ex_ctx ["".toList, "publickey,password".toList]) 1 ∧
    (strsep_all "publickey,password".toList).head? = some "publickey".toList ∧
    strip_first_token "publickey".toList "publickey,password".toList = "password".toList ∧
    (ex_ctx ["".toList, "publickey,password".toList]).auth_methods ≠
      (ex_ctx ["publickey".toList, "publickey,password".toList]).auth_methods.map
        (strip_first_token "publickey".toList) := by
  decide

/-- C8 (amended): for a name without a comma, when
`auth2_update_methods_lists` returns 0 every list whose first token was the
name has lost that token and its trailing comma and every other list is
unchanged; when it returns 1 this holds for the lists up to and including the
first list that became empty, and the lists after that one are unchanged; in
both cases the number and the order of the lists, and the rest of the context,
are preserved. -/
theorem C8_update_frame (authctxt : Authctxt) (method : CString) (hm : ',' ∉ method) :
    (∀ a, auth2_update_methods_lists authctxt method = .returned a 0 →
      a = { authctxt with
        auth_methods := authctxt.auth_methods.map (strip_first_token method) }) ∧
    (∀ a, auth2_update_methods_lists authctxt method = .returned a 1 →
      ∃ pre L post, authctxt.auth_methods = pre ++ L :: post ∧
        (∀ K ∈ pre, ¬ ((strsep_all K).head? = some method ∧ strip_first_token method K = [])) ∧
        (strsep_all L).head? = some method ∧ strip_first_token method L = [] ∧
        a = { authctxt with
          auth_methods := (pre ++ [L]).map (strip_first_token method) ++ post }) ∧
    (∀ a r, auth2_update_methods_lists authctxt method = .returned a r →
      a.auth_methods.length = authctxt.auth_methods.length) := by
  have hmap : authctxt.auth_methods.map (fun L => (remove_method L method).2) =
      authctxt.auth_methods.map (strip_first_token method) :=
    List.map_congr_left (fun L _ => remove_method_snd_eq_strip method L hm)
  have h1 : ∀ a, auth2_update_methods_lists authctxt method = .returned a 1 →
      ∃ pre L post, authctxt.auth_methods = pre ++ L :: post ∧
        (∀ K ∈ pre, ¬ ((strsep_all K).head? = some method ∧ strip_first_token method K = [])) ∧
        (strsep_all L).head? = some method ∧ strip_first_token method L = [] ∧
        a = { authctxt with
          auth_methods := (pre ++ [L]).map (strip_first_token method) ++ post } := by
    intro a ha
    rcases update_cases authctxt method with ⟨hc, h⟩ | ⟨_, _, h⟩ | ⟨_, h⟩
    · rw [h] at ha
      simp only [Outcome.returned.injEq, and_true] at ha
      have hr := (update_loop_returned_iff method authctxt.auth_methods 0).2 hc
      obtain ⟨pre, L, post, e1, e2, e3, e4⟩ :=
        update_loop_lists_of_returned method authctxt.auth_methods 0 hr
      have hL := (completes_iff_strip method L hm).1 e3
      refine ⟨pre, L, post, e1, ?_, hL.1, hL.2, ?_⟩
      · intro K hK hh
        exact e2 K hK ((completes_iff_strip method K hm).2 hh)
      · rw [← ha, e4]
        have : pre.map (fun K => (remove_method K method).2) =
            pre.map (strip_first_token method) :=
          List.map_congr_left (fun K _ => remove_method_snd_eq_strip method K hm)
        simp [this, hL.2]
    · rw [h] at ha; simp at ha
    · rw [h] at ha; simp at ha
  refine ⟨?_, h1, ?_⟩
  · intro a ha
    rcases update_cases authctxt method with ⟨_, h⟩ | ⟨_, _, h⟩ | ⟨_, h⟩
    · rw [h] at ha; simp at ha
    · rw [h] at ha
      simp only [Outcome.returned.injEq, and_true] at ha
      rw [← ha, hmap]
    · rw [h] at ha; simp at ha
  · intro a r ha
    rcases (update_never_disconnects authctxt method).2.2 a r ha with rfl | rfl
    · rcases update_cases authctxt method with ⟨_, h⟩ | ⟨_, _, h⟩ | ⟨_, h⟩
      · rw [h] at ha; simp at ha
      · rw [h] at ha
        simp only [Outcome.returned.injEq, and_true] at ha
        rw [← ha]; simp
      · rw [h] at ha; simp at ha
    · obtain ⟨pre, L, post, e1, _, _, _, e5⟩ := h1 a ha
      rw [e5, e1]; simp

/-- C8 (amended) at the lists "publickey,password" and "password" and the name
"publickey". -/
theorem C8_update_frame_witness :
    ',' ∉ "publickey".toList ∧
    ∀ a, auth2_update_methods_lists
        (ex_ctx ["publickey,password".toList, "password".toList]) "publickey".toList =
          .returned a 0 →
      a = { ex_ctx ["publickey,password".toList, "password".toList] with
        auth_methods := ["publickey,password".toList, "password".toList].map
          (strip_first_token "publickey".toList) } :=
  ⟨by decide,
    (C8_update_frame (ex_ctx ["publickey,password".toList, "password".toList])
      "publickey".toList (by decide)).1⟩

/-! ## Admission -/

theorem forall2_map_right {α β : Type} {R R' : α → β → Prop} {f : β → β} :
    ∀ {xs : List α} {ys : List β}, List.Forall₂ R xs ys →
      (∀ x y, y ∈ ys → R x y → R' x (f y)) → List.Forall₂ R' xs (ys.map f) := by
  intro xs ys h
  induction h with
  | nil => intro _; exact List.Forall₂.nil
  | cons hxy _ ih =>
    intro hf
    rw [List.map_cons]
    exact List.Forall₂.cons (hf _ _ (List.mem_cons_self _ _) hxy)
      (ih (fun x y hy hR => hf x y (List.mem_cons_of_mem _ hy) hR))

theorem forall2_mem_right {α β : Type} {R : α → β → Prop} :
    ∀ {xs : List α} {ys : List β}, List.Forall₂ R xs ys →
      ∀ y ∈ ys, ∃ x ∈ xs, R x y := by
  intro xs ys h
  induction h with
  | nil => intro y hy; simp at hy
  | cons hxy _ ih =>
    intro y hy
    rcases List.mem_cons.1 hy with rfl | hy
    · exact ⟨_, List.mem_cons_self _ _, hxy⟩
    · obtain ⟨x, hx, hR⟩ := ih y hy
      exact ⟨x, List.mem_cons_of_mem _ hx, hR⟩

theorem forall2_same {α : Type} {R : α → α → Prop} :
    ∀ (xs : List α), (∀ x ∈ xs, R x x) → List.Forall₂ R xs xs := by
  intro xs
  induction xs with
  | nil => intro _; exact List.Forall₂.nil
  | cons x xs ih =>
    intro h
    exact List.Forall₂.cons (h x (List.mem_cons_self _ _))
      (ih (fun y hy => h y (List.mem_cons_of_mem _ hy)))

/-- One successful name that completes no list keeps `remains_of`. -/
theorem remains_of_step (done : List CString) (L0 K s : CString) (hs : ',' ∉ s)
    (hK : remains_of done L0 K) (hc : ¬ completes s K) :
    remains_of (done ++ [s]) L0 (remove_method K s).2 := by
  obtain ⟨hwf, t, ht, hsub⟩ := hK
  rcases list_starts_with_cases K s with h0 | h1
  · rw [remove_method_snd_of_zero _ _ h0]
    exact ⟨hwf, t, ht, hsub.trans (List.sublist_append_left done [s])⟩
  · rcases (list_starts_with_eq_one_iff K s).1 h1 with rfl | ⟨rest, rfl⟩
    · exact absurd (Or.inl rfl) hc
    · rw [remove_method_snd_comma]
      rw [strsep_all_append_comma _ _ hs] at hwf ht
      refine ⟨fun u hu => hwf u (List.mem_cons_of_mem _ hu), t ++ [s], ?_, ?_⟩
      · rw [ht]; simp
      · exact List.Sublist.append hsub (List.Sublist.refl [s])

theorem feed_methods_remains (kept : List CString) :
    ∀ (ss done : List CString) (a a' : Authctxt),
      (∀ s ∈ ss, ',' ∉ s) →
      List.Forall₂ (remains_of done) kept a.auth_methods →
      feed_methods a ss = some a' →
      List.Forall₂ (remains_of (done ++ ss)) kept a'.auth_methods := by
  intro ss
  induction ss with
  | nil =>
    intro done a a' _ hinv hfeed
    simp only [feed_methods, Option.some.injEq] at hfeed
    subst hfeed
    simpa using hinv
  | cons s ss ih =>
    intro done a a' hss hinv hfeed
    have hs : ',' ∉ s := hss s (List.mem_cons_self _ _)
    unfold feed_methods at hfeed
    rcases update_cases a s with ⟨_, h⟩ | ⟨hc, _, h⟩ | ⟨_, h⟩
    · rw [h] at hfeed; simp at hfeed
    · rw [h] at hfeed
      simp only [if_true] at hfeed
      have hstep : List.Forall₂ (remains_of (done ++ [s])) kept
          (a.auth_methods.map (fun L => (remove_method L s).2)) :=
        forall2_map_right hinv (fun L0 K hKm hK =>
          remains_of_step done L0 K s hs hK (fun hcK => hc ⟨K, hKm, hcK⟩))
      have := ih (done ++ [s]) _ a' (fun u hu => hss u (List.mem_cons_of_mem _ hu)) hstep hfeed
      simpa using this
    · rw [h] at hfeed; simp at hfeed

theorem new_events_of_trace {α : Type} (before : Ssh) (o : Outcome Ssh α) (l : List Event)
    (h : o.state.trace = before.trace ++ l) : new_events before o = l := by
  simp [new_events, h]

/-- The three endings of `userauth_finish_reply`. -/
theorem reply_cases (env : Env) (ssh : Ssh) (authenticated part : Int) (method : CString)
    (submethod : Option CString) :
    (ssh.authctxt.postponed ≠ 0 ∧
      userauth_finish_reply env ssh authenticated part method submethod =
        .returned { ssh with
          trace := ssh.trace ++ [.auth_log authenticated part method submethod] } ()) ∨
    (ssh.authctxt.postponed = 0 ∧ authenticated = 1 ∧
      userauth_finish_reply env ssh authenticated part method submethod =
        .returned { ssh with
          userauth_request := .dispatch_protocol_ignore
          trace := ssh.trace ++ [.auth_log authenticated part method submethod,
            .send .USERAUTH_SUCCESS]
          authctxt := { ssh.authctxt with success := 1 } } ()) ∨
    (ssh.authctxt.postponed = 0 ∧ authenticated ≠ 1 ∧
      ∃ failures : Int,
        failures = (if ssh.authctxt.server_caused_failure = 0 ∧
            (ssh.authctxt.attempt > 1 ∨ method ≠ s_none) then ssh.authctxt.failures + 1
          else ssh.authctxt.failures) ∧
        ((env.options.max_authtries ≤ failures ∧
          userauth_finish_reply env ssh authenticated part method submethod =
            .disconnect { ssh with
              authctxt := { ssh.authctxt with failures := failures }
              trace := ssh.trace ++ [.auth_log authenticated part method submethod] }
              .auth_fail) ∨
        (failures < env.options.max_authtries ∧
          userauth_finish_reply env ssh authenticated part method submethod =
            .returned { ssh with
              authctxt := { ssh.authctxt with failures := failures }
              trace := ssh.trace ++ [.auth_log authenticated part method submethod,
                .send (.USERAUTH_FAILURE
                  (authmethods_get env { ssh.authctxt with failures := failures }) part)] }
              ()))) := by
  obtain ⟨⟨f1, f2, f3, f4, f5, f6, f7, f8, f9, f10, f11⟩, bb, ur, tr⟩ := ssh
  simp only
  by_cases hp : f2 ≠ 0
  · left
    exact ⟨hp, by simp [userauth_finish_reply, hp]⟩
  · right
    simp only [ne_eq, not_not] at hp
    by_cases ha : authenticated = 1
    · left
      exact ⟨hp, ha, by simp [userauth_finish_reply, hp, ha]⟩
    · right
      refine ⟨hp, ha, _, rfl, ?_⟩
      by_cases hc : f6 = 0 ∧ (f4 > 1 ∨ method ≠ s_none)
      · have hc' : f6 = 0 ∧ (f4 > 1 ∨ strcmp_eq method s_none = false) := by
          simpa [strcmp_eq] using hc
        by_cases hm : env.options.max_authtries ≤ f5 + 1
        · left
          simp only [if_pos hc]
          exact ⟨hm, by simp [userauth_finish_reply, hp, ha, hc', hm]⟩
        · right
          simp only [if_pos hc]
          exact ⟨not_le.1 hm, by simp [userauth_finish_reply, hp, ha, hc', hm]⟩
      · have hc' : ¬ (f6 = 0 ∧ (f4 > 1 ∨ strcmp_eq method s_none = false)) := by
          simpa [strcmp_eq] using hc
        by_cases hm : env.options.max_authtries ≤ f5
        · left
          simp only [if_neg hc]
          exact ⟨hm, by simp [userauth_finish_reply, hp, ha, hc', hm]⟩
        · right
          simp only [if_neg hc]
          exact ⟨not_le.1 hm, by simp [userauth_finish_reply, hp, ha, hc', hm]⟩

theorem reply_success_iff (env : Env) (before ssh : Ssh) (authenticated part : Int)
    (method : CString) (submethod : Option CString) (ht : ssh.trace = before.trace) :
    Event.send .USERAUTH_SUCCESS ∈
        new_events before (userauth_finish_reply env ssh authenticated part method submethod) ↔
      ssh.authctxt.postponed = 0 ∧ authenticated = 1 := by
  rcases reply_cases env ssh authenticated part method submethod with
    ⟨hp, h⟩ | ⟨hp, ha, h⟩ | ⟨hp, ha, f, _, ⟨_, h⟩ | ⟨_, h⟩⟩
  · rw [h]; simp [new_events, Outcome.state, ht, hp]
  · rw [h]; simp [new_events, Outcome.state, ht, hp, ha]
  · rw [h]; simp [new_events, Outcome.state, ht, ha]
  · rw [h]; simp [new_events, Outcome.state, ht, ha]

/-- The guards of `userauth_finish` passed, what is left is the policy step
and the reply. -/
theorem finish_unfold (env : Env) (ssh : Ssh) (authenticated : Int) (method : CString)
    (submethod : Option CString)
    (h1 : ¬ (ssh.authctxt.valid = 0 ∧ authenticated ≠ 0))
    (h2 : ¬ (authenticated ≠ 0 ∧ ssh.authctxt.postponed ≠ 0))
    (h3 : ¬ (authenticated ≠ 0 ∧ ssh.authctxt.pw = none)) :
    userauth_finish env ssh authenticated method submethod =
      if userauth_finish_root env ssh.authctxt authenticated method ≠ 0 ∧
          env.num_auth_methods ≠ 0 then
        match auth2_update_methods_lists ssh.authctxt method with
        | .returned authctxt r =>
          if r = 0 then
            userauth_finish_reply env { ssh with authctxt := authctxt } 0 1 method submethod
          else
            userauth_finish_reply env { ssh with authctxt := authctxt }
              (userauth_finish_root env ssh.authctxt authenticated method) 0 method submethod
        | .disconnect authctxt why => .disconnect { ssh with authctxt := authctxt } why
        | .fatal authctxt why => .fatal { ssh with authctxt := authctxt } why
        | .segv authctxt => .segv { ssh with authctxt := authctxt }
      else
        userauth_finish_reply env ssh
          (userauth_finish_root env ssh.authctxt authenticated method) 0 method submethod := by
  unfold userauth_finish
  simp only [if_neg h1, if_neg h2, if_neg h3]

theorem finish_guard_cases (env : Env) (ssh : Ssh) (authenticated : Int) (method : CString)
    (submethod : Option CString) :
    (ssh.authctxt.valid = 0 ∧ authenticated ≠ 0 ∧
      userauth_finish env ssh authenticated method submethod =
        .fatal ssh .authenticated_invalid_user) ∨
    (authenticated ≠ 0 ∧ ssh.authctxt.postponed ≠ 0 ∧
      userauth_finish env ssh authenticated method submethod =
        .fatal ssh .authenticated_and_postponed) ∨
    (authenticated ≠ 0 ∧ ssh.authctxt.pw = none ∧
      userauth_finish env ssh authenticated method submethod = .segv ssh) ∨
    (¬ (ssh.authctxt.valid = 0 ∧ authenticated ≠ 0) ∧
      ¬ (authenticated ≠ 0 ∧ ssh.authctxt.postponed ≠ 0) ∧
      ¬ (authenticated ≠ 0 ∧ ssh.authctxt.pw = none)) := by
  by_cases h1 : ssh.authctxt.valid = 0 ∧ authenticated ≠ 0
  · left
    exact ⟨h1.1, h1.2, by unfold userauth_finish; simp only [if_pos h1]⟩
  · by_cases h2 : authenticated ≠ 0 ∧ ssh.authctxt.postponed ≠ 0
    · right; left
      exact ⟨h2.1, h2.2, by unfold userauth_finish; simp only [if_neg h1, if_pos h2]⟩
    · by_cases h3 : authenticated ≠ 0 ∧ ssh.authctxt.pw = none
      · right; right; left
        exact ⟨h3.1, h3.2, by
          unfold userauth_finish; simp only [if_neg h1, if_neg h2, if_pos h3]⟩
      · right; right; right
        exact ⟨h1, h2, h3⟩

theorem finish_root_cases (env : Env) (authctxt : Authctxt) (authenticated : Int)
    (method : CString) :
    userauth_finish_root env authctxt authenticated method = 0 ∨
      (authenticated ≠ 0 ∧
        userauth_finish_root env authctxt authenticated method = authenticated) := by
  unfold userauth_finish_root
  split
  · exact Or.inl rfl
  · by_cases h : authenticated = 0
    · exact Or.inl h
    · exact Or.inr ⟨h, rfl⟩

/-- Under a policy, a success packet from `userauth_finish` means that the
handler reported 1 and `auth2_update_methods_lists` returned 1. -/
theorem finish_success_needs_update (env : Env) (ssh : Ssh) (authenticated : Int)
    (method : CString) (submethod : Option CString) (hnum : env.num_auth_methods ≠ 0)
    (h : Event.send .USERAUTH_SUCCESS ∈
      new_events ssh (userauth_finish env ssh authenticated method submethod)) :
    authenticated = 1 ∧
      ∃ a, auth2_update_methods_lists ssh.authctxt method = .returned a 1 := by
  rcases finish_guard_cases env ssh authenticated method submethod with
    ⟨_, _, e⟩ | ⟨_, _, e⟩ | ⟨_, _, e⟩ | ⟨h1, h2, h3⟩
  · rw [e] at h; simp [new_events, Outcome.state] at h
  · rw [e] at h; simp [new_events, Outcome.state] at h
  · rw [e] at h; simp [new_events, Outcome.state] at h
  · rw [finish_unfold env ssh authenticated method submethod h1 h2 h3] at h
    rcases finish_root_cases env ssh.authctxt authenticated method with hr | ⟨hne, hr⟩
    · rw [hr] at h
      simp only [ne_eq, not_true_eq_false, false_and, if_false] at h
      have := (reply_success_iff env ssh ssh 0 0 method submethod rfl).1 h
      simp at this
    · rw [hr] at h
      rw [if_pos ⟨hne, hnum⟩] at h
      rcases update_cases ssh.authctxt method with ⟨_, hu⟩ | ⟨_, _, hu⟩ | ⟨_, hu⟩
      · rw [hu] at h
        simp only [one_ne_zero, if_false] at h
        have := (reply_success_iff env ssh
          { ssh with authctxt := { ssh.authctxt with
              auth_methods := (update_loop method ssh.authctxt.auth_methods 0).1 } }
          authenticated 0 method submethod rfl).1 h
        exact ⟨this.2, _, hu⟩
      · rw [hu] at h
        simp only [if_true] at h
        have := (reply_success_iff env ssh
          { ssh with authctxt := { ssh.authctxt with
              auth_methods :=
                ssh.authctxt.auth_methods.map (fun L => (remove_method L method).2) } }
          0 1 method submethod rfl).1 h
        simp at this
      · rw [hu] at h
        simp [new_events, Outcome.state] at h

/-- C1: under a policy, with the lists kept by `auth2_setup_methods_lists` and
successful methods (non-empty names without a comma) fed one at a time to
`auth2_update_methods_lists`, the first call that returns 1 comes only when the
tokens of some configured, kept list are in list order a subsequence of the
methods fed, the last token being the last method fed; and `userauth_finish`
sends the success packet under a policy only when that call returned 1. -/
theorem C1_admission_sound (env : Env) (ctx0 : Authctxt)
    (hnames : registry_names_nonempty env)
    (hnum : env.num_auth_methods ≠ 0) :
    (∀ (ss : List CString) (sk : CString) (a a1 : Authctxt),
      (∀ s ∈ ss ++ [sk], s ≠ [] ∧ ',' ∉ s) →
      feed_methods (auth2_setup_methods_lists env ctx0).1 ss = some a →
      auth2_update_methods_lists a sk = .returned a1 1 →
      ∃ L ∈ env.options.auth_methods, auth2_methods_valid env L 1 = 0 ∧
        ∃ t, strsep_all L = t ++ [sk] ∧ t.Sublist ss) ∧
    (∀ (ssh : Ssh) (authenticated : Int) (method : CString) (submethod : Option CString),
      Event.send .USERAUTH_SUCCESS ∈
        new_events ssh (userauth_finish env ssh authenticated method submethod) →
      ∃ a1, auth2_update_methods_lists ssh.authctxt method = .returned a1 1) := by
  refine ⟨?_, fun ssh authenticated method submethod h =>
    (finish_success_needs_update env ssh authenticated method submethod hnum h).2⟩
  intro ss sk a a1 hss hfeed hlast
  have hkept := setup_lists env ctx0 hnum
  have hinit : List.Forall₂ (remains_of []) (setup_loop env env.options.auth_methods)
      (auth2_setup_methods_lists env ctx0).1.auth_methods := by
    rw [hkept]
    exact forall2_same _ (fun L hL =>
      ⟨kept_tokens_nonempty env hnames L hL, [], by simp, List.Sublist.refl _⟩)
  have hinv := feed_methods_remains _ ss [] _ a
    (fun s hs => (hss s (List.mem_append_left _ hs)).2) hinit hfeed
  have hsk : ',' ∉ sk := (hss sk (by simp)).2
  obtain ⟨K, hK, hc⟩ : ∃ K ∈ a.auth_methods, completes sk K := by
    rcases update_cases a sk with ⟨hc, _⟩ | ⟨_, _, h⟩ | ⟨_, h⟩
    · exact hc
    · rw [h] at hlast; simp at hlast
    · rw [h] at hlast; simp at hlast
  obtain ⟨L0, hL0, hwf, t, ht, hsub⟩ := forall2_mem_right hinv K hK
  have hKeq : K = sk := by
    rcases hc with h | h
    · exact h
    · exact absurd h (not_completes_comma_of_tokens sk K hsk hwf)
  rw [setup_loop_eq_filter, List.mem_filter] at hL0
  refine ⟨L0, hL0.1, by simpa using hL0.2, t, ?_, by simpa using hsub⟩
  rw [ht, hKeq, strsep_all_comma_free sk hsk]

/-! ## The endings of `userauth_finish` -/

/-- The value of `authenticated` and of `partial` at the reply of
`userauth_finish`, and the context there, once the guards are passed: the
call is the reply with those. -/
theorem finish_as_reply (env : Env) (ssh : Ssh) (authenticated : Int) (method : CString)
    (submethod : Option CString)
    (h1 : ¬ (ssh.authctxt.valid = 0 ∧ authenticated ≠ 0))
    (h2 : ¬ (authenticated ≠ 0 ∧ ssh.authctxt.postponed ≠ 0))
    (h3 : ¬ (authenticated ≠ 0 ∧ ssh.authctxt.pw = none)) :
    userauth_finish env ssh authenticated method submethod =
        .fatal ssh .method_not_in_lists ∨
    ∃ (lists : List CString) (a part : Int),
      (a = 0 ∨ a = authenticated) ∧
      userauth_finish env ssh authenticated method submethod =
        userauth_finish_reply env
          { ssh with authctxt := { ssh.authctxt with auth_methods := lists } }
          a part method submethod := by
  rw [finish_unfold env ssh authenticated method submethod h1 h2 h3]
  have hroot := finish_root_cases env ssh.authctxt authenticated method
  split
  · rcases update_cases ssh.authctxt method with ⟨_, hu⟩ | ⟨_, _, hu⟩ | ⟨_, hu⟩
    · right
      rw [hu]
      refine ⟨(update_loop method ssh.authctxt.auth_methods 0).1,
        userauth_finish_root env ssh.authctxt authenticated method, 0, ?_, ?_⟩
      · rcases hroot with h | h
        · exact Or.inl h
        · exact Or.inr h.2
      · simp
    · right
      rw [hu]
      exact ⟨ssh.authctxt.auth_methods.map (fun L => (remove_method L method).2), 0, 1,
        Or.inl rfl, by simp⟩
    · left
      rw [hu]
  · right
    refine ⟨ssh.authctxt.auth_methods, userauth_finish_root env ssh.authctxt authenticated method,
      0, ?_, rfl⟩
    rcases hroot with h | h
    · exact Or.inl h
    · exact Or.inr h.2

/-- What a call of `userauth_finish_reply` leaves: the trace grows by the log
record and at most one packet, and of the context only `success` and
`failures` can change. -/
theorem reply_summary (env : Env) (ssh : Ssh) (a part : Int) (method : CString)
    (submethod : Option CString) :
    ∃ (o : Outcome Ssh Unit) (pkts : List Event),
      userauth_finish_reply env ssh a part method submethod = o ∧
      o.state.trace = ssh.trace ++ .auth_log a part method submethod :: pkts ∧
      o.state.bug_banner = ssh.bug_banner ∧
      (∃ s f, o.state.authctxt = { ssh.authctxt with success := s, failures := f }) ∧
      ((pkts = [] ∧ ssh.authctxt.postponed ≠ 0 ∧ o = .returned o.state () ∧
          o.state.authctxt = ssh.authctxt) ∨
        (pkts = [.send .USERAUTH_SUCCESS] ∧ ssh.authctxt.postponed = 0 ∧ a = 1 ∧
          o = .returned o.state () ∧ o.state.authctxt = { ssh.authctxt with success := 1 }) ∨
        (ssh.authctxt.postponed = 0 ∧ a ≠ 1 ∧
          o.state.authctxt = { ssh.authctxt with
            failures := (if ssh.authctxt.server_caused_failure = 0 ∧
                (ssh.authctxt.attempt > 1 ∨ method ≠ s_none) then ssh.authctxt.failures + 1
              else ssh.authctxt.failures) } ∧
          ((pkts = [] ∧ env.options.max_authtries ≤ o.state.authctxt.failures ∧
              o = .disconnect o.state .auth_fail) ∨
            (pkts = [.send (.USERAUTH_FAILURE (authmethods_get env o.state.authctxt) part)] ∧
              o.state.authctxt.failures < env.options.max_authtries ∧
              o = .returned o.state ())))) := by
  rcases reply_cases env ssh a part method submethod with
    ⟨hp, h⟩ | ⟨hp, ha, h⟩ | ⟨hp, ha, f, hf, ⟨hm, h⟩ | ⟨hm, h⟩⟩
  · refine ⟨_, [], h, rfl, rfl, ⟨ssh.authctxt.success, ssh.authctxt.failures, rfl⟩, ?_⟩
    exact Or.inl ⟨rfl, hp, rfl, rfl⟩
  · refine ⟨_, [.send .USERAUTH_SUCCESS], h, rfl, rfl, ⟨1, ssh.authctxt.failures, rfl⟩, ?_⟩
    exact Or.inr (Or.inl ⟨rfl, hp, ha, rfl, rfl⟩)
  · refine ⟨_, [], h, rfl, rfl, ⟨ssh.authctxt.success, f, rfl⟩, ?_⟩
    refine Or.inr (Or.inr ⟨hp, ha, ?_, Or.inl ⟨rfl, hm, rfl⟩⟩)
    simp only [Outcome.state, hf]
  · refine ⟨_, [.send (.USERAUTH_FAILURE
      (authmethods_get env { ssh.authctxt with failures := f }) part)], h, rfl, rfl,
      ⟨ssh.authctxt.success, f, rfl⟩, ?_⟩
    refine Or.inr (Or.inr ⟨hp, ha, ?_, Or.inr ⟨rfl, hm, rfl⟩⟩)
    simp only [Outcome.state, hf]

/-- C1 at the policy "publickey,password": publickey then password. -/
theorem C1_admission_sound_witness :
    registry_names_nonempty (ex_env 6 ["publickey,password".toList]) ∧
    (ex_env 6 ["publickey,password".toList]).num_auth_methods ≠ 0 ∧
    ∃ L ∈ (ex_env 6 ["publickey,password".toList]).options.auth_methods,
      auth2_methods_valid (ex_env 6 ["publickey,password".toList]) L 1 = 0 ∧
      ∃ t, strsep_all L = t ++ ["password".toList] ∧ t.Sublist ["publickey".toList] :=
  ⟨by decide, by decide,
    (C1_admission_sound (ex_env 6 ["publickey,password".toList]) Authctxt.new
      (by decide) (by decide)).1 ["publickey".toList] "password".toList
      (ex_ctx ["password".toList]) (ex_ctx ["".toList]) (by decide) (by decide) (by decide)⟩

/-- The events `userauth_finish` adds: the trace only grows, by a log record
and packets, never by a handler invocation; the compatibility bit is kept;
and of the context only the lists, `success` and `failures` can change. -/
theorem finish_summary (env : Env) (ssh : Ssh) (authenticated : Int) (method : CString)
    (submethod : Option CString) :
    ∃ l, (userauth_finish env ssh authenticated method submethod).state.trace =
        ssh.trace ++ l ∧
      (∀ e ∈ l, e.is_userauth = false) ∧
      (userauth_finish env ssh authenticated method submethod).state.bug_banner =
        ssh.bug_banner ∧
      ∃ lists s f,
        (userauth_finish env ssh authenticated method submethod).state.authctxt =
          { ssh.authctxt with auth_methods := lists, success := s, failures := f } := by
  have hself : ∃ lists s f, ssh.authctxt =
      { ssh.authctxt with auth_methods := lists, success := s, failures := f } :=
    ⟨ssh.authctxt.auth_methods, ssh.authctxt.success, ssh.authctxt.failures, rfl⟩
  rcases finish_guard_cases env ssh authenticated method submethod with
    ⟨_, _, e⟩ | ⟨_, _, e⟩ | ⟨_, _, e⟩ | ⟨h1, h2, h3⟩
  · rw [e]; exact ⟨[], by simp [Outcome.state], by simp, rfl, hself⟩
  · rw [e]; exact ⟨[], by simp [Outcome.state], by simp, rfl, hself⟩
  · rw [e]; exact ⟨[], by simp [Outcome.state], by simp, rfl, hself⟩
  · rcases finish_as_reply env ssh authenticated method submethod h1 h2 h3 with
      e | ⟨lists, a, part, _, e⟩
    · rw [e]; exact ⟨[], by simp [Outcome.state], by simp, rfl, hself⟩
    · rw [e]
      obtain ⟨o, pkts, ho, ht, hb, ⟨s, f, hc⟩, hcase⟩ := reply_summary env
        { ssh with authctxt := { ssh.authctxt with auth_methods := lists } }
        a part method submethod
      rw [ho]
      refine ⟨_, ht, ?_, hb, lists, s, f, hc⟩
      intro e he
      rcases List.mem_cons.1 he with rfl | he
      · rfl
      · rcases hcase with ⟨hp, _⟩ | ⟨hp, _⟩ | ⟨_, _, _, ⟨hp, _⟩ | ⟨hp, _⟩⟩
        all_goals rw [hp] at he
        all_goals simp at he
        all_goals rw [he]
        all_goals rfl

/-- C2: `userauth_finish` ends in `fatal` whenever `authenticated` is set and
the context is not valid, and whenever `authenticated` is set and the context
is postponed; so on a context that is not valid no call sends the success
packet or changes `success`. -/
theorem C2_finish_guards (env : Env) (ssh : Ssh) (authenticated : Int) (method : CString)
    (submethod : Option CString) :
    (authenticated ≠ 0 → ssh.authctxt.valid = 0 →
      userauth_finish env ssh authenticated method submethod =
        .fatal ssh .authenticated_invalid_user) ∧
    (authenticated ≠ 0 → ssh.authctxt.postponed ≠ 0 →
      userauth_finish env ssh authenticated method submethod =
          .fatal ssh .authenticated_invalid_user ∨
        userauth_finish env ssh authenticated method submethod =
          .fatal ssh .authenticated_and_postponed) ∧
    (ssh.authctxt.valid = 0 →
      Event.send .USERAUTH_SUCCESS ∉
          new_events ssh (userauth_finish env ssh authenticated method submethod) ∧
        (userauth_finish env ssh authenticated method submethod).state.authctxt.success =
          ssh.authctxt.success ∧
        (userauth_finish env ssh authenticated method submethod).state.userauth_request =
          ssh.userauth_request) := by
  refine ⟨?_, ?_, ?_⟩
  · intro ha hv
    unfold userauth_finish
    simp only [if_pos (And.intro hv ha)]
  · intro ha hp
    by_cases hv : ssh.authctxt.valid = 0
    · left
      unfold userauth_finish
      simp only [if_pos (And.intro hv ha)]
    · right
      unfold userauth_finish
      simp only [if_neg (fun h : ssh.authctxt.valid = 0 ∧ authenticated ≠ 0 => hv h.1),
        if_pos (And.intro ha hp)]
  · intro hv
    rcases finish_guard_cases env ssh authenticated method submethod with
      ⟨_, _, e⟩ | ⟨_, _, e⟩ | ⟨_, _, e⟩ | ⟨h1, h2, h3⟩
    · rw [e]; simp [new_events, Outcome.state]
    · rw [e]; simp [new_events, Outcome.state]
    · rw [e]; simp [new_events, Outcome.state]
    · have ha : authenticated = 0 := by
        by_contra hne
        exact h1 ⟨hv, hne⟩
      subst ha
      have hroot : userauth_finish_root env ssh.authctxt 0 method = 0 := by
        simp [userauth_finish_root]
      rw [finish_unfold env ssh 0 method submethod h1 h2 h3, hroot]
      simp only [ne_eq, not_true_eq_false, false_and, if_false]
      rcases reply_cases env ssh 0 0 method submethod with
        ⟨hp, h⟩ | ⟨hp, ha, h⟩ | ⟨hp, ha, f, _, ⟨_, h⟩ | ⟨_, h⟩⟩
      · rw [h]; simp [new_events, Outcome.state]
      · simp at ha
      · rw [h]; simp [new_events, Outcome.state]
      · rw [h]; simp [new_events, Outcome.state]

/-- C2 at a context that is not valid, with a handler result of 1. -/
theorem C2_finish_guards_witness :
    userauth_finish (ex_env 6 []) ⟨Authctxt.new, false, .input_userauth_request, []⟩ 1
        "password".toList none =
      .fatal ⟨Authctxt.new, false, .input_userauth_request, []⟩
        .authenticated_invalid_user :=
  (C2_finish_guards (ex_env 6 []) ⟨Authctxt.new, false, .input_userauth_request, []⟩ 1
    "password".toList none).1 (by decide) (by decide)

/-! ## Counting failures -/

theorem ret_state {σ α β : Type} (o : Outcome σ α) (r : β) : (o.ret r).state = o.state := by
  cases o <;> rfl

theorem ret_is_auth_fail {σ α β : Type} (o : Outcome σ α) (r : β) :
    (o.ret r).is_auth_fail = o.is_auth_fail := by
  cases o with
  | returned s x => rfl
  | disconnect s why => cases why <;> rfl
  | fatal s why => rfl
  | segv s => rfl

theorem failed_attempt_ret {α β : Type} (before : Ssh) (o : Outcome Ssh α) (r : β) :
    failed_attempt before (o.ret r) = failed_attempt before o := by
  simp [failed_attempt, new_events, ret_state, ret_is_auth_fail]

/-- A failed attempt seen from an earlier state: events that are not failure
replies, added before the call, do not matter. -/
theorem failed_attempt_earlier {α : Type} (before mid : Ssh) (o : Outcome Ssh α)
    (l l2 : List Event) (hmid : mid.trace = before.trace ++ l)
    (hl : ∀ e ∈ l, e.is_failure_reply = false) (ho : o.state.trace = mid.trace ++ l2) :
    failed_attempt before o = failed_attempt mid o := by
  have h1 : new_events before o = l ++ l2 := by
    simp [new_events, ho, hmid]
  have h2 : new_events mid o = l2 := by
    simp [new_events, ho]
  have h3 : l.any Event.is_failure_reply = false := by
    rw [List.any_eq_false]
    intro e he
    simp [hl e he]
  simp [failed_attempt, h1, h2, h3]

/-- How `userauth_finish` moves `failures`: a failed attempt adds 1 unless it
is server-caused or is a first attempt with method "none"; any other ending
leaves the counter. -/
theorem finish_failures (env : Env) (ssh : Ssh) (authenticated : Int) (method : CString)
    (submethod : Option CString) :
    (failed_attempt ssh (userauth_finish env ssh authenticated method submethod) = true →
      (userauth_finish env ssh authenticated method submethod).state.authctxt.failures =
        if ssh.authctxt.server_caused_failure = 0 ∧
            (ssh.authctxt.attempt > 1 ∨ method ≠ s_none) then ssh.authctxt.failures + 1
        else ssh.authctxt.failures) ∧
    (failed_attempt ssh (userauth_finish env ssh authenticated method submethod) = false →
      (userauth_finish env ssh authenticated method submethod).state.authctxt.failures =
        ssh.authctxt.failures) := by
  rcases finish_guard_cases env ssh authenticated method submethod with
    ⟨_, _, e⟩ | ⟨_, _, e⟩ | ⟨_, _, e⟩ | ⟨h1, h2, h3⟩
  · rw [e]; simp [failed_attempt, new_events, Outcome.state, Outcome.is_auth_fail]
  · rw [e]; simp [failed_attempt, new_events, Outcome.state, Outcome.is_auth_fail]
  · rw [e]; simp [failed_attempt, new_events, Outcome.state, Outcome.is_auth_fail]
  · rcases finish_as_reply env ssh authenticated method submethod h1 h2 h3 with
      e | ⟨lists, a, part, _, e⟩
    · rw [e]; simp [failed_attempt, new_events, Outcome.state, Outcome.is_auth_fail]
    · rw [e]
      obtain ⟨o, pkts, ho, ht, _, _, hcase⟩ := reply_summary env
        { ssh with authctxt := { ssh.authctxt with auth_methods := lists } }
        a part method submethod
      rw [ho]
      have hne : new_events ssh o = .auth_log a part method submethod :: pkts := by
        simp [new_events, ht]
      rcases hcase with ⟨hp, _, hr, hc⟩ | ⟨hp, _, _, hr, hc⟩ |
        ⟨_, _, hc, ⟨hp, _, hr⟩ | ⟨hp, _, hr⟩⟩
      · have hf : failed_attempt ssh o = false := by
          rw [failed_attempt, hne, hp, hr]
          simp [Event.is_failure_reply, Outcome.is_auth_fail]
        simp [hf, hc]
      · have hf : failed_attempt ssh o = false := by
          rw [failed_attempt, hne, hp, hr]
          simp [Event.is_failure_reply, Outcome.is_auth_fail]
        simp [hf, hc]
      · have hf : failed_attempt ssh o = true := by
          rw [failed_attempt, hr]
          simp [Outcome.is_auth_fail]
        simp only [hf, hc, true_implies, reduceCtorEq, false_implies, and_true]
      · have hf : failed_attempt ssh o = true := by
          rw [failed_attempt, hne, hp]
          simp [Event.is_failure_reply]
        simp only [hf, hc, true_implies, reduceCtorEq, false_implies, and_true]

theorem banner_summary (env : Env) (ssh : Ssh) :
    (userauth_banner env ssh).authctxt = ssh.authctxt ∧
    (userauth_banner env ssh).bug_banner = ssh.bug_banner ∧
    (userauth_banner env ssh).userauth_request = ssh.userauth_request ∧
    ∃ l, (userauth_banner env ssh).trace = ssh.trace ++ l ∧
      ∀ e ∈ l, e.is_failure_reply = false ∧ e.is_userauth = false := by
  unfold userauth_banner
  split
  · exact ⟨rfl, rfl, rfl, [], by simp, by simp⟩
  · split
    · exact ⟨rfl, rfl, rfl, [], by simp, by simp⟩
    · split
      · exact ⟨rfl, rfl, rfl, [], by simp, by simp⟩
      · refine ⟨rfl, rfl, rfl, _, rfl, ?_⟩
        intro e he
        simp only [List.mem_singleton] at he
        subst he
        exact ⟨rfl, rfl⟩

theorem setup_summary (env : Env) (authctxt : Authctxt) :
    ∃ lists, (auth2_setup_methods_lists env authctxt).1 =
      { authctxt with auth_methods := lists } := by
  unfold auth2_setup_methods_lists
  split
  · exact ⟨authctxt.auth_methods, rfl⟩
  · simp only
    split <;> exact ⟨_, rfl⟩

theorem request_setup_summary (env : Env) (authctxt : Authctxt) (user service : CString)
    (style : Option CString) :
    ∃ pw valid, input_userauth_request_setup env authctxt user service style =
      { authctxt with
        user := some user, service := some service, style := style,
        pw := pw, valid := valid } := by
  unfold input_userauth_request_setup
  simp only
  split
  · exact ⟨_, 1, rfl⟩
  · exact ⟨_, authctxt.valid, rfl⟩

/-- The first request of a connection binds the context. -/
theorem bind_first (env : Env) (ssh : Ssh) (rq : Request) (h0 : ssh.authctxt.attempt = 0) :
    ∃ (lists : List CString) (pw : Option Passwd) (valid : Int) (l : List Event),
      (input_userauth_request_bind env ssh rq).state =
        { ssh with
          authctxt := { ssh.authctxt with
            attempt := 1
            user := some (split_style rq.user).1
            service := some rq.service
            style := (split_style rq.user).2
            pw := pw
            valid := valid
            auth_methods := lists }
          trace := ssh.trace ++ l } ∧
      (∀ e ∈ l, e.is_failure_reply = false ∧ e.is_userauth = false) ∧
      (input_userauth_request_bind env ssh rq).is_auth_fail = false := by
  obtain ⟨pw, valid, hc⟩ := request_setup_summary env
    { ssh.authctxt with attempt := ssh.authctxt.attempt + 1 }
    (split_style rq.user).1 rq.service (split_style rq.user).2
  obtain ⟨hb1, hb2, hb3, l, hb4, hl⟩ := banner_summary env
    { ssh with authctxt := (input_userauth_request_setup env
      ({ ssh.authctxt with attempt := ssh.authctxt.attempt + 1 })
      (split_style rq.user).1 rq.service (split_style rq.user).2) }
  obtain ⟨lists, hs⟩ := setup_summary env (input_userauth_request_setup env
      { ssh.authctxt with attempt := ssh.authctxt.attempt + 1 }
      (split_style rq.user).1 rq.service (split_style rq.user).2)
  unfold input_userauth_request_bind
  simp only [h0, if_true, zero_add]
  simp only [h0, zero_add] at hb1 hb2 hb3 hb4 hs hc
  rw [hc] at hb1 hb2 hb3 hb4 hs
  rw [hc, hb1, hs]
  refine ⟨lists, pw, valid, l, ?_, hl, ?_⟩
  · split
    · simp [Outcome.state, hb2, hb3, hb4]
    · simp [Outcome.state, hb2, hb3, hb4]
  · split <;> rfl

/-- A later request only counts the attempt and checks the bound names. -/
theorem bind_later (env : Env) (ssh : Ssh) (rq : Request) (h0 : ssh.authctxt.attempt ≠ 0) :
    (input_userauth_request_bind env ssh rq).state =
      { ssh with authctxt := { ssh.authctxt with attempt := ssh.authctxt.attempt + 1 } } ∧
    (input_userauth_request_bind env ssh rq).is_auth_fail = false ∧
    (∀ u s, ssh.authctxt.user = some u → ssh.authctxt.service = some s →
      ((split_style rq.user).1 ≠ u ∨ rq.service ≠ s) →
      input_userauth_request_bind env ssh rq =
        .disconnect { ssh with
          authctxt := { ssh.authctxt with attempt := ssh.authctxt.attempt + 1 } }
          .change_of_user) := by
  unfold input_userauth_request_bind
  simp only [if_neg h0]
  refine ⟨?_, ?_, ?_⟩
  · split
    · rfl
    · split
      · rfl
      · split
        · rfl
        · split <;> rfl
  · split
    · rfl
    · split
      · rfl
      · split
        · rfl
        · split <;> rfl
  · intro u s hu hs hne
    simp only [hu, hs, strcmp_eq]
    by_cases h1 : (split_style rq.user).1 = u
    · have h2 : rq.service ≠ s := by
        rcases hne with h | h
        · exact absurd h1 h
        · exact h
      simp [h1, h2]
    · simp [h1]

/-! ## Dispatch -/

/-- What `authmethod_lookup` finds: an enabled registry entry with exactly the
requested name that the policy allows, and nothing only if there is none. -/
theorem lookup_loop_spec (env : Env) (authctxt : Authctxt) (name : CString)
    (ms : List Authmethod) :
    (∀ m, authmethod_lookup_loop env authctxt name ms = some m →
      m ∈ ms ∧ m.name = name ∧ m.enabled ≠ none ∧ m.enabled ≠ some 0 ∧
        method_allowed env authctxt m.name ≠ 0) ∧
    (authmethod_lookup_loop env authctxt name ms = none ↔
      ¬ ∃ m ∈ ms, m.name = name ∧ m.enabled ≠ none ∧ m.enabled ≠ some 0 ∧
        method_allowed env authctxt m.name ≠ 0) := by
  induction ms with
  | nil => simp [authmethod_lookup_loop]
  | cons m ms ih =>
    unfold authmethod_lookup_loop
    split
    · rename_i h
      simp only [strcmp_eq, decide_eq_true_eq] at h
      refine ⟨?_, ?_⟩
      · intro m' hm'
        simp only [Option.some.injEq] at hm'
        subst hm'
        exact ⟨List.mem_cons_self _ _, h.2.2.1.symm, h.1, h.2.1, h.2.2.2⟩
      · simp only [reduceCtorEq, false_iff, not_not]
        exact ⟨m, List.mem_cons_self _ _, h.2.2.1.symm, h.1, h.2.1, h.2.2.2⟩
    · rename_i h
      simp only [strcmp_eq, decide_eq_true_eq] at h
      refine ⟨?_, ?_⟩
      · intro m' hm'
        obtain ⟨h1, h2⟩ := ih.1 m' hm'
        exact ⟨List.mem_cons_of_mem _ h1, h2⟩
      · rw [ih.2]
        constructor
        · rintro hn ⟨m', hm', hc⟩
          rcases List.mem_cons.1 hm' with rfl | hm'
          · exact h ⟨hc.2.1, hc.2.2.1, hc.1.symm, hc.2.2.2⟩
          · exact hn ⟨m', hm', hc⟩
        · rintro hn ⟨m', hm', hc⟩
          exact hn ⟨m', List.mem_cons_of_mem _ hm', hc⟩

/-- The two ways the second part of `input_userauth_request` goes: the handler
of the method found is invoked and its report is passed on, or no handler is
invoked and `userauth_finish` is called with 0. -/
theorem try_cases (env : Env) (s : Ssh) (rq : Request) :
    (∃ m, authmethod_lookup env
          { s.authctxt with postponed := 0, server_caused_failure := 0 } (some rq.method) =
            some m ∧
        s.authctxt.failures < env.options.max_authtries ∧
        input_userauth_request_try env s rq =
          (userauth_finish env
            { s with
              authctxt := { s.authctxt with
                postponed := (m.userauth
                  { s.authctxt with postponed := 0, server_caused_failure := 0 }
                  rq.payload).postponed
                server_caused_failure := (m.userauth
                  { s.authctxt with postponed := 0, server_caused_failure := 0 }
                  rq.payload).server_caused_failure }
              trace := s.trace ++ [.userauth m.name] }
            (m.userauth { s.authctxt with postponed := 0, server_caused_failure := 0 }
              rq.payload).authenticated rq.method none).ret 0) ∨
    ((authmethod_lookup env
          { s.authctxt with postponed := 0, server_caused_failure := 0 } (some rq.method) =
            none ∨
        env.options.max_authtries ≤ s.authctxt.failures) ∧
      input_userauth_request_try env s rq =
        (userauth_finish env
          { s with authctxt := { s.authctxt with postponed := 0, server_caused_failure := 0 } }
          0 rq.method none).ret 0) := by
  unfold input_userauth_request_try
  simp only
  split
  · rename_i hl
    exact Or.inr ⟨Or.inl hl, rfl⟩
  · rename_i m hl
    split
    · rename_i hf
      exact Or.inl ⟨m, hl, hf, rfl⟩
    · rename_i hf
      exact Or.inr ⟨Or.inr (not_lt.1 hf), rfl⟩

theorem try_summary (env : Env) (s : Ssh) (rq : Request) :
    ∃ (s2 : Ssh) (a : Int) (l2 : List Event),
      input_userauth_request_try env s rq =
        (userauth_finish env s2 a rq.method none).ret 0 ∧
      s2.trace = s.trace ++ l2 ∧ (∀ e ∈ l2, e.is_failure_reply = false) ∧
      s2.bug_banner = s.bug_banner ∧
      ∃ p c, s2.authctxt = { s.authctxt with postponed := p, server_caused_failure := c } := by
  rcases try_cases env s rq with ⟨m, _, _, h⟩ | ⟨_, h⟩
  · refine ⟨_, _, [.userauth m.name], h, rfl, ?_, rfl, _, _, rfl⟩
    intro e he
    simp only [List.mem_singleton] at he
    subst he
    rfl
  · exact ⟨_, _, [], h, by simp, by simp, rfl, 0, 0, rfl⟩

/-- A parsed request is the first part of `input_userauth_request`, then the
second part if the first returned. -/
theorem request_of_bind (env : Env) (ssh : Ssh) (rq : Request) :
    (∀ s u, input_userauth_request_bind env ssh rq = .returned s u →
      input_userauth_request env ssh (some rq) = input_userauth_request_try env s rq) ∧
    (∀ s why, input_userauth_request_bind env ssh rq = .disconnect s why →
      input_userauth_request env ssh (some rq) = .disconnect s why) ∧
    (∀ s why, input_userauth_request_bind env ssh rq = .fatal s why →
      input_userauth_request env ssh (some rq) = .fatal s why) ∧
    (∀ s, input_userauth_request_bind env ssh rq = .segv s →
      input_userauth_request env ssh (some rq) = .segv s) := by
  refine ⟨?_, ?_, ?_, ?_⟩ <;> intros <;> simp only [input_userauth_request, *]

/-- One request: `failures` grows by 1 exactly when the request is a failed
attempt that is not server-caused and is not a first request with method
"none"; a request that returns 0 has counted one attempt. -/
theorem request_step (env : Env) (ssh : Ssh) (pkt : Option Request)
    (h0 : 0 ≤ ssh.authctxt.attempt) :
    (input_userauth_request env ssh pkt).state.authctxt.failures =
      ssh.authctxt.failures +
        (if failed_attempt ssh (input_userauth_request env ssh pkt) = true ∧
            (input_userauth_request env ssh pkt).state.authctxt.server_caused_failure = 0 ∧
            ¬ (ssh.authctxt.attempt = 0 ∧ pkt.map Request.method = some s_none) then 1
          else 0) ∧
    (∀ s r, input_userauth_request env ssh pkt = .returned s r → r = 0 →
      s.authctxt.attempt = ssh.authctxt.attempt + 1) := by
  cases pkt with
  | none =>
    simp [input_userauth_request, Outcome.state, failed_attempt, new_events,
      Outcome.is_auth_fail]
  | some rq =>
    have hbind : ∃ l, (input_userauth_request_bind env ssh rq).state.trace = ssh.trace ++ l ∧
        (∀ e ∈ l, e.is_failure_reply = false) ∧
        (input_userauth_request_bind env ssh rq).state.authctxt.failures =
          ssh.authctxt.failures ∧
        (input_userauth_request_bind env ssh rq).state.authctxt.attempt =
          ssh.authctxt.attempt + 1 ∧
        (input_userauth_request_bind env ssh rq).is_auth_fail = false := by
      by_cases ha : ssh.authctxt.attempt = 0
      · obtain ⟨lists, pw, valid, l, hs, hl, hf⟩ := bind_first env ssh rq ha
        exact ⟨l, by rw [hs], fun e he => (hl e he).1, by rw [hs], by rw [hs, ha]; rfl, hf⟩
      · obtain ⟨hs, hf, _⟩ := bind_later env ssh rq ha
        exact ⟨[], by rw [hs]; simp, by simp, by rw [hs], by rw [hs], hf⟩
    obtain ⟨l, hb1, hb2, hb3, hb4, hb5⟩ := hbind
    have hnofail : ∀ o : Outcome Ssh Int, o.state.trace = ssh.trace ++ l →
        o.is_auth_fail = false → failed_attempt ssh o = false := by
      intro o ho1 ho2
      have : new_events ssh o = l := by simp [new_events, ho1]
      rw [failed_attempt, this, ho2, Bool.or_false, List.any_eq_false]
      intro e he
      simp [hb2 e he]
    have hreq := request_of_bind env ssh rq
    cases hbo : input_userauth_request_bind env ssh rq with
    | disconnect s why =>
      rw [hbo] at hb1 hb3 hb5
      rw [hreq.2.1 s why hbo]
      simp only [Outcome.state] at hb1 hb3
      have hf := hnofail (.disconnect s why) hb1 (by
        cases why <;> first | rfl | (simp [Outcome.is_auth_fail] at hb5))
      simp [hf, Outcome.state, hb3]
    | fatal s why =>
      rw [hbo] at hb1 hb3
      rw [hreq.2.2.1 s why hbo]
      simp only [Outcome.state] at hb1 hb3
      have hf := hnofail (.fatal s why) hb1 rfl
      simp [hf, Outcome.state, hb3]
    | segv s =>
      rw [hbo] at hb1 hb3
      rw [hreq.2.2.2 s hbo]
      simp only [Outcome.state] at hb1 hb3
      have hf := hnofail (.segv s) hb1 rfl
      simp [hf, Outcome.state, hb3]
    | returned s u =>
      rw [hbo] at hb1 hb3 hb4
      rw [hreq.1 s u hbo]
      simp only [Outcome.state] at hb1 hb3 hb4
      obtain ⟨s2, a, l2, ht, ht2, hl2, _, p, c, hctx⟩ := try_summary env s rq
      rw [ht]
      obtain ⟨l3, hf1, _, _, lists, sc, f, hf2⟩ := finish_summary env s2 a rq.method none
      have hfa : failed_attempt ssh ((userauth_finish env s2 a rq.method none).ret (0 : Int)) =
          failed_attempt s2 (userauth_finish env s2 a rq.method none) := by
        rw [failed_attempt_ret]
        refine failed_attempt_earlier ssh s2 _ (l ++ l2) l3 ?_ ?_ hf1
        · rw [ht2, hb1]; simp
        · intro e he
          rcases List.mem_append.1 he with he | he
          · exact hb2 e he
          · exact hl2 e he
      have hff := finish_failures env s2 a rq.method none
      rw [hfa, ret_state]
      have hscf : (userauth_finish env s2 a rq.method none).state.authctxt.server_caused_failure =
          s2.authctxt.server_caused_failure := by rw [hf2]
      have hatt : s2.authctxt.attempt = ssh.authctxt.attempt + 1 := by rw [hctx]; exact hb4
      have hfl : s2.authctxt.failures = ssh.authctxt.failures := by rw [hctx]; exact hb3
      refine ⟨?_, ?_⟩
      · rw [hscf]
        cases hfl' : failed_attempt s2 (userauth_finish env s2 a rq.method none) with
        | false =>
          rw [hff.2 hfl', hfl]; simp
        | true =>
          rw [hff.1 hfl', hfl, hatt]
          by_cases hz : s2.authctxt.server_caused_failure = 0
          · by_cases hm : rq.method = s_none
            · by_cases ha : ssh.authctxt.attempt = 0
              · simp [hz, hm, ha]
              · have : ssh.authctxt.attempt + 1 > 1 := by omega
                simp [hz, hm, ha, this]
            · simp [hz, hm]
          · simp [hz]
      · intro s' r hs' _
        have : (Outcome.ret (userauth_finish env s2 a rq.method none) (0 : Int)).state = s' := by
          rw [hs']; rfl
        rw [ret_state] at this
        rw [← this, hf2]
        exact hatt

theorem run_failures (env : Env) :
    ∀ (pkts : List (Option Request)) (ssh : Ssh) (opening : Bool),
      0 ≤ ssh.authctxt.attempt → (opening = true ↔ ssh.authctxt.attempt = 0) →
      (run_requests env ssh pkts).state.authctxt.failures =
        ssh.authctxt.failures + count_failures env opening ssh pkts := by
  intro pkts
  induction pkts with
  | nil => intro ssh opening _ _; simp [run_requests, count_failures, Outcome.state]
  | cons pkt rest ih =>
    intro ssh opening h0 hop
    obtain ⟨hstep, hatt⟩ := request_step env ssh pkt h0
    have hcond : (failed_attempt ssh (input_userauth_request env ssh pkt) = true ∧
          (input_userauth_request env ssh pkt).state.authctxt.server_caused_failure = 0 ∧
          ¬ (opening = true ∧ pkt.map Request.method = some s_none)) ↔
        (failed_attempt ssh (input_userauth_request env ssh pkt) = true ∧
          (input_userauth_request env ssh pkt).state.authctxt.server_caused_failure = 0 ∧
          ¬ (ssh.authctxt.attempt = 0 ∧ pkt.map Request.method = some s_none)) := by
      rw [hop]
    unfold run_requests count_failures
    simp only [hcond]
    cases ho : input_userauth_request env ssh pkt with
    | returned s r =>
      rw [ho] at hstep
      simp only [Outcome.state] at hstep
      by_cases hr : r = 0
      · have hs := hatt s r ho hr
        have := ih s false (by omega) (by
          constructor
          · intro h; exact absurd h (by simp)
          · intro h; omega)
        subst hr
        simp only [if_true]
        rw [this]
        simp only [Outcome.state]
        rw [hstep]
        ring
      · simp only [hr, if_false, Outcome.state]
        rw [hstep]; ring
    | disconnect s why =>
      rw [ho] at hstep
      simp only [Outcome.state] at hstep ⊢
      rw [hstep]; ring
    | fatal s why =>
      rw [ho] at hstep
      simp only [Outcome.state] at hstep ⊢
      rw [hstep]; ring
    | segv s =>
      rw [ho] at hstep
      simp only [Outcome.state] at hstep ⊢
      rw [hstep]; ring

/-- C3: when `userauth_finish` ends as a failed attempt (not authenticated, not
postponed) it adds exactly 1 to `failures`, unless the failure is server-caused
or the request is the opening probe (`attempt` = 1 and method "none"), and then
`failures` is unchanged; `attempt` is at least 1 in every call, since
`input_userauth_request` counts the attempt first. Hence over every sequence
of requests on a new connection `failures` is the number of failed attempts
that are not server-caused, the opening request with method "none"
excluded. -/
theorem C3_failures_counted (env : Env) :
    (∀ (ssh : Ssh) (authenticated : Int) (method : CString) (submethod : Option CString),
      1 ≤ ssh.authctxt.attempt →
      failed_attempt ssh (userauth_finish env ssh authenticated method submethod) = true →
      (userauth_finish env ssh authenticated method submethod).state.authctxt.failures =
        if ssh.authctxt.server_caused_failure ≠ 0 ∨
            (ssh.authctxt.attempt = 1 ∧ method = s_none) then ssh.authctxt.failures
        else ssh.authctxt.failures + 1) ∧
    (∀ (ssh : Ssh) (pkts : List (Option Request)),
      ssh.authctxt.attempt = 0 →
      (run_requests env ssh pkts).state.authctxt.failures =
        ssh.authctxt.failures + count_failures env true ssh pkts) := by
  refine ⟨?_, ?_⟩
  · intro ssh authenticated method submethod h1 hf
    rw [(finish_failures env ssh authenticated method submethod).1 hf]
    by_cases hz : ssh.authctxt.server_caused_failure = 0
    · by_cases hm : method = s_none
      · by_cases ha : ssh.authctxt.attempt = 1
        · simp [hz, hm, ha]
        · have : ssh.authctxt.attempt > 1 := by omega
          simp [hz, hm, ha, this]
      · simp [hz, hm]
    · simp [hz]
  · intro ssh pkts h0
    exact run_failures env pkts ssh true (by omega) (by simp [h0])

/-- C3 on a new connection without policy: the probe with "none" is free, the
two attempts with the disabled "hostbased" are counted. -/
theorem C3_failures_counted_witness :
    (run_requests (ex_env 6 []) ex_ssh
      [ex_request "none".toList, ex_request "hostbased".toList,
        ex_request "hostbased".toList]).state.authctxt.failures = 2 ∧
    count_failures (ex_env 6 []) true ex_ssh
      [ex_request "none".toList, ex_request "hostbased".toList,
        ex_request "hostbased".toList] = 2 :=
  ⟨by decide,
    by
      have h := (C3_failures_counted (ex_env 6 [])).2 ex_ssh
        [ex_request "none".toList, ex_request "hostbased".toList,
          ex_request "hostbased".toList] (by decide)
      have h2 : (run_requests (ex_env 6 []) ex_ssh
        [ex_request "none".toList, ex_request "hostbased".toList,
          ex_request "hostbased".toList]).state.authctxt.failures = 2 := by decide
      have h3 : ex_ssh.authctxt.failures = 0 := by decide
      rw [h2, h3] at h
      omega⟩

/-! ## The tries limit -/

/-- A call of `userauth_finish` with 0 on a context that is not postponed is a
failed attempt: it counts the failure, then disconnects or replies. -/
theorem finish_zero (env : Env) (ssh : Ssh) (method : CString) (submethod : Option CString)
    (hp : ssh.authctxt.postponed = 0) :
    ∃ f : Int,
      f = (if ssh.authctxt.server_caused_failure = 0 ∧
          (ssh.authctxt.attempt > 1 ∨ method ≠ s_none) then ssh.authctxt.failures + 1
        else ssh.authctxt.failures) ∧
      ((env.options.max_authtries ≤ f ∧
        userauth_finish env ssh 0 method submethod =
          .disconnect { ssh with
            authctxt := { ssh.authctxt with failures := f }
            trace := ssh.trace ++ [.auth_log 0 0 method submethod] } .auth_fail) ∨
      (f < env.options.max_authtries ∧
        userauth_finish env ssh 0 method submethod =
          .returned { ssh with
            authctxt := { ssh.authctxt with failures := f }
            trace := ssh.trace ++ [.auth_log 0 0 method submethod,
              .send (.USERAUTH_FAILURE
                (authmethods_get env { ssh.authctxt with failures := f }) 0)] } ())) := by
  have hroot : userauth_finish_root env ssh.authctxt 0 method = 0 := by
    simp [userauth_finish_root]
  have hfin : userauth_finish env ssh 0 method submethod =
      userauth_finish_reply env ssh 0 0 method submethod := by
    rw [finish_unfold env ssh 0 method submethod (by simp) (by simp) (by simp), hroot]
    simp
  rw [hfin]
  rcases reply_cases env ssh 0 0 method submethod with
    ⟨hp', _⟩ | ⟨_, ha, _⟩ | ⟨_, _, f, hf, h⟩
  · exact absurd hp hp'
  · simp at ha
  · exact ⟨f, hf, h⟩

theorem setup_ret_indep (env : Env) (c c' : Authctxt) :
    (auth2_setup_methods_lists env c).2 = (auth2_setup_methods_lists env c').2 := by
  unfold auth2_setup_methods_lists
  split
  · rfl
  · simp only
    split <;> rfl

theorem bind_first_returned (env : Env) (ssh : Ssh) (rq : Request)
    (h0 : ssh.authctxt.attempt = 0)
    (hsetup : (auth2_setup_methods_lists env Authctxt.new).2 = 0) :
    input_userauth_request_bind env ssh rq =
      .returned (input_userauth_request_bind env ssh rq).state () := by
  unfold input_userauth_request_bind
  simp only [h0, if_true]
  rw [if_neg]
  · rfl
  · rw [setup_ret_indep env _ Authctxt.new, hsetup]
    simp

theorem bind_later_returned (env : Env) (ssh : Ssh) (rq : Request)
    (h0 : ssh.authctxt.attempt ≠ 0)
    (hu : ssh.authctxt.user = some (split_style rq.user).1)
    (hs : ssh.authctxt.service = some rq.service) :
    input_userauth_request_bind env ssh rq =
      .returned { ssh with
        authctxt := { ssh.authctxt with attempt := ssh.authctxt.attempt + 1 } } () := by
  unfold input_userauth_request_bind
  simp [h0, hu, hs, strcmp_eq]

/-- A request whose handler, if one is invoked, reports failure and neither
postpones nor blames the server: after the first part returned `s1`, the
request is `userauth_finish` with 0 on a state that differs from `s1` by
cleared flags and at most a handler event. -/
theorem failing_try (env : Env) (s1 : Ssh) (rq : Request)
    (hfail : ∀ m ∈ env.authmethods, m.name = rq.method →
          ∀ c, m.userauth c rq.payload = ⟨0, 0, 0⟩) :
    ∃ l2 : List Event, (∀ e ∈ l2, e.is_send = false) ∧
      input_userauth_request_try env s1 rq =
        (userauth_finish env
          { s1 with
            authctxt := { s1.authctxt with postponed := 0, server_caused_failure := 0 }
            trace := s1.trace ++ l2 } 0 rq.method none).ret 0 := by
  rcases try_cases env s1 rq with ⟨m, hl, _, h⟩ | ⟨_, h⟩
  · have hm := (lookup_loop_spec env _ rq.method env.authmethods).1 m hl
    refine ⟨[.userauth m.name], ?_, ?_⟩
    · intro e he
      simp only [List.mem_singleton] at he
      subst he
      rfl
    · rw [h, hfail m hm.1 hm.2.1]
  · exact ⟨[], by simp, by rw [h]; simp⟩

/-- A failing request after the first one, from the bound user and service:
the failure is counted, and the request ends in the exhausted-attempts
disconnect exactly when the count reaches the limit. -/
theorem failing_request_later (env : Env) (s : Ssh) (rq : Request)
    (h0 : 1 ≤ s.authctxt.attempt)
    (hu : s.authctxt.user = some (split_style rq.user).1)
    (hs : s.authctxt.service = some rq.service)
    (hfail : ∀ m ∈ env.authmethods, m.name = rq.method →
          ∀ c, m.userauth c rq.payload = ⟨0, 0, 0⟩) :
    ∃ s2 : Ssh, s2.authctxt.attempt = s.authctxt.attempt + 1 ∧
      s2.authctxt.failures = s.authctxt.failures + 1 ∧
      s2.authctxt.user = s.authctxt.user ∧ s2.authctxt.service = s.authctxt.service ∧
      ((env.options.max_authtries ≤ s.authctxt.failures + 1 ∧
          input_userauth_request env s (some rq) = .disconnect s2 .auth_fail) ∨
        (s.authctxt.failures + 1 < env.options.max_authtries ∧
          input_userauth_request env s (some rq) = .returned s2 0)) := by
  have hb := bind_later_returned env s rq (by omega) hu hs
  rw [(request_of_bind env s rq).1 _ _ hb]
  obtain ⟨l2, _, ht⟩ := failing_try env
    { s with authctxt := { s.authctxt with attempt := s.authctxt.attempt + 1 } } rq hfail
  rw [ht]
  obtain ⟨f, hf, hcase⟩ := finish_zero env
    { s with
      authctxt := { s.authctxt with
        attempt := s.authctxt.attempt + 1, postponed := 0, server_caused_failure := 0 }
      trace := s.trace ++ l2 } rq.method none rfl
  have hgt : s.authctxt.attempt + 1 > 1 := by omega
  simp only [hgt, true_or, and_self, if_true] at hf
  subst hf
  rcases hcase with ⟨hm, h⟩ | ⟨hm, h⟩
  · refine ⟨?s2, ?a, ?b, ?c, ?d, Or.inl ⟨hm, ?e⟩⟩
    case e => rw [h]; exact rfl
    all_goals rfl
  · refine ⟨?s3, ?a3, ?b3, ?c3, ?d3, Or.inr ⟨hm, ?e3⟩⟩
    case e3 => rw [h]; exact rfl
    all_goals rfl

/-- Failing requests after the first one, one more than the limit leaves room
for: the last of them ends in the exhausted-attempts disconnect, none before
it does. -/
theorem run_failing (env : Env) :
    ∀ (fails : List Request) (s : Ssh) (u sv : CString),
      fails ≠ [] →
      1 ≤ s.authctxt.attempt →
      s.authctxt.user = some u → s.authctxt.service = some sv →
      (∀ rq ∈ fails, (split_style rq.user).1 = u ∧ rq.service = sv ∧
        ∀ m ∈ env.authmethods, m.name = rq.method →
          ∀ c, m.userauth c rq.payload = ⟨0, 0, 0⟩) →
      s.authctxt.failures + fails.length = env.options.max_authtries →
      ∃ s2, run_requests env s (fails.map some) = .disconnect s2 .auth_fail ∧
        s2.authctxt.attempt = s.authctxt.attempt + fails.length ∧
        s2.authctxt.failures = env.options.max_authtries := by
  intro fails
  induction fails with
  | nil => intro s u sv h; exact absurd rfl h
  | cons rq rest ih =>
    intro s u sv _ h0 hu hs hall hlen
    obtain ⟨hq1, hq2, hq3⟩ := hall rq (List.mem_cons_self _ _)
    obtain ⟨s2, ha, hf, hu2, hs2, hcase⟩ := failing_request_later env s rq h0
      (by rw [hu, hq1]) (by rw [hs, hq2]) hq3
    simp only [List.length_cons, Nat.cast_add, Nat.cast_one] at hlen
    simp only [List.map_cons, run_requests]
    by_cases hrest : rest = []
    · subst hrest
      simp only [List.length_nil, Nat.cast_zero, zero_add] at hlen
      rcases hcase with ⟨_, h⟩ | ⟨hm, _⟩
      · rw [h]
        refine ⟨s2, rfl, ?_, ?_⟩
        · rw [ha]; simp
        · rw [hf, hlen]
      · omega
    · have hpos : 0 < rest.length := List.length_pos.2 hrest
      rcases hcase with ⟨hm, _⟩ | ⟨_, h⟩
      · omega
      · rw [h]
        simp only [if_true]
        obtain ⟨s3, h3, ha3, hf3⟩ := ih s2 u sv hrest (by omega) (by rw [hu2, hu])
          (by rw [hs2, hs]) (fun r hr => hall r (List.mem_cons_of_mem _ hr))
          (by rw [hf]; omega)
        refine ⟨s3, h3, ?_, hf3⟩
        rw [ha3, ha]
        simp only [List.length_cons, Nat.cast_add, Nat.cast_one]
        ring

/-- The opening probe with method "none", failing: it is not counted. -/
theorem probe_request (env : Env) (ssh : Ssh) (rq : Request)
    (h0 : ssh.authctxt.attempt = 0) (hm : rq.method = s_none)
    (hmax : ssh.authctxt.failures < env.options.max_authtries)
    (hsetup : (auth2_setup_methods_lists env Authctxt.new).2 = 0)
    (hfail : ∀ m ∈ env.authmethods, m.name = rq.method →
          ∀ c, m.userauth c rq.payload = ⟨0, 0, 0⟩) :
    ∃ s2 : Ssh, input_userauth_request env ssh (some rq) = .returned s2 0 ∧
      s2.authctxt.attempt = 1 ∧ s2.authctxt.failures = ssh.authctxt.failures ∧
      s2.authctxt.user = some (split_style rq.user).1 ∧
      s2.authctxt.service = some rq.service := by
  have hb := bind_first_returned env ssh rq h0 hsetup
  obtain ⟨lists, pw, valid, l, hst, _, _⟩ := bind_first env ssh rq h0
  rw [(request_of_bind env ssh rq).1 _ _ hb]
  obtain ⟨l2, _, ht⟩ := failing_try env (input_userauth_request_bind env ssh rq).state rq hfail
  rw [ht]
  obtain ⟨f, hf, hcase⟩ := finish_zero env
    { (input_userauth_request_bind env ssh rq).state with
      authctxt := { (input_userauth_request_bind env ssh rq).state.authctxt with
        postponed := 0, server_caused_failure := 0 }
      trace := (input_userauth_request_bind env ssh rq).state.trace ++ l2 } rq.method none rfl
  rw [hst] at hf hcase ⊢
  simp only [hm, gt_iff_lt, lt_self_iff_false, ne_eq, not_true_eq_false, or_self, and_false,
    if_false] at hf
  subst hf
  rcases hcase with ⟨hge, _⟩ | ⟨_, h⟩
  · omega
  · refine ⟨?s2, ?e, ?a, ?b, ?c, ?d⟩
    case e => rw [h]; exact rfl
    all_goals rfl

/-- The endings of `userauth_finish` by what the peer sees: no failure reply
and no exhausted-attempts disconnect; or that disconnect, with the counter at
the limit and no packet sent; or a failure reply, with the counter under the
limit. -/
theorem finish_endings (env : Env) (ssh : Ssh) (authenticated : Int) (method : CString)
    (submethod : Option CString) :
    ((new_events ssh (userauth_finish env ssh authenticated method submethod)).any
          Event.is_failure_reply = false ∧
      (userauth_finish env ssh authenticated method submethod).is_auth_fail = false) ∨
    (userauth_finish env ssh authenticated method submethod =
        .disconnect (userauth_finish env ssh authenticated method submethod).state .auth_fail ∧
      env.options.max_authtries ≤
        (userauth_finish env ssh authenticated method submethod).state.authctxt.failures ∧
      ∀ e ∈ new_events ssh (userauth_finish env ssh authenticated method submethod),
        e.is_send = false) ∨
    (userauth_finish env ssh authenticated method submethod =
        .returned (userauth_finish env ssh authenticated method submethod).state () ∧
      (userauth_finish env ssh authenticated method submethod).state.authctxt.failures <
        env.options.max_authtries ∧
      (new_events ssh (userauth_finish env ssh authenticated method submethod)).any
          Event.is_failure_reply = true) := by
  rcases finish_guard_cases env ssh authenticated method submethod with
    ⟨_, _, e⟩ | ⟨_, _, e⟩ | ⟨_, _, e⟩ | ⟨h1, h2, h3⟩
  · rw [e]; left; simp [new_events, Outcome.state, Outcome.is_auth_fail]
  · rw [e]; left; simp [new_events, Outcome.state, Outcome.is_auth_fail]
  · rw [e]; left; simp [new_events, Outcome.state, Outcome.is_auth_fail]
  · rcases finish_as_reply env ssh authenticated method submethod h1 h2 h3 with
      e | ⟨lists, a, part, _, e⟩
    · rw [e]; left; simp [new_events, Outcome.state, Outcome.is_auth_fail]
    · rw [e]
      obtain ⟨o, pkts, ho, ht, _, _, hcase⟩ := reply_summary env
        { ssh with authctxt := { ssh.authctxt with auth_methods := lists } }
        a part method submethod
      rw [ho]
      have hne : new_events ssh o = .auth_log a part method submethod :: pkts := by
        simp [new_events, ht]
      rw [hne]
      rcases hcase with ⟨hp, _, hr, _⟩ | ⟨hp, _, _, hr, _⟩ |
        ⟨_, _, _, ⟨hp, hm, hr⟩ | ⟨hp, hm, hr⟩⟩
      · left
        rw [hp, hr]
        simp [Event.is_failure_reply, Outcome.is_auth_fail]
      · left
        rw [hp, hr]
        simp [Event.is_failure_reply, Outcome.is_auth_fail]
      · right; left
        refine ⟨hr, hm, ?_⟩
        rw [hp]
        simp [Event.is_send]
      · right; right
        refine ⟨hr, hm, ?_⟩
        rw [hp]
        simp [Event.is_failure_reply]

theorem is_send_of_failure_reply (e : Event) (h : e.is_failure_reply = true) :
    e.is_send = true := by
  cases e with
  | send p => rfl
  | userauth n => simp [Event.is_failure_reply] at h
  | auth_log a b c d => simp [Event.is_failure_reply] at h

/-- C4: `userauth_finish` sends a failure reply only when `failures`, after the
possible increment, is below `max_authtries`, and otherwise a failed attempt
ends in the exhausted-attempts disconnect with no packet sent; so `failures`
is at most the limit after every failure reply; with a limit of 1 the first
counted failure disconnects; and with a limit of n, on a new connection, a
failing probe with "none" followed by n failing attempts ends in that
disconnect at the n-th of them, the request number n + 1. -/
theorem C4_tries_limit (env : Env) :
    (∀ (ssh : Ssh) (authenticated : Int) (method : CString) (submethod : Option CString),
      ((new_events ssh (userauth_finish env ssh authenticated method submethod)).any
          Event.is_failure_reply = true →
        (userauth_finish env ssh authenticated method submethod).state.authctxt.failures <
          env.options.max_authtries ∧
        (userauth_finish env ssh authenticated method submethod).state.authctxt.failures ≤
          env.options.max_authtries ∧
        userauth_finish env ssh authenticated method submethod =
          .returned (userauth_finish env ssh authenticated method submethod).state ()) ∧
      (failed_attempt ssh (userauth_finish env ssh authenticated method submethod) = true →
        env.options.max_authtries ≤
          (userauth_finish env ssh authenticated method submethod).state.authctxt.failures →
        userauth_finish env ssh authenticated method submethod =
          .disconnect (userauth_finish env ssh authenticated method submethod).state
            .auth_fail ∧
        ∀ e ∈ new_events ssh (userauth_finish env ssh authenticated method submethod),
          e.is_send = false)) ∧
    (env.options.max_authtries = 1 →
      ∀ (ssh : Ssh) (authenticated : Int) (method : CString) (submethod : Option CString),
        0 ≤ ssh.authctxt.failures → 1 ≤ ssh.authctxt.attempt →
        failed_attempt ssh (userauth_finish env ssh authenticated method submethod) = true →
        ssh.authctxt.server_caused_failure = 0 →
        ¬ (ssh.authctxt.attempt = 1 ∧ method = s_none) →
        userauth_finish env ssh authenticated method submethod =
          .disconnect (userauth_finish env ssh authenticated method submethod).state
            .auth_fail) ∧
    (∀ (n : Nat) (probe : Request) (fails : List Request) (ssh : Ssh),
      env.options.max_authtries = n → 1 ≤ n →
      ssh.authctxt.attempt = 0 → ssh.authctxt.failures = 0 →
      probe.method = s_none → fails.length = n →
      (auth2_setup_methods_lists env Authctxt.new).2 = 0 →
      (∀ rq ∈ probe :: fails,
        (split_style rq.user).1 = (split_style probe.user).1 ∧ rq.service = probe.service ∧
        ∀ m ∈ env.authmethods, m.name = rq.method →
          ∀ c, m.userauth c rq.payload = ⟨0, 0, 0⟩) →
      ∃ s, run_requests env ssh (some probe :: fails.map some) = .disconnect s .auth_fail ∧
        s.authctxt.attempt = n + 1 ∧ s.authctxt.failures = n) := by
  have hA : ∀ (ssh : Ssh) (authenticated : Int) (method : CString)
      (submethod : Option CString),
      ((new_events ssh (userauth_finish env ssh authenticated method submethod)).any
          Event.is_failure_reply = true →
        (userauth_finish env ssh authenticated method submethod).state.authctxt.failures <
          env.options.max_authtries ∧
        (userauth_finish env ssh authenticated method submethod).state.authctxt.failures ≤
          env.options.max_authtries ∧
        userauth_finish env ssh authenticated method submethod =
          .returned (userauth_finish env ssh authenticated method submethod).state ()) ∧
      (failed_attempt ssh (userauth_finish env ssh authenticated method submethod) = true →
        env.options.max_authtries ≤
          (userauth_finish env ssh authenticated method submethod).state.authctxt.failures →
        userauth_finish env ssh authenticated method submethod =
          .disconnect (userauth_finish env ssh authenticated method submethod).state
            .auth_fail ∧
        ∀ e ∈ new_events ssh (userauth_finish env ssh authenticated method submethod),
          e.is_send = false) := by
    intro ssh authenticated method submethod
    rcases finish_endings env ssh authenticated method submethod with
      ⟨h1, h2⟩ | ⟨h1, h2, h3⟩ | ⟨h1, h2, h3⟩
    · refine ⟨fun h => ?_, fun h _ => ?_⟩
      · rw [h1] at h; simp at h
      · rw [failed_attempt, h1, h2] at h; simp at h
    · refine ⟨fun h => ?_, fun _ _ => ⟨h1, h3⟩⟩
      obtain ⟨e, he, hr⟩ := List.any_eq_true.1 h
      have := h3 e he
      rw [is_send_of_failure_reply e hr] at this
      simp at this
    · refine ⟨fun _ => ⟨h2, le_of_lt h2, h1⟩, fun _ hge => ?_⟩
      omega
  refine ⟨hA, ?_, ?_⟩
  · intro hmax ssh authenticated method submethod hf0 ha hfail hscf hprobe
    refine ((hA ssh authenticated method submethod).2 hfail ?_).1
    rw [(finish_failures env ssh authenticated method submethod).1 hfail, hmax]
    have hc : ssh.authctxt.attempt > 1 ∨ method ≠ s_none := by
      by_cases hm : method = s_none
      · left
        have : ssh.authctxt.attempt ≠ 1 := fun h => hprobe ⟨h, hm⟩
        omega
      · exact Or.inr hm
    rw [if_pos ⟨hscf, hc⟩]
    omega
  · intro n probe fails ssh hmax hn h0 hf0 hmeth hlen hsetup hall
    obtain ⟨_, _, hpf⟩ := hall probe (List.mem_cons_self _ _)
    obtain ⟨s1, hs1, ha1, hf1, hu1, hsv1⟩ := probe_request env ssh probe h0 hmeth
      (by rw [hf0, hmax]; exact_mod_cast hn) hsetup hpf
    have hne : fails ≠ [] := by
      intro h
      rw [h] at hlen
      simp at hlen
      omega
    obtain ⟨s2, hr, ha2, hf2⟩ := run_failing env fails s1 (split_style probe.user).1
      probe.service hne (by omega) hu1 hsv1
      (fun rq hrq => hall rq (List.mem_cons_of_mem _ hrq))
      (by rw [hf1, hf0, hmax, hlen]; simp)
    refine ⟨s2, ?_, ?_, ?_⟩
    · simp only [run_requests, hs1, if_true]
      exact hr
    · rw [ha2, ha1, hlen]; ring
    · rw [hf2, hmax]

/-- C4 with a limit of 2: the probe, then two attempts with an unknown
method; the second of them, request number 3, disconnects. -/
theorem C4_tries_limit_witness :
    ∃ s, run_requests (ex_env 2 []) ex_ssh
        [ex_request "none".toList, ex_request "bogus".toList,
          ex_request "bogus".toList] = .disconnect s .auth_fail ∧
      s.authctxt.attempt = 3 ∧ s.authctxt.failures = 2 :=
  (C4_tries_limit (ex_env 2 [])).2.2 2
    ⟨"alice".toList, "ssh-connection".toList, "none".toList, []⟩
    [⟨"alice".toList, "ssh-connection".toList, "bogus".toList, []⟩,
      ⟨"alice".toList, "ssh-connection".toList, "bogus".toList, []⟩]
    ex_ssh (by decide) (by decide) (by decide) (by decide) (by decide) (by decide)
    (by decide)
    (by
      intro rq hrq
      refine ⟨?_, ?_, ?_⟩
      · revert rq; decide
      · revert rq; decide
      · intro m hm hname c
        have hm' : m ∈ ex_authmethods := hm
        simp only [ex_authmethods, List.mem_cons, List.mem_singleton, List.not_mem_nil,
          or_false] at hm'
        simp only [List.mem_cons, List.mem_singleton, List.not_mem_nil, or_false] at hrq
        rcases hrq with rfl | rfl | rfl <;> rcases hm' with rfl | rfl | rfl | rfl | rfl <;>
          first
          | rfl
          | exact absurd hname (by decide))

/-! ## The binding of user and service -/

/-- The second part of a request and `userauth_finish` leave the identity
fields of the context as the first part set them. -/
theorem request_binding (env : Env) (ssh : Ssh) (rq : Request) :
    (input_userauth_request env ssh (some rq)).state.authctxt.user =
        (input_userauth_request_bind env ssh rq).state.authctxt.user ∧
    (input_userauth_request env ssh (some rq)).state.authctxt.service =
        (input_userauth_request_bind env ssh rq).state.authctxt.service ∧
    (input_userauth_request env ssh (some rq)).state.authctxt.style =
        (input_userauth_request_bind env ssh rq).state.authctxt.style ∧
    (input_userauth_request env ssh (some rq)).state.authctxt.valid =
        (input_userauth_request_bind env ssh rq).state.authctxt.valid ∧
    (input_userauth_request env ssh (some rq)).state.authctxt.pw =
        (input_userauth_request_bind env ssh rq).state.authctxt.pw := by
  have hreq := request_of_bind env ssh rq
  cases hbo : input_userauth_request_bind env ssh rq with
  | disconnect s why => rw [hreq.2.1 s why hbo]; simp [Outcome.state]
  | fatal s why => rw [hreq.2.2.1 s why hbo]; simp [Outcome.state]
  | segv s => rw [hreq.2.2.2 s hbo]; simp [Outcome.state]
  | returned s u =>
    rw [hreq.1 s u hbo]
    obtain ⟨s2, a, l2, ht, _, _, _, p, c, hctx⟩ := try_summary env s rq
    obtain ⟨_, _, _, _, lists, sc, f, hf⟩ := finish_summary env s2 a rq.method none
    rw [ht, ret_state, hf, hctx]
    simp [Outcome.state]

theorem run_binding (env : Env) :
    ∀ (pkts : List (Option Request)) (ssh : Ssh), 1 ≤ ssh.authctxt.attempt →
      (run_requests env ssh pkts).state.authctxt.user = ssh.authctxt.user ∧
      (run_requests env ssh pkts).state.authctxt.service = ssh.authctxt.service ∧
      (run_requests env ssh pkts).state.authctxt.style = ssh.authctxt.style := by
  intro pkts
  induction pkts with
  | nil => intro ssh _; simp [run_requests, Outcome.state]
  | cons pkt rest ih =>
    intro ssh h1
    have hstep : (input_userauth_request env ssh pkt).state.authctxt.user = ssh.authctxt.user ∧
        (input_userauth_request env ssh pkt).state.authctxt.service = ssh.authctxt.service ∧
        (input_userauth_request env ssh pkt).state.authctxt.style = ssh.authctxt.style := by
      cases pkt with
      | none => simp [input_userauth_request, Outcome.state]
      | some rq =>
        obtain ⟨hu, hs, hst, _, _⟩ := request_binding env ssh rq
        obtain ⟨hb, _, _⟩ := bind_later env ssh rq (by omega)
        rw [hu, hs, hst, hb]
        exact ⟨rfl, rfl, rfl⟩
    have hatt := (request_step env ssh pkt (by omega)).2
    unfold run_requests
    cases ho : input_userauth_request env ssh pkt with
    | returned s r =>
      rw [ho] at hstep
      simp only [Outcome.state] at hstep
      by_cases hr : r = 0
      · subst hr
        simp only [if_true]
        have := ih s (by rw [hatt s 0 ho rfl]; omega)
        rw [this.1, this.2.1, this.2.2]
        exact hstep
      · simp only [hr, if_false, Outcome.state]
        exact hstep
    | disconnect s why => rw [ho] at hstep; exact hstep
    | fatal s why => rw [ho] at hstep; exact hstep
    | segv s => rw [ho] at hstep; exact hstep

/-- C5: a request after the first one whose user name (the part before the
first ':') or service differs from the bound one ends in the disconnect
"Change of username or service not allowed" with the trace as it was, so no
handler ran; no request after the first changes the bound user, service or
style; and over any sequence of requests on a new connection they stay as the
first request set them. -/
theorem C5_user_binding (env : Env) :
    (∀ (ssh : Ssh) (rq : Request) (u sv : CString),
      ssh.authctxt.attempt ≠ 0 →
      ssh.authctxt.user = some u → ssh.authctxt.service = some sv →
      ((split_style rq.user).1 ≠ u ∨ rq.service ≠ sv) →
      input_userauth_request env ssh (some rq) =
        .disconnect { ssh with
          authctxt := { ssh.authctxt with attempt := ssh.authctxt.attempt + 1 } }
          .change_of_user) ∧
    (∀ (ssh : Ssh) (pkt : Option Request),
      ssh.authctxt.attempt ≠ 0 →
      (input_userauth_request env ssh pkt).state.authctxt.user = ssh.authctxt.user ∧
      (input_userauth_request env ssh pkt).state.authctxt.service = ssh.authctxt.service ∧
      (input_userauth_request env ssh pkt).state.authctxt.style = ssh.authctxt.style) ∧
    (∀ (ssh : Ssh) (first : Request) (rest : List (Option Request)),
      ssh.authctxt.attempt = 0 →
      (run_requests env ssh (some first :: rest)).state.authctxt.user =
        some (split_style first.user).1 ∧
      (run_requests env ssh (some first :: rest)).state.authctxt.service =
        some first.service ∧
      (run_requests env ssh (some first :: rest)).state.authctxt.style =
        (split_style first.user).2) := by
  refine ⟨?_, ?_, ?_⟩
  · intro ssh rq u sv h0 hu hs hne
    exact (request_of_bind env ssh rq).2.1 _ _ ((bind_later env ssh rq h0).2.2 u sv hu hs hne)
  · intro ssh pkt h0
    cases pkt with
    | none => simp [input_userauth_request, Outcome.state]
    | some rq =>
      obtain ⟨hu, hs, hst, _, _⟩ := request_binding env ssh rq
      obtain ⟨hb, _, _⟩ := bind_later env ssh rq h0
      rw [hu, hs, hst, hb]
      exact ⟨rfl, rfl, rfl⟩
  · intro ssh first rest h0
    obtain ⟨hu, hs, hst, _, _⟩ := request_binding env ssh first
    obtain ⟨lists, pw, valid, l, hb, _, _⟩ := bind_first env ssh first h0
    rw [hb] at hu hs hst
    simp only at hu hs hst
    have hatt := (request_step env ssh (some first) (by omega)).2
    unfold run_requests
    cases ho : input_userauth_request env ssh (some first) with
    | returned s r =>
      rw [ho] at hu hs hst
      simp only [Outcome.state] at hu hs hst
      by_cases hr : r = 0
      · subst hr
        simp only [if_true]
        have := run_binding env rest s (by rw [hatt s 0 ho rfl]; omega)
        rw [this.1, this.2.1, this.2.2]
        exact ⟨hu, hs, hst⟩
      · simp only [hr, if_false, Outcome.state]
        exact ⟨hu, hs, hst⟩
    | disconnect s why => rw [ho] at hu hs hst; exact ⟨hu, hs, hst⟩
    | fatal s why => rw [ho] at hu hs hst; exact ⟨hu, hs, hst⟩
    | segv s => rw [ho] at hu hs hst; exact ⟨hu, hs, hst⟩

/-- C5 on the second scenario of the specification: the first request binds
alice, the second names bob. -/
theorem C5_user_binding_witness :
    ∃ s, run_requests (ex_env 6 []) ex_ssh
        [ex_request "none".toList,
          some ⟨"bob".toList, "ssh-connection".toList, "password".toList, []⟩] =
        .disconnect s .change_of_user ∧
      s.authctxt.user = some "alice".toList ∧
      (s.trace.filter Event.is_userauth).length = 1 := by
  have h1 : ∃ s1, input_userauth_request (ex_env 6 []) ex_ssh (ex_request "none".toList) =
      .returned s1 0 ∧ s1.authctxt.attempt ≠ 0 ∧ s1.authctxt.user = some "alice".toList ∧
      s1.authctxt.service = some "ssh-connection".toList ∧
      (s1.trace.filter Event.is_userauth).length = 1 :=
    ⟨_, rfl, by decide, by decide, by decide, by decide⟩
  obtain ⟨s1, e1, ha, hu, hs, ht⟩ := h1
  have h2 := (C5_user_binding (ex_env 6 [])).1 s1
    ⟨"bob".toList, "ssh-connection".toList, "password".toList, []⟩
    "alice".toList "ssh-connection".toList ha hu hs (Or.inl (by decide))
  refine ⟨{ s1 with authctxt := { s1.authctxt with attempt := s1.authctxt.attempt + 1 } },
    ?_, hu, ht⟩
  simp only [run_requests, e1, if_true, h2]

theorem new_events_ret {α β : Type} (before : Ssh) (o : Outcome Ssh α) (r : β) :
    new_events before (o.ret r) = new_events before o := by
  simp [new_events, ret_state]

/-- C9: for a request that passes the first part of `input_userauth_request`
(it is not a change of user or service and setup did not fail), a method
handler is invoked iff `failures` is below `max_authtries` and the registry
has an entry with exactly the requested name that is enabled and allowed by
`method_allowed`; the handler invoked is then the one of that name; otherwise
no handler runs, `userauth_finish` is called with 0, and the request is a
failed attempt, counted unless it is the opening probe. -/
theorem C9_dispatch (env : Env) (ssh s : Ssh) (rq : Request)
    (hbind : input_userauth_request_bind env ssh rq = .returned s ()) :
    ((∃ name, Event.userauth name ∈
        new_events s (input_userauth_request env ssh (some rq))) ↔
      dispatchable env s.authctxt rq.method) ∧
    (dispatchable env s.authctxt rq.method →
      (new_events s (input_userauth_request env ssh (some rq))).filter Event.is_userauth =
        [.userauth rq.method]) ∧
    (¬ dispatchable env s.authctxt rq.method →
      input_userauth_request env ssh (some rq) =
        (userauth_finish env
          { s with authctxt := { s.authctxt with postponed := 0, server_caused_failure := 0 } }
          0 rq.method none).ret 0 ∧
      failed_attempt s (input_userauth_request env ssh (some rq)) = true ∧
      (input_userauth_request env ssh (some rq)).state.authctxt.failures =
        if s.authctxt.attempt > 1 ∨ rq.method ≠ s_none then s.authctxt.failures + 1
        else s.authctxt.failures) := by
  rw [(request_of_bind env ssh rq).1 s () hbind]
  have hspec := lookup_loop_spec env
    { s.authctxt with postponed := 0, server_caused_failure := 0 } rq.method env.authmethods
  rcases try_cases env s rq with ⟨m, hl, hlt, h⟩ | ⟨hno, h⟩
  · obtain ⟨hm1, hm2, hm3, hm4, hm5⟩ := hspec.1 m hl
    have hd : dispatchable env s.authctxt rq.method :=
      ⟨hlt, m, hm1, hm2, hm3, hm4, hm5⟩
    obtain ⟨l, hf1, hf2, _⟩ := finish_summary env
      { s with
        authctxt := { s.authctxt with
          postponed := (m.userauth
            { s.authctxt with postponed := 0, server_caused_failure := 0 }
            rq.payload).postponed
          server_caused_failure := (m.userauth
            { s.authctxt with postponed := 0, server_caused_failure := 0 }
            rq.payload).server_caused_failure }
        trace := s.trace ++ [.userauth m.name] }
      (m.userauth { s.authctxt with postponed := 0, server_caused_failure := 0 }
        rq.payload).authenticated rq.method none
    have hne : new_events s (input_userauth_request_try env s rq) =
        .userauth m.name :: l := by
      rw [h, new_events_ret, new_events, hf1]
      simp
    have hfil : l.filter Event.is_userauth = [] := by
      rw [List.filter_eq_nil_iff]
      intro e he
      simp [hf2 e he]
    rw [hne]
    refine ⟨⟨fun _ => hd, fun _ => ⟨m.name, List.mem_cons_self _ _⟩⟩, ?_, fun hnd => absurd hd hnd⟩
    intro _
    rw [List.filter_cons]
    simp [Event.is_userauth, hfil, hm2]
  · have hnd : ¬ dispatchable env s.authctxt rq.method := by
      rintro ⟨hlt, m, hm⟩
      rcases hno with hnone | hge
      · exact (hspec.2.1 hnone) ⟨m, hm⟩
      · omega
    obtain ⟨l, hf1, hf2, _⟩ := finish_summary env
      { s with authctxt := { s.authctxt with postponed := 0, server_caused_failure := 0 } }
      0 rq.method none
    have hne : new_events s (input_userauth_request_try env s rq) = l := by
      rw [h, new_events_ret, new_events, hf1]
      simp
    refine ⟨⟨?_, fun hd => absurd hd hnd⟩, fun hd => absurd hd hnd, fun _ => ⟨h, ?_, ?_⟩⟩
    · rintro ⟨name, hname⟩
      rw [hne] at hname
      have := hf2 _ hname
      simp [Event.is_userauth] at this
    · rw [h, failed_attempt_ret]
      obtain ⟨f, _, ⟨_, hz⟩ | ⟨_, hz⟩⟩ := finish_zero env
        { s with authctxt := { s.authctxt with postponed := 0, server_caused_failure := 0 } }
        rq.method none rfl
      · rw [hz]; simp [failed_attempt, Outcome.is_auth_fail]
      · rw [hz]; simp [failed_attempt, new_events, Outcome.state, Event.is_failure_reply]
    · rw [h, ret_state]
      obtain ⟨f, hf, ⟨_, hz⟩ | ⟨_, hz⟩⟩ := finish_zero env
        { s with authctxt := { s.authctxt with postponed := 0, server_caused_failure := 0 } }
        rq.method none rfl
      · rw [hz]; simp only [Outcome.state, hf]; simp
      · rw [hz]; simp only [Outcome.state, hf]; simp

/-- C9 on a new connection: the disabled "hostbased" is not dispatched and
the request is a failed attempt. -/
theorem C9_dispatch_witness :
    input_userauth_request_bind (ex_env 6 []) ex_ssh
        ⟨"alice".toList, "ssh-connection".toList, "hostbased".toList, []⟩ =
      .returned (input_userauth_request_bind (ex_env 6 []) ex_ssh
        ⟨"alice".toList, "ssh-connection".toList, "hostbased".toList, []⟩).state () ∧
    failed_attempt (input_userauth_request_bind (ex_env 6 []) ex_ssh
        ⟨"alice".toList, "ssh-connection".toList, "hostbased".toList, []⟩).state
      (input_userauth_request (ex_env 6 []) ex_ssh
        (some ⟨"alice".toList, "ssh-connection".toList, "hostbased".toList, []⟩)) = true :=
  ⟨by decide,
    ((C9_dispatch (ex_env 6 []) ex_ssh _
      ⟨"alice".toList, "ssh-connection".toList, "hostbased".toList, []⟩ (by decide)).2.2
        (by decide)).2.1⟩

/-! ## The advertisement -/

theorem intercalate_cons (n : CString) (ns : List CString) :
    [','].intercalate (n :: ns) = n ++ (ns.map (fun x => ',' :: x)).flatten := by
  induction ns generalizing n with
  | nil => simp [List.intercalate]
  | cons n2 ns ih =>
    have := ih n2
    simp only [List.intercalate] at this ⊢
    simp only [List.intersperse_cons₂, List.flatten_cons, this, List.map_cons]
    simp

theorem advertised_of_cons (env : Env) (authctxt : Authctxt) (m : Authmethod)
    (ms : List Authmethod) :
    advertised_of env authctxt (m :: ms) =
      if m.name ≠ s_none ∧ m.enabled ≠ none ∧ m.enabled ≠ some 0 ∧
          method_allowed env authctxt m.name ≠ 0 then
        m.name :: advertised_of env authctxt ms
      else advertised_of env authctxt ms := by
  unfold advertised_of
  rw [List.filter_cons]
  split <;> rename_i h
  · rw [if_pos (by simpa using h)]; rfl
  · rw [if_neg (by simpa using h)]

theorem get_loop_step (env : Env) (authctxt : Authctxt) (m : Authmethod)
    (ms : List Authmethod) (b : CString) :
    authmethods_get_loop env authctxt (m :: ms) b =
      if m.name ≠ s_none ∧ m.enabled ≠ none ∧ m.enabled ≠ some 0 ∧
          method_allowed env authctxt m.name ≠ 0 then
        authmethods_get_loop env authctxt ms
          (b ++ (if b.length ≠ 0 then [','] else []) ++ m.name)
      else authmethods_get_loop env authctxt ms b := by
  rw [authmethods_get_loop]
  by_cases h1 : m.name = s_none
  · simp [strcmp_eq, h1]
  · by_cases h2 : m.enabled = none ∨ m.enabled = some 0
    · have : ¬ (m.enabled ≠ none ∧ m.enabled ≠ some 0 ∧
          method_allowed env authctxt m.name ≠ 0) := by
        rintro ⟨a, b, _⟩
        rcases h2 with h | h
        · exact a h
        · exact b h
      simp only [strcmp_eq, h1, decide_False, Bool.false_eq_true, if_false, h2, if_true,
        ne_eq, not_false_eq_true, true_and, this]
    · have h2' : m.enabled ≠ none ∧ m.enabled ≠ some 0 := by
        simp only [not_or] at h2; exact h2
      by_cases h3 : method_allowed env authctxt m.name = 0
      · simp [strcmp_eq, h1, h2, h3]
      · simp [strcmp_eq, h1, h2, h2'.1, h2'.2, h3]

theorem get_loop_nonempty (env : Env) (authctxt : Authctxt) :
    ∀ (ms : List Authmethod) (b : CString), b ≠ [] →
      authmethods_get_loop env authctxt ms b =
        b ++ ((advertised_of env authctxt ms).map (fun x => ',' :: x)).flatten := by
  intro ms
  induction ms with
  | nil => intro b _; simp [authmethods_get_loop, advertised_of]
  | cons m ms ih =>
    intro b hb
    rw [get_loop_step, advertised_of_cons]
    split
    · have hlen : b.length ≠ 0 := by
        intro h; exact hb (List.length_eq_zero.1 h)
      rw [if_pos hlen, ih _ (by simp [hb])]
      simp
    · exact ih b hb

theorem get_loop_empty (env : Env) (authctxt : Authctxt) :
    ∀ (ms : List Authmethod), (∀ m ∈ ms, m.name ≠ []) →
      authmethods_get_loop env authctxt ms [] =
        [','].intercalate (advertised_of env authctxt ms) := by
  intro ms
  induction ms with
  | nil => intro _; simp [authmethods_get_loop, advertised_of, List.intercalate]
  | cons m ms ih =>
    intro hne
    rw [get_loop_step, advertised_of_cons]
    split
    · have hm : m.name ≠ [] := hne m (List.mem_cons_self _ _)
      simp only [List.length_nil, ne_eq, not_true_eq_false, if_false, List.append_nil,
        List.nil_append]
      rw [get_loop_nonempty env authctxt ms m.name hm, intercalate_cons]
    · exact ih (fun m' hm' => hne m' (List.mem_cons_of_mem _ hm'))

theorem strsep_all_joined (n : CString) (ns : List CString)
    (h : ∀ x ∈ n :: ns, ',' ∉ x) :
    strsep_all (n ++ (ns.map (fun x => ',' :: x)).flatten) = n :: ns := by
  induction ns generalizing n with
  | nil =>
    simp only [List.map_nil, List.flatten_nil, List.append_nil]
    exact strsep_all_comma_free n (h n (List.mem_cons_self _ _))
  | cons n2 ns ih =>
    simp only [List.map_cons, List.flatten_cons, List.cons_append]
    rw [strsep_all_append_comma _ _ (h n (List.mem_cons_self _ _))]
    rw [ih n2 (fun x hx => h x (List.mem_cons_of_mem _ hx))]

theorem advertised_of_mem (env : Env) (authctxt : Authctxt) (ms : List Authmethod)
    (x : CString) :
    x ∈ advertised_of env authctxt ms ↔
      ∃ m ∈ ms, m.name = x ∧ m.name ≠ s_none ∧ m.enabled ≠ none ∧ m.enabled ≠ some 0 ∧
        method_allowed env authctxt m.name ≠ 0 := by
  unfold advertised_of
  simp only [List.mem_map, List.mem_filter, decide_eq_true_eq]
  constructor
  · rintro ⟨m, ⟨hm, hq⟩, rfl⟩
    exact ⟨m, hm, rfl, hq⟩
  · rintro ⟨m, hm, rfl, hq⟩
    exact ⟨m, ⟨hm, hq⟩, rfl⟩

/-- C10: with registry names that are non-empty and have no comma,
`authmethods_get` returns the names of exactly the registry entries that are
not "none", are enabled and are allowed by `method_allowed`, in registry
order, joined by single commas: the empty string when no entry qualifies, and
otherwise a string whose comma-separated tokens are those names; "none" is
never one of its tokens. -/
theorem C10_advertise (env : Env) (authctxt : Authctxt) (hnames : registry_names_ok env) :
    authmethods_get env authctxt = [','].intercalate (advertised env authctxt) ∧
    (advertised env authctxt = [] → authmethods_get env authctxt = []) ∧
    (advertised env authctxt ≠ [] →
      strsep_all (authmethods_get env authctxt) = advertised env authctxt) ∧
    s_none ∉ strsep_all (authmethods_get env authctxt) ∧
    (∀ x, x ∈ advertised env authctxt ↔
      ∃ m ∈ env.authmethods, m.name = x ∧ m.name ≠ s_none ∧ m.enabled ≠ none ∧
        m.enabled ≠ some 0 ∧ method_allowed env authctxt m.name ≠ 0) := by
  have hget : authmethods_get env authctxt = [','].intercalate (advertised env authctxt) :=
    get_loop_empty env authctxt env.authmethods (fun m hm => (hnames m hm).1)
  have hmem := advertised_of_mem env authctxt env.authmethods
  have hcf : ∀ x ∈ advertised env authctxt, ',' ∉ x := by
    intro x hx
    obtain ⟨m, hm, rfl, _⟩ := (hmem x).1 hx
    exact (hnames m hm).2
  have hnone : s_none ∉ advertised env authctxt := by
    intro hx
    obtain ⟨m, _, h1, h2, _⟩ := (hmem s_none).1 hx
    exact h2 h1
  have htok : advertised env authctxt ≠ [] →
      strsep_all (authmethods_get env authctxt) = advertised env authctxt := by
    intro hne
    rw [hget]
    cases hadv : advertised env authctxt with
    | nil => exact absurd hadv hne
    | cons n ns =>
      rw [intercalate_cons]
      exact strsep_all_joined n ns (hadv ▸ hcf)
  refine ⟨hget, ?_, htok, ?_, hmem⟩
  · intro h
    rw [hget, h]
    rfl
  · by_cases hne : advertised env authctxt = []
    · rw [hget, hne]
      decide
    · rw [htok hne]
      exact hnone

/-- C10 on the first scenario of the specification: without a policy the
example registry advertises its three enabled methods other than "none". -/
theorem C10_advertise_witness :
    registry_names_ok (ex_env 6 []) ∧
    authmethods_get (ex_env 6 []) Authctxt.new =
      "publickey,password,keyboard-interactive".toList ∧
    s_none ∉ strsep_all (authmethods_get (ex_env 6 []) Authctxt.new) :=
  ⟨by decide, by decide,
    (C10_advertise (ex_env 6 []) Authctxt.new (by decide)).2.2.2.1⟩

/-! ## Validation and setup of the configured lists -/

/-- The inner scan of `auth2_methods_valid` is decided by the first registry
entry that has the token's name. -/
theorem methods_valid_find_spec (need_enable : Int) (t : CString) (ms : List Authmethod) :
    (methods_valid_find need_enable t ms = .found ↔
      ∃ m, ms.find? (fun m => decide (m.name = t)) = some m ∧
        (need_enable ≠ 0 → m.is_enabled)) ∧
    (methods_valid_find need_enable t ms = .unknown ↔ ∀ m ∈ ms, m.name ≠ t) := by
  induction ms with
  | nil => simp [methods_valid_find]
  | cons m ms ih =>
    unfold methods_valid_find
    by_cases hn : m.name = t
    · have h1 : ¬ (strcmp_eq t m.name = false) := by simp [strcmp_eq, hn]
      rw [if_neg h1]
      by_cases hd : need_enable ≠ 0 ∧ (m.enabled = none ∨ m.enabled = some 0)
      · rw [if_pos hd]
        simp only [reduceCtorEq, false_iff, List.mem_cons, forall_eq_or_imp, not_and]
        refine ⟨?_, fun h => absurd hn h⟩
        rintro ⟨m', hm', hen⟩
        simp only [List.find?_cons, hn, decide_True, Option.some.injEq] at hm'
        subst hm'
        have := hen hd.1
        rcases hd.2 with h | h
        · exact this.1 h
        · exact this.2 h
      · rw [if_neg hd]
        simp only [true_iff, reduceCtorEq, false_iff, List.mem_cons, forall_eq_or_imp, not_and]
        refine ⟨⟨m, by simp [List.find?_cons, hn], fun hne => ?_⟩, fun h => absurd hn h⟩
        simp only [not_and, not_or] at hd
        exact hd hne
    · have h1 : strcmp_eq t m.name = false := by
        simp only [strcmp_eq, decide_eq_false_iff_not]
        exact fun h => hn h.symm
      rw [if_pos h1]
      simp only [List.find?_cons, hn, decide_False, List.mem_cons, forall_eq_or_imp, ne_eq,
        not_false_eq_true, true_and]
      exact ih

theorem find_of_distinct (ms : List Authmethod) (t : CString)
    (hd : (ms.map Authmethod.name).Nodup) (m : Authmethod) :
    ms.find? (fun m => decide (m.name = t)) = some m ↔ m ∈ ms ∧ m.name = t := by
  induction ms with
  | nil => simp
  | cons m0 ms ih =>
    simp only [List.map_cons, List.nodup_cons, List.mem_map, not_exists, not_and] at hd
    by_cases hn : m0.name = t
    · simp only [List.find?_cons, hn, decide_True, Option.some.injEq, List.mem_cons]
      constructor
      · rintro rfl
        exact ⟨Or.inl rfl, hn⟩
      · rintro ⟨h | h, hname⟩
        · exact h.symm
        · exact absurd (hname.trans hn.symm) (hd.1 m h)
    · simp only [List.find?_cons, hn, decide_False, List.mem_cons]
      rw [ih hd.2]
      constructor
      · rintro ⟨h1, h2⟩
        exact ⟨Or.inr h1, h2⟩
      · rintro ⟨h | h, hname⟩
        · subst h
          exact absurd hname hn
        · exact ⟨h, hname⟩

theorem methods_valid_loop_spec (ms : List Authmethod) (need_enable : Int)
    (tokens : List CString) :
    (methods_valid_loop ms need_enable tokens = 0 ↔
      ∀ t ∈ tokens, methods_valid_find need_enable t ms = .found) ∧
    (methods_valid_loop ms need_enable tokens = 0 ∨
      methods_valid_loop ms need_enable tokens = -1) := by
  induction tokens with
  | nil => simp [methods_valid_loop]
  | cons t ts ih =>
    unfold methods_valid_loop
    cases hf : methods_valid_find need_enable t ms with
    | found =>
      simp only [List.mem_cons, forall_eq_or_imp, hf, true_and]
      exact ih
    | disabled => simp [hf]
    | unknown => simp [hf]

/-- C11: with registry names pairwise different, `auth2_methods_valid` returns
0 iff the list is not empty and every token `strsep` yields, empty tokens
included, is the name of a registry entry that, when `need_enable` is not 0,
is enabled; in every other case, the empty list included, it returns -1. -/
theorem C11_methods_valid (env : Env) (list : CString) (need_enable : Int)
    (hd : registry_names_distinct env) :
    (auth2_methods_valid env list need_enable = 0 ↔
      list ≠ [] ∧ ∀ t ∈ strsep_all list, ∃ m ∈ env.authmethods, m.name = t ∧
        (need_enable ≠ 0 → m.is_enabled)) ∧
    (auth2_methods_valid env list need_enable ≠ 0 →
      auth2_methods_valid env list need_enable = -1) ∧
    auth2_methods_valid env [] need_enable = -1 := by
  have hspec := methods_valid_loop_spec env.authmethods need_enable (strsep_all list)
  refine ⟨?_, ?_, by simp [auth2_methods_valid]⟩
  · unfold auth2_methods_valid
    by_cases hl : list = []
    · simp [hl]
    · rw [if_neg hl, hspec.1]
      simp only [ne_eq, hl, not_false_eq_true, true_and]
      constructor
      · intro h t ht
        obtain ⟨m, hm, hen⟩ := (methods_valid_find_spec need_enable t env.authmethods).1.1 (h t ht)
        obtain ⟨h1, h2⟩ := (find_of_distinct env.authmethods t hd m).1 hm
        exact ⟨m, h1, h2, hen⟩
      · intro h t ht
        obtain ⟨m, h1, h2, hen⟩ := h t ht
        exact (methods_valid_find_spec need_enable t env.authmethods).1.2
          ⟨m, (find_of_distinct env.authmethods t hd m).2 ⟨h1, h2⟩, hen⟩
  · unfold auth2_methods_valid
    by_cases hl : list = []
    · simp [hl]
    · rw [if_neg hl]
      intro h
      rcases hspec.2 with h0 | h1
      · exact absurd h0 h
      · exact h1

/-- C11 on the example registry: a list with a disabled method is valid only
when enabling is not required, and a doubled comma makes a list invalid. -/
theorem C11_methods_valid_witness :
    registry_names_distinct (ex_env 6 []) ∧
    auth2_methods_valid (ex_env 6 []) "publickey,hostbased".toList 0 = 0 ∧
    auth2_methods_valid (ex_env 6 []) "publickey,hostbased".toList 1 = -1 ∧
    auth2_methods_valid (ex_env 6 []) "publickey,,password".toList 1 = -1 :=
  ⟨by decide,
    (C11_methods_valid (ex_env 6 []) "publickey,hostbased".toList 0 (by decide)).1.2
      (by decide),
    (C11_methods_valid (ex_env 6 []) "publickey,hostbased".toList 1 (by decide)).2.1
      (by decide),
    (C11_methods_valid (ex_env 6 []) "publickey,,password".toList 1 (by decide)).2.1
      (by decide)⟩

/-- C12: `auth2_setup_methods_lists` returns 0 and leaves the context as it is
when no list is configured; otherwise the context gets exactly the configured
lists that `auth2_methods_valid(list, 1)` accepts, in configured order, every
token of a kept list is the name of an enabled registry entry, and the
function returns -1 iff no list is kept and 0 if one is. -/
theorem C12_setup_lists (env : Env) (authctxt : Authctxt) :
    (env.num_auth_methods = 0 →
      auth2_setup_methods_lists env authctxt = (authctxt, 0)) ∧
    (env.num_auth_methods ≠ 0 →
      (auth2_setup_methods_lists env authctxt).1 =
        { authctxt with
          auth_methods := env.options.auth_methods.filter
            (fun L => decide (auth2_methods_valid env L 1 = 0)) }) ∧
    ((auth2_setup_methods_lists env authctxt).2 = -1 ↔
      env.num_auth_methods ≠ 0 ∧
        ∀ L ∈ env.options.auth_methods, auth2_methods_valid env L 1 ≠ 0) ∧
    ((auth2_setup_methods_lists env authctxt).2 ≠ -1 →
      (auth2_setup_methods_lists env authctxt).2 = 0) ∧
    (env.num_auth_methods ≠ 0 →
      ∀ L ∈ (auth2_setup_methods_lists env authctxt).1.auth_methods,
        L ∈ env.options.auth_methods ∧
        ∀ t ∈ strsep_all L, ∃ m ∈ env.authmethods, m.name = t ∧ m.is_enabled) := by
  have hfil := setup_loop_eq_filter env env.options.auth_methods
  have hnone : (env.options.auth_methods.filter
      (fun L => decide (auth2_methods_valid env L 1 = 0))).length = 0 ↔
      ∀ L ∈ env.options.auth_methods, auth2_methods_valid env L 1 ≠ 0 := by
    rw [List.length_eq_zero, List.filter_eq_nil_iff]
    simp
  refine ⟨?_, ?_, ?_, ?_, ?_⟩
  · intro h
    simp [auth2_setup_methods_lists, h]
  · intro h
    unfold auth2_setup_methods_lists
    rw [if_neg h, hfil]
    simp only
    split <;> rfl
  · unfold auth2_setup_methods_lists
    by_cases h : env.num_auth_methods = 0
    · simp [h]
    · rw [if_neg h, hfil]
      simp only
      by_cases hk : (env.options.auth_methods.filter
          (fun L => decide (auth2_methods_valid env L 1 = 0))).length = 0
      · rw [if_pos hk]
        simp only [true_iff]
        exact ⟨h, hnone.1 hk⟩
      · rw [if_neg hk]
        simp only [zero_eq_neg, one_ne_zero, false_iff, not_and]
        intro _ hall
        exact hk (hnone.2 hall)
  · unfold auth2_setup_methods_lists
    split
    · intro _; rfl
    · simp only
      split
      · intro h; exact absurd rfl h
      · intro _; rfl
  · intro h L hL
    rw [setup_lists env authctxt h, hfil, List.mem_filter] at hL
    have hv : auth2_methods_valid env L 1 = 0 := by simpa using hL.2
    refine ⟨hL.1, fun t ht => ?_⟩
    obtain ⟨m, hm, hname, hen⟩ := (valid_tokens_registered env L 1 hv).2 t ht
    exact ⟨m, hm, hname, hen (by decide)⟩

/-- C12 on the example registry: of two configured lists the one that names
the disabled "hostbased" is dropped. -/
theorem C12_setup_lists_witness :
    (ex_env 6 ["publickey,hostbased".toList, "publickey,password".toList]).num_auth_methods ≠ 0 ∧
    (auth2_setup_methods_lists
      (ex_env 6 ["publickey,hostbased".toList, "publickey,password".toList])
      Authctxt.new).1 = ex_ctx ["publickey,password".toList] :=
  ⟨by decide,
    ((C12_setup_lists (ex_env 6 ["publickey,hostbased".toList, "publickey,password".toList])
      Authctxt.new).2.1 (by decide)).trans (by decide)⟩

/-! ## Partial success and the root check -/

theorem method_allowed_congr (env : Env) (c c2 : Authctxt) (method : CString)
    (h : c.auth_methods = c2.auth_methods) :
    method_allowed env c method = method_allowed env c2 method := by
  unfold method_allowed
  rw [h]

theorem get_loop_congr (env : Env) (c c2 : Authctxt) (h : c.auth_methods = c2.auth_methods) :
    ∀ (ms : List Authmethod) (b : CString),
      authmethods_get_loop env c ms b = authmethods_get_loop env c2 ms b := by
  intro ms
  induction ms with
  | nil => intro b; rfl
  | cons m ms ih =>
    intro b
    rw [get_loop_step, get_loop_step, method_allowed_congr env c c2 m.name h, ih, ih]

/-- The advertisement depends on the context through its lists only. -/
theorem authmethods_get_congr (env : Env) (c c2 : Authctxt)
    (h : c.auth_methods = c2.auth_methods) :
    authmethods_get env c = authmethods_get env c2 :=
  get_loop_congr env c c2 h env.authmethods []

/-- The partial flag of a failure reply of `userauth_finish_reply` is the one
the function was given. -/
theorem reply_failure_part (env : Env) (before ssh : Ssh) (a part : Int) (method : CString)
    (submethod : Option CString) (ht : ssh.trace = before.trace) (ms : CString) (p : Int)
    (h : Event.send (.USERAUTH_FAILURE ms p) ∈
      new_events before (userauth_finish_reply env ssh a part method submethod)) :
    p = part := by
  rcases reply_cases env ssh a part method submethod with
    ⟨_, e⟩ | ⟨_, _, e⟩ | ⟨_, _, f, _, ⟨_, e⟩ | ⟨_, e⟩⟩
  · rw [e] at h; simp [new_events, Outcome.state, ht] at h
  · rw [e] at h; simp [new_events, Outcome.state, ht] at h
  · rw [e] at h; simp [new_events, Outcome.state, ht] at h
  · rw [e] at h
    simp only [new_events, Outcome.state, ht, List.drop_left', List.mem_cons,
      reduceCtorEq, Event.send.injEq, Packet.USERAUTH_FAILURE.injEq, List.mem_singleton,
      false_or, List.not_mem_nil, or_false] at h
    exact h.2

/-- When the guards and the root check pass, a policy is configured and
`auth2_update_methods_lists` returns 0, `userauth_finish` is a failed attempt
with the partial flag set: the failure is counted, then the call disconnects
or replies with the advertisement of the updated lists. -/
theorem finish_partial (env : Env) (ssh : Ssh) (authenticated : Int) (method : CString)
    (submethod : Option CString) (a1 : Authctxt)
    (hv : ssh.authctxt.valid ≠ 0) (ha : authenticated ≠ 0)
    (hp : ssh.authctxt.postponed = 0) (hpw : ssh.authctxt.pw ≠ none)
    (hroot : ¬ (ssh.authctxt.pw.map Passwd.pw_uid = some 0 ∧
      env.auth_root_allowed method = 0))
    (hnum : env.num_auth_methods ≠ 0)
    (hupd : auth2_update_methods_lists ssh.authctxt method = .returned a1 0) :
    ∃ f : Int,
      f = (if ssh.authctxt.server_caused_failure = 0 ∧
          (ssh.authctxt.attempt > 1 ∨ method ≠ s_none) then ssh.authctxt.failures + 1
        else ssh.authctxt.failures) ∧
      ((f < env.options.max_authtries ∧
        userauth_finish env ssh authenticated method submethod =
          .returned { ssh with
            authctxt := { a1 with failures := f }
            trace := ssh.trace ++ [.auth_log 0 1 method submethod,
              .send (.USERAUTH_FAILURE (authmethods_get env a1) 1)] } ()) ∨
      (env.options.max_authtries ≤ f ∧
        userauth_finish env ssh authenticated method submethod =
          .disconnect { ssh with
            authctxt := { a1 with failures := f }
            trace := ssh.trace ++ [.auth_log 0 1 method submethod] } .auth_fail)) := by
  have hr : userauth_finish_root env ssh.authctxt authenticated method = authenticated := by
    unfold userauth_finish_root
    rw [if_neg (fun h => hroot h.2)]
  have ha1 : a1 = { ssh.authctxt with
      auth_methods := ssh.authctxt.auth_methods.map (fun L => (remove_method L method).2) } := by
    rcases update_cases ssh.authctxt method with ⟨_, e⟩ | ⟨_, _, e⟩ | ⟨_, e⟩
    · rw [e] at hupd; simp at hupd
    · rw [e] at hupd
      simp only [Outcome.returned.injEq, and_true] at hupd
      exact hupd.symm
    · rw [e] at hupd; simp at hupd
  have hfin : userauth_finish env ssh authenticated method submethod =
      userauth_finish_reply env { ssh with authctxt := a1 } 0 1 method submethod := by
    rw [finish_unfold env ssh authenticated method submethod (fun h => hv h.1)
      (fun h => h.2 hp) (fun h => hpw h.2), hr, if_pos ⟨ha, hnum⟩, hupd]
    simp only [if_true]
  rw [hfin]
  rcases reply_cases env { ssh with authctxt := a1 } 0 1 method submethod with
    ⟨hp', _⟩ | ⟨_, hone, _⟩ | ⟨_, _, f, hf, ⟨hm, e⟩ | ⟨hm, e⟩⟩
  · rw [ha1] at hp'; exact absurd hp hp'
  · simp at hone
  · refine ⟨f, ?_, Or.inr ⟨hm, e⟩⟩
    rw [hf, ha1]
  · refine ⟨f, ?_, Or.inl ⟨hm, ?_⟩⟩
    · rw [hf, ha1]
    · rw [e, authmethods_get_congr env { a1 with failures := f } a1 rfl]

/-- A failure reply of `userauth_finish` carries the partial flag 1 only when
the handler's report passed the root check, a policy is configured and
`auth2_update_methods_lists` returned 0; every other failure reply carries
0. -/
theorem finish_failure_part (env : Env) (ssh : Ssh) (authenticated : Int) (method : CString)
    (submethod : Option CString) (ms : CString) (p : Int)
    (h : Event.send (.USERAUTH_FAILURE ms p) ∈
      new_events ssh (userauth_finish env ssh authenticated method submethod)) :
    p = 0 ∨
    (p = 1 ∧ userauth_finish_root env ssh.authctxt authenticated method ≠ 0 ∧
      env.num_auth_methods ≠ 0 ∧
      ∃ a1, auth2_update_methods_lists ssh.authctxt method = .returned a1 0) := by
  rcases finish_guard_cases env ssh authenticated method submethod with
    ⟨_, _, e⟩ | ⟨_, _, e⟩ | ⟨_, _, e⟩ | ⟨h1, h2, h3⟩
  · rw [e] at h; simp [new_events, Outcome.state] at h
  · rw [e] at h; simp [new_events, Outcome.state] at h
  · rw [e] at h; simp [new_events, Outcome.state] at h
  · rw [finish_unfold env ssh authenticated method submethod h1 h2 h3] at h
    by_cases hc : userauth_finish_root env ssh.authctxt authenticated method ≠ 0 ∧
        env.num_auth_methods ≠ 0
    · rw [if_pos hc] at h
      rcases update_cases ssh.authctxt method with ⟨_, hu⟩ | ⟨_, _, hu⟩ | ⟨_, hu⟩
      · rw [hu] at h
        simp only [one_ne_zero, if_false] at h
        exact Or.inl (reply_failure_part env ssh
          { ssh with authctxt := { ssh.authctxt with
              auth_methods := (update_loop method ssh.authctxt.auth_methods 0).1 } }
          _ 0 method submethod rfl ms p h)
      · rw [hu] at h
        simp only [if_true] at h
        exact Or.inr ⟨reply_failure_part env ssh
          { ssh with authctxt := { ssh.authctxt with
              auth_methods :=
                ssh.authctxt.auth_methods.map (fun L => (remove_method L method).2) } }
          0 1 method submethod rfl ms p h, hc.1, hc.2, _, hu⟩
      · rw [hu] at h
        simp [new_events, Outcome.state] at h
    · rw [if_neg hc] at h
      exact Or.inl (reply_failure_part env ssh ssh _ 0 method submethod rfl ms p h)

/-- C13, the claim as stated fails when the count reaches the limit: with
`max_authtries` = 1 and the policy "publickey,password", publickey succeeds,
`auth2_update_methods_lists` returns 0 and leaves "password", and
`userauth_finish` disconnects with the exhausted-attempts message without any
failure reply. -/
theorem C13_counterexample :
    (ex_env 1 ["publickey,password".toList]).num_auth_methods ≠ 0 ∧
    auth2_update_methods_lists
        (ex_ssh_alice 2 0 ["publickey,password".toList]).authctxt "publickey".toList =
      .returned (ex_ssh_alice 2 0 ["password".toList]).authctxt 0 ∧
    userauth_finish (ex_env 1 ["publickey,password".toList])
        (ex_ssh_alice 2 0 ["publickey,password".toList]) 1 "publickey".toList none =
      .disconnect
        { ex_ssh_alice 2 1 ["password".toList] with
          trace := [.auth_log 0 1 "publickey".toList none] } .auth_fail ∧
    (new_events (ex_ssh_alice 2 0 ["publickey,password".toList])
      (userauth_finish (ex_env 1 ["publickey,password".toList])
        (ex_ssh_alice 2 0 ["publickey,password".toList]) 1 "publickey".toList none)).any
      Event.is_failure_reply = false := by
  decide

/-- C13 (amended): when a handler reports authenticated on a valid, not
postponed context, the root check passes, a policy is configured and
`auth2_update_methods_lists` returns 0, `userauth_finish` does not set
`success` and sends no success packet; it counts the failure (unless
server-caused or the opening probe) and, if `failures` is then below
`max_authtries`, replies with a failure packet whose partial flag is 1 and
whose list is the advertisement of the updated lists, and otherwise
disconnects with the exhausted-attempts message without a reply. The partial
flag of every other failure reply is 0. -/
theorem C13_partial_reply (env : Env) :
    (∀ (ssh : Ssh) (authenticated : Int) (method : CString) (submethod : Option CString)
        (a1 : Authctxt),
      ssh.authctxt.valid ≠ 0 → authenticated ≠ 0 → ssh.authctxt.postponed = 0 →
      ssh.authctxt.pw ≠ none →
      ¬ (ssh.authctxt.pw.map Passwd.pw_uid = some 0 ∧ env.auth_root_allowed method = 0) →
      env.num_auth_methods ≠ 0 →
      auth2_update_methods_lists ssh.authctxt method = .returned a1 0 →
      (userauth_finish env ssh authenticated method submethod).state.authctxt.success =
        ssh.authctxt.success ∧
      Event.send .USERAUTH_SUCCESS ∉
        new_events ssh (userauth_finish env ssh authenticated method submethod) ∧
      ∃ f : Int,
        f = (if ssh.authctxt.server_caused_failure = 0 ∧
            (ssh.authctxt.attempt > 1 ∨ method ≠ s_none) then ssh.authctxt.failures + 1
          else ssh.authctxt.failures) ∧
        ((f < env.options.max_authtries ∧
          userauth_finish env ssh authenticated method submethod =
            .returned { ssh with
              authctxt := { a1 with failures := f }
              trace := ssh.trace ++ [.auth_log 0 1 method submethod,
                .send (.USERAUTH_FAILURE (authmethods_get env a1) 1)] } ()) ∨
        (env.options.max_authtries ≤ f ∧
          userauth_finish env ssh authenticated method submethod =
            .disconnect { ssh with
              authctxt := { a1 with failures := f }
              trace := ssh.trace ++ [.auth_log 0 1 method submethod] } .auth_fail))) ∧
    (∀ (ssh : Ssh) (authenticated : Int) (method : CString) (submethod : Option CString)
        (ms : CString) (p : Int),
      Event.send (.USERAUTH_FAILURE ms p) ∈
        new_events ssh (userauth_finish env ssh authenticated method submethod) →
      p = 0 ∨
      (p = 1 ∧ userauth_finish_root env ssh.authctxt authenticated method ≠ 0 ∧
        env.num_auth_methods ≠ 0 ∧
        ∃ a1, auth2_update_methods_lists ssh.authctxt method = .returned a1 0)) := by
  refine ⟨?_, fun ssh authenticated method submethod ms p h =>
    finish_failure_part env ssh authenticated method submethod ms p h⟩
  intro ssh authenticated method submethod a1 hv ha hp hpw hroot hnum hupd
  have hsucc : a1.success = ssh.authctxt.success := by
    rcases update_cases ssh.authctxt method with ⟨_, e⟩ | ⟨_, _, e⟩ | ⟨_, e⟩
    · rw [e] at hupd; simp at hupd
    · rw [e] at hupd
      simp only [Outcome.returned.injEq, and_true] at hupd
      rw [← hupd]
    · rw [e] at hupd; simp at hupd
  obtain ⟨f, hf, hcase⟩ := finish_partial env ssh authenticated method submethod a1
    hv ha hp hpw hroot hnum hupd
  refine ⟨?_, ?_, f, hf, hcase⟩
  · rcases hcase with ⟨_, e⟩ | ⟨_, e⟩ <;> rw [e] <;> simp [Outcome.state, hsucc]
  · rcases hcase with ⟨_, e⟩ | ⟨_, e⟩ <;> rw [e] <;> simp [new_events, Outcome.state]

/-- C13 (amended) on the third scenario of the specification: policy
"publickey,password", publickey succeeds, the reply is the failure packet with
the list "password" and the partial flag 1. -/
theorem C13_partial_reply_witness :
    userauth_finish (ex_env 6 ["publickey,password".toList])
        (ex_ssh_alice 2 0 ["publickey,password".toList]) 1 "publickey".toList none =
      .returned
        { ex_ssh_alice 2 1 ["password".toList] with
          trace := [.auth_log 0 1 "publickey".toList none,
            .send (.USERAUTH_FAILURE "password".toList 1)] } () := by
  obtain ⟨_, _, f, hf, h | h⟩ := (C13_partial_reply (ex_env 6 ["publickey,password".toList])).1
    (ex_ssh_alice 2 0 ["publickey,password".toList]) 1 "publickey".toList none
    (ex_ssh_alice 2 0 ["password".toList]).authctxt
    (by decide) (by decide) (by decide) (by decide) (by decide) (by decide) (by decide)
  · rw [h.2]
    subst hf
    decide
  · exact absurd h.1 (by subst hf; decide)

/-- With a root account and a method not allowed for root, a report of
authenticated on a valid, not postponed context is handled exactly like a
report of 0: the policy is not consulted. -/
theorem finish_root_denied (env : Env) (ssh : Ssh) (authenticated : Int) (method : CString)
    (submethod : Option CString)
    (hv : ssh.authctxt.valid ≠ 0) (hp : ssh.authctxt.postponed = 0)
    (huid : ssh.authctxt.pw.map Passwd.pw_uid = some 0)
    (hdeny : env.auth_root_allowed method = 0) (ha : authenticated ≠ 0) :
    userauth_finish env ssh authenticated method submethod =
      userauth_finish_reply env ssh 0 0 method submethod := by
  have hpw : ssh.authctxt.pw ≠ none := by
    intro h
    rw [h] at huid
    simp at huid
  have hr : userauth_finish_root env ssh.authctxt authenticated method = 0 := by
    unfold userauth_finish_root
    rw [if_pos ⟨ha, huid, hdeny⟩]
  rw [finish_unfold env ssh authenticated method submethod (fun h => hv h.1)
    (fun h => h.2 hp) (fun h => hpw h.2), hr]
  simp

/-- C14, the claim as stated fails when the count reaches the limit: root,
a method not allowed for root, `max_authtries` = 1; the handler reports
authenticated and `userauth_finish` disconnects with the exhausted-attempts
message without any failure reply. -/
theorem C14_counterexample :
    (ex_ssh_root 2 0).authctxt.valid = 1 ∧
    (ex_ssh_root 2 0).authctxt.pw.map Passwd.pw_uid = some 0 ∧
    (ex_env_root 1).auth_root_allowed "password".toList = 0 ∧
    userauth_finish (ex_env_root 1) (ex_ssh_root 2 0) 1 "password".toList none =
      .disconnect
        { ex_ssh_root 2 1 with trace := [.auth_log 0 0 "password".toList none] }
        .auth_fail ∧
    (new_events (ex_ssh_root 2 0)
      (userauth_finish (ex_env_root 1) (ex_ssh_root 2 0) 1 "password".toList none)).any
      Event.is_failure_reply = false := by
  decide

/-- C14 (amended): for a valid user with uid 0 and a method for which
`auth_root_allowed` is 0, `userauth_finish` called with authenticated set never
sends the success packet, never changes `success`, leaves every list of the
context as it was and uses the partial flag 0. On a postponed context the call
is a fatal internal error. Otherwise it counts the failure (unless
server-caused or the opening probe) and, if `failures` is then below
`max_authtries`, replies with a failure packet, and if not disconnects with the
exhausted-attempts message without a reply. -/
theorem C14_root_downgrade (env : Env) (ssh : Ssh) (authenticated : Int) (method : CString)
    (submethod : Option CString)
    (ha : authenticated ≠ 0) (hv : ssh.authctxt.valid ≠ 0)
    (huid : ssh.authctxt.pw.map Passwd.pw_uid = some 0)
    (hdeny : env.auth_root_allowed method = 0) :
    (Event.send .USERAUTH_SUCCESS ∉
        new_events ssh (userauth_finish env ssh authenticated method submethod) ∧
      (userauth_finish env ssh authenticated method submethod).state.authctxt.success =
        ssh.authctxt.success ∧
      (userauth_finish env ssh authenticated method submethod).state.authctxt.auth_methods =
        ssh.authctxt.auth_methods ∧
      ∀ ms p, Event.send (.USERAUTH_FAILURE ms p) ∈
        new_events ssh (userauth_finish env ssh authenticated method submethod) → p = 0) ∧
    (ssh.authctxt.postponed ≠ 0 →
      userauth_finish env ssh authenticated method submethod =
        .fatal ssh .authenticated_and_postponed) ∧
    (ssh.authctxt.postponed = 0 →
      ∃ f : Int,
        f = (if ssh.authctxt.server_caused_failure = 0 ∧
            (ssh.authctxt.attempt > 1 ∨ method ≠ s_none) then ssh.authctxt.failures + 1
          else ssh.authctxt.failures) ∧
        ((f < env.options.max_authtries ∧
          userauth_finish env ssh authenticated method submethod =
            .returned { ssh with
              authctxt := { ssh.authctxt with failures := f }
              trace := ssh.trace ++ [.auth_log 0 0 method submethod,
                .send (.USERAUTH_FAILURE (authmethods_get env ssh.authctxt) 0)] } ()) ∨
        (env.options.max_authtries ≤ f ∧
          userauth_finish env ssh authenticated method submethod =
            .disconnect { ssh with
              authctxt := { ssh.authctxt with failures := f }
              trace := ssh.trace ++ [.auth_log 0 0 method submethod] } .auth_fail))) := by
  have hfatal : ssh.authctxt.postponed ≠ 0 →
      userauth_finish env ssh authenticated method submethod =
        .fatal ssh .authenticated_and_postponed := by
    intro hp
    unfold userauth_finish
    simp only [if_neg (fun h : ssh.authctxt.valid = 0 ∧ authenticated ≠ 0 => hv h.1),
      if_pos (And.intro ha hp)]
  have hreply : ssh.authctxt.postponed = 0 →
      ∃ f : Int,
        f = (if ssh.authctxt.server_caused_failure = 0 ∧
            (ssh.authctxt.attempt > 1 ∨ method ≠ s_none) then ssh.authctxt.failures + 1
          else ssh.authctxt.failures) ∧
        ((f < env.options.max_authtries ∧
          userauth_finish env ssh authenticated method submethod =
            .returned { ssh with
              authctxt := { ssh.authctxt with failures := f }
              trace := ssh.trace ++ [.auth_log 0 0 method submethod,
                .send (.USERAUTH_FAILURE (authmethods_get env ssh.authctxt) 0)] } ()) ∨
        (env.options.max_authtries ≤ f ∧
          userauth_finish env ssh authenticated method submethod =
            .disconnect { ssh with
              authctxt := { ssh.authctxt with failures := f }
              trace := ssh.trace ++ [.auth_log 0 0 method submethod] } .auth_fail)) := by
    intro hp
    rw [finish_root_denied env ssh authenticated method submethod hv hp huid hdeny ha]
    rcases reply_cases env ssh 0 0 method submethod with
      ⟨hp', _⟩ | ⟨_, hone, _⟩ | ⟨_, _, f, hf, ⟨hm, e⟩ | ⟨hm, e⟩⟩
    · exact absurd hp hp'
    · simp at hone
    · exact ⟨f, hf, Or.inr ⟨hm, e⟩⟩
    · refine ⟨f, hf, Or.inl ⟨hm, ?_⟩⟩
      rw [e, authmethods_get_congr env { ssh.authctxt with failures := f } ssh.authctxt rfl]
  refine ⟨?_, hfatal, hreply⟩
  by_cases hp : ssh.authctxt.postponed = 0
  · obtain ⟨f, _, ⟨_, e⟩ | ⟨_, e⟩⟩ := hreply hp
    · rw [e]
      simp [new_events, Outcome.state]
    · rw [e]
      simp [new_events, Outcome.state]
  · rw [hfatal hp]
    simp [new_events, Outcome.state]

/-- C14 (amended) on the fourth scenario of the specification: root, a method
not allowed for root, room left under the limit; the reply is a failure packet
and the failure is counted. -/
theorem C14_root_downgrade_witness :
    userauth_finish (ex_env_root 6) (ex_ssh_root 2 0) 1 "password".toList none =
      .returned
        { ex_ssh_root 2 1 with
          trace := [.auth_log 0 0 "password".toList none,
            .send (.USERAUTH_FAILURE "publickey,password,keyboard-interactive".toList 0)] }
        () := by
  obtain ⟨f, hf, h | h⟩ := (C14_root_downgrade (ex_env_root 6) (ex_ssh_root 2 0) 1
    "password".toList none (by decide) (by decide) (by decide) (by decide)).2.2 (by decide)
  · rw [h.2]
    subst hf
    decide
  · exact absurd h.1 (by subst hf; decide)

/-! ## The validity of the bound user -/

theorem request_setup_valid (env : Env) (a : Authctxt) (user service : CString)
    (style : Option CString) :
    (env.getpwnamallow user ≠ none ∧ service = s_ssh_connection →
      (input_userauth_request_setup env a user service style).valid = 1 ∧
      (input_userauth_request_setup env a user service style).pw = env.getpwnamallow user) ∧
    (¬ (env.getpwnamallow user ≠ none ∧ service = s_ssh_connection) →
      (input_userauth_request_setup env a user service style).valid = a.valid ∧
      (input_userauth_request_setup env a user service style).pw = some env.fakepw) := by
  unfold input_userauth_request_setup
  simp only [strcmp_eq, decide_eq_true_eq]
  refine ⟨fun h => ?_, fun h => ?_⟩
  · rw [if_pos h]
    exact ⟨rfl, rfl⟩
  · rw [if_neg h]
    exact ⟨rfl, rfl⟩

theorem bind_first_valid (env : Env) (ssh : Ssh) (rq : Request)
    (h0 : ssh.authctxt.attempt = 0) :
    (input_userauth_request_bind env ssh rq).state.authctxt.valid =
      (input_userauth_request_setup env
        { ssh.authctxt with attempt := ssh.authctxt.attempt + 1 }
        (split_style rq.user).1 rq.service (split_style rq.user).2).valid ∧
    (input_userauth_request_bind env ssh rq).state.authctxt.pw =
      (input_userauth_request_setup env
        { ssh.authctxt with attempt := ssh.authctxt.attempt + 1 }
        (split_style rq.user).1 rq.service (split_style rq.user).2).pw := by
  obtain ⟨hb1, _, _, _⟩ := banner_summary env
    { ssh with authctxt := (input_userauth_request_setup env
      ({ ssh.authctxt with attempt := ssh.authctxt.attempt + 1 })
      (split_style rq.user).1 rq.service (split_style rq.user).2) }
  obtain ⟨lists, hs⟩ := setup_summary env (input_userauth_request_setup env
      { ssh.authctxt with attempt := ssh.authctxt.attempt + 1 }
      (split_style rq.user).1 rq.service (split_style rq.user).2)
  unfold input_userauth_request_bind
  simp only [h0, if_true]
  simp only [h0] at hb1 hs
  rw [hb1, hs]
  split <;> exact ⟨rfl, rfl⟩

theorem run_valid (env : Env) :
    ∀ (pkts : List (Option Request)) (ssh : Ssh), 1 ≤ ssh.authctxt.attempt →
      (run_requests env ssh pkts).state.authctxt.valid = ssh.authctxt.valid ∧
      (run_requests env ssh pkts).state.authctxt.pw = ssh.authctxt.pw := by
  intro pkts
  induction pkts with
  | nil => intro ssh _; simp [run_requests, Outcome.state]
  | cons pkt rest ih =>
    intro ssh h1
    have hstep : (input_userauth_request env ssh pkt).state.authctxt.valid =
          ssh.authctxt.valid ∧
        (input_userauth_request env ssh pkt).state.authctxt.pw = ssh.authctxt.pw := by
      cases pkt with
      | none => simp [input_userauth_request, Outcome.state]
      | some rq =>
        obtain ⟨_, _, _, hv, hpw⟩ := request_binding env ssh rq
        obtain ⟨hb, _, _⟩ := bind_later env ssh rq (by omega)
        rw [hv, hpw, hb]
        exact ⟨rfl, rfl⟩
    have hatt := (request_step env ssh pkt (by omega)).2
    unfold run_requests
    cases ho : input_userauth_request env ssh pkt with
    | returned s r =>
      rw [ho] at hstep
      simp only [Outcome.state] at hstep
      by_cases hr : r = 0
      · subst hr
        simp only [if_true]
        have := ih s (by rw [hatt s 0 ho rfl]; omega)
        rw [this.1, this.2]
        exact hstep
      · simp only [hr, if_false, Outcome.state]
        exact hstep
    | disconnect s why => rw [ho] at hstep; exact hstep
    | fatal s why => rw [ho] at hstep; exact hstep
    | segv s => rw [ho] at hstep; exact hstep

/-- C16: on a new connection (`attempt` and `valid` 0), once the first request
has been handled and after any further requests, `valid` is set iff the
account oracle returned a record for the user name before the first ':' and
the service is exactly "ssh-connection", and `pw` is then that record; in every
other case `valid` is still 0 and `pw` is the fake record; and no request after
the first changes `valid` or `pw`. -/
theorem C16_valid_binding (env : Env) :
    (∀ (ssh : Ssh) (first : Request) (rest : List (Option Request)),
      ssh.authctxt.attempt = 0 → ssh.authctxt.valid = 0 →
      ((run_requests env ssh (some first :: rest)).state.authctxt.valid ≠ 0 ↔
        env.getpwnamallow (split_style first.user).1 ≠ none ∧
          first.service = s_ssh_connection) ∧
      (env.getpwnamallow (split_style first.user).1 ≠ none ∧
          first.service = s_ssh_connection →
        (run_requests env ssh (some first :: rest)).state.authctxt.valid = 1 ∧
        (run_requests env ssh (some first :: rest)).state.authctxt.pw =
          env.getpwnamallow (split_style first.user).1) ∧
      (¬ (env.getpwnamallow (split_style first.user).1 ≠ none ∧
          first.service = s_ssh_connection) →
        (run_requests env ssh (some first :: rest)).state.authctxt.valid = 0 ∧
        (run_requests env ssh (some first :: rest)).state.authctxt.pw = some env.fakepw)) ∧
    (∀ (ssh : Ssh) (pkt : Option Request),
      ssh.authctxt.attempt ≠ 0 →
      (input_userauth_request env ssh pkt).state.authctxt.valid = ssh.authctxt.valid ∧
      (input_userauth_request env ssh pkt).state.authctxt.pw = ssh.authctxt.pw) := by
  refine ⟨?_, ?_⟩
  · intro ssh first rest h0 hv0
    obtain ⟨_, _, _, hv, hpw⟩ := request_binding env ssh first
    obtain ⟨hbv, hbp⟩ := bind_first_valid env ssh first h0
    rw [hbv] at hv
    rw [hbp] at hpw
    have hatt := (request_step env ssh (some first) (by omega)).2
    have hrun : (run_requests env ssh (some first :: rest)).state.authctxt.valid =
          (input_userauth_request env ssh (some first)).state.authctxt.valid ∧
        (run_requests env ssh (some first :: rest)).state.authctxt.pw =
          (input_userauth_request env ssh (some first)).state.authctxt.pw := by
      unfold run_requests
      cases ho : input_userauth_request env ssh (some first) with
      | returned s r =>
        by_cases hr : r = 0
        · subst hr
          simp only [if_true]
          exact run_valid env rest s (by rw [hatt s 0 ho rfl]; omega)
        · simp [hr, Outcome.state]
      | disconnect s why => exact ⟨rfl, rfl⟩
      | fatal s why => exact ⟨rfl, rfl⟩
      | segv s => exact ⟨rfl, rfl⟩
    rw [hrun.1, hrun.2, hv, hpw]
    have hsetup := request_setup_valid env
      { ssh.authctxt with attempt := ssh.authctxt.attempt + 1 }
      (split_style first.user).1 first.service (split_style first.user).2
    by_cases hc : env.getpwnamallow (split_style first.user).1 ≠ none ∧
        first.service = s_ssh_connection
    · obtain ⟨e1, e2⟩ := hsetup.1 hc
      rw [e1, e2]
      refine ⟨⟨fun _ => hc, fun _ => by decide⟩, fun _ => ?_, fun h => absurd hc h⟩
      simp
    · obtain ⟨e1, e2⟩ := hsetup.2 hc
      rw [e1, e2]
      refine ⟨⟨fun h => absurd hv0 h, fun h => absurd h hc⟩, fun h => absurd h hc,
        fun _ => ⟨hv0, rfl⟩⟩
  · intro ssh pkt h0
    cases pkt with
    | none => simp [input_userauth_request, Outcome.state]
    | some rq =>
      obtain ⟨_, _, _, hv, hpw⟩ := request_binding env ssh rq
      obtain ⟨hb, _, _⟩ := bind_later env ssh rq h0
      rw [hv, hpw, hb]
      exact ⟨rfl, rfl⟩

/-- C16 on a new connection: alice is known and asks for "ssh-connection", so
the context is valid after her probe and a later request; mallory is not
known, so the context stays invalid with the fake record. -/
theorem C16_valid_binding_witness :
    (run_requests (ex_env 6 []) ex_ssh
      [ex_request "none".toList, ex_request "bogus".toList]).state.authctxt.valid = 1 ∧
    (run_requests (ex_env 6 []) ex_ssh
      [some ⟨"mallory".toList, "ssh-connection".toList, "none".toList, []⟩]).state.authctxt.pw =
        some (ex_env 6 []).fakepw :=
  ⟨(((C16_valid_binding (ex_env 6 [])).1 ex_ssh
      ⟨"alice".toList, "ssh-connection".toList, "none".toList, []⟩
      [ex_request "bogus".toList] (by decide) (by decide)).2.1 (by decide)).1,
    (((C16_valid_binding (ex_env 6 [])).1 ex_ssh
      ⟨"mallory".toList, "ssh-connection".toList, "none".toList, []⟩
      [] (by decide) (by decide)).2.2 (by decide)).2⟩

/-! ## Success happens once -/

theorem count_append_none (tr l : List Event) (h : ∀ e ∈ l, e.is_success = false) :
    (tr ++ l).countP Event.is_success = tr.countP Event.is_success := by
  rw [List.countP_append]
  have : l.countP Event.is_success = 0 := by
    rw [List.countP_eq_zero]
    intro e he
    simp [h e he]
  omega

theorem success_kept_refl (ssh : Ssh) : success_kept ssh ssh := ⟨rfl, rfl, rfl⟩

theorem success_kept_trans {a b c : Ssh} (h1 : success_kept a b) (h2 : success_kept b c) :
    success_kept a c :=
  ⟨h2.1.trans h1.1, h2.2.1.trans h1.2.1, h2.2.2.trans h1.2.2⟩

theorem success_made_of_kept {a b c : Ssh} (h1 : success_kept a b) (h2 : success_made b c) :
    success_made a c :=
  ⟨h2.1, h2.2.1, by rw [h2.2.2, h1.2.2]⟩

/-- The reply part of `userauth_finish` either keeps the success flag or makes
it, and makes it only for `authenticated = 1` without postponement. -/
theorem reply_success (env : Env) (ssh : Ssh) (authenticated part : Int) (method : CString)
    (submethod : Option CString) :
    success_kept ssh (userauth_finish_reply env ssh authenticated part method submethod).state ∨
    (authenticated = 1 ∧ ssh.authctxt.postponed = 0 ∧
      success_made ssh
        (userauth_finish_reply env ssh authenticated part method submethod).state) := by
  rcases reply_cases env ssh authenticated part method submethod with
    ⟨_, h⟩ | ⟨hp, ha, h⟩ | ⟨_, _, f, _, ⟨_, h⟩ | ⟨_, h⟩⟩
  · left
    rw [h]
    refine ⟨rfl, rfl, ?_⟩
    simp only [Outcome.state, success_count]
    exact count_append_none _ _ (by simp [Event.is_success])
  · right
    rw [h]
    refine ⟨ha, hp, rfl, rfl, ?_⟩
    simp only [Outcome.state, success_count]
    rw [List.countP_append]
    simp [List.countP_cons, Event.is_success]
  · left
    rw [h]
    refine ⟨rfl, rfl, ?_⟩
    simp only [Outcome.state, success_count]
    exact count_append_none _ _ (by simp [Event.is_success])
  · left
    rw [h]
    refine ⟨rfl, rfl, ?_⟩
    simp only [Outcome.state, success_count]
    exact count_append_none _ _ (by simp [Event.is_success])

theorem finish_success (env : Env) (ssh : Ssh) (authenticated : Int) (method : CString)
    (submethod : Option CString) :
    success_kept ssh (userauth_finish env ssh authenticated method submethod).state ∨
    (authenticated = 1 ∧
      success_made ssh (userauth_finish env ssh authenticated method submethod).state) := by
  rcases finish_guard_cases env ssh authenticated method submethod with
    ⟨_, _, h⟩ | ⟨_, _, h⟩ | ⟨_, _, h⟩ | ⟨h1, h2, h3⟩
  · left; rw [h]; exact success_kept_refl ssh
  · left; rw [h]; exact success_kept_refl ssh
  · left; rw [h]; exact success_kept_refl ssh
  · rcases finish_as_reply env ssh authenticated method submethod h1 h2 h3 with
      h | ⟨lists, a, part, ha, h⟩
    · left; rw [h]; exact success_kept_refl ssh
    · rw [h]
      have hk : success_kept ssh
          { ssh with authctxt := { ssh.authctxt with auth_methods := lists } } :=
        ⟨rfl, rfl, rfl⟩
      rcases reply_success env
          { ssh with authctxt := { ssh.authctxt with auth_methods := lists } }
          a part method submethod with hr | ⟨ha1, _, hr⟩
      · exact Or.inl (success_kept_trans hk hr)
      · right
        refine ⟨?_, success_made_of_kept hk hr⟩
        rcases ha with ha | ha
        · omega
        · omega

theorem banner_success (env : Env) (ssh : Ssh) : success_kept ssh (userauth_banner env ssh) := by
  unfold userauth_banner
  split
  · exact success_kept_refl ssh
  · split
    · exact success_kept_refl ssh
    · split
      · exact success_kept_refl ssh
      · refine ⟨rfl, rfl, ?_⟩
        simp only [success_count]
        exact count_append_none _ _ (by simp [Event.is_success])

theorem bind_success (env : Env) (ssh : Ssh) (rq : Request) :
    success_kept ssh (input_userauth_request_bind env ssh rq).state := by
  by_cases h0 : ssh.authctxt.attempt = 0
  · obtain ⟨pw, valid, hc⟩ := request_setup_summary env
      { ssh.authctxt with attempt := ssh.authctxt.attempt + 1 }
      (split_style rq.user).1 rq.service (split_style rq.user).2
    have hb := banner_success env
      { ssh with authctxt := (input_userauth_request_setup env
        ({ ssh.authctxt with attempt := ssh.authctxt.attempt + 1 })
        (split_style rq.user).1 rq.service (split_style rq.user).2) }
    obtain ⟨hb1, _, _, _⟩ := banner_summary env
      { ssh with authctxt := (input_userauth_request_setup env
        ({ ssh.authctxt with attempt := ssh.authctxt.attempt + 1 })
        (split_style rq.user).1 rq.service (split_style rq.user).2) }
    obtain ⟨lists, hs⟩ := setup_summary env (input_userauth_request_setup env
        { ssh.authctxt with attempt := ssh.authctxt.attempt + 1 }
        (split_style rq.user).1 rq.service (split_style rq.user).2)
    have hk0 : success_kept ssh
        { ssh with authctxt := (input_userauth_request_setup env
          ({ ssh.authctxt with attempt := ssh.authctxt.attempt + 1 })
          (split_style rq.user).1 rq.service (split_style rq.user).2) } := by
      rw [hc]; exact ⟨rfl, rfl, rfl⟩
    have hk := success_kept_trans hk0 hb
    unfold input_userauth_request_bind
    simp only [h0, if_true]
    simp only [h0] at hb1 hs hk hc
    rw [hb1, hs]
    rw [hc] at hk ⊢
    split
    · exact ⟨rfl, hk.2.1, hk.2.2⟩
    · exact ⟨rfl, hk.2.1, hk.2.2⟩
  · rw [(bind_later env ssh rq h0).1]
    exact ⟨rfl, rfl, rfl⟩

theorem try_success (env : Env) (s : Ssh) (rq : Request) :
    success_kept s (input_userauth_request_try env s rq).state ∨
    success_made s (input_userauth_request_try env s rq).state := by
  rcases try_cases env s rq with ⟨m, _, _, h⟩ | ⟨_, h⟩
  · rw [h, ret_state]
    have hk : success_kept s
        { s with
          authctxt := { s.authctxt with
            postponed := (m.userauth
              { s.authctxt with postponed := 0, server_caused_failure := 0 }
              rq.payload).postponed
            server_caused_failure := (m.userauth
              { s.authctxt with postponed := 0, server_caused_failure := 0 }
              rq.payload).server_caused_failure }
          trace := s.trace ++ [.userauth m.name] } := by
      refine ⟨rfl, rfl, ?_⟩
      simp only [success_count]
      exact count_append_none _ _ (by simp [Event.is_success])
    rcases finish_success env _ _ rq.method none with hf | ⟨_, hf⟩
    · exact Or.inl (success_kept_trans hk hf)
    · exact Or.inr (success_made_of_kept hk hf)
  · rw [h, ret_state]
    have hk : success_kept s
        { s with authctxt := { s.authctxt with postponed := 0, server_caused_failure := 0 } } :=
      ⟨rfl, rfl, rfl⟩
    rcases finish_success env _ 0 rq.method none with hf | ⟨_, hf⟩
    · exact Or.inl (success_kept_trans hk hf)
    · exact Or.inr (success_made_of_kept hk hf)

theorem request_success (env : Env) (ssh : Ssh) (pkt : Option Request) :
    success_kept ssh (input_userauth_request env ssh pkt).state ∨
    success_made ssh (input_userauth_request env ssh pkt).state := by
  cases pkt with
  | none => exact Or.inl (success_kept_refl ssh)
  | some rq =>
    have hb := bind_success env ssh rq
    obtain ⟨r1, r2, r3, r4⟩ := request_of_bind env ssh rq
    cases hbo : input_userauth_request_bind env ssh rq with
    | returned s u =>
      rw [r1 s u hbo]
      rw [hbo] at hb
      rcases try_success env s rq with ht | ht
      · exact Or.inl (success_kept_trans hb ht)
      · exact Or.inr (success_made_of_kept hb ht)
    | disconnect s why => rw [r2 s why hbo]; rw [hbo] at hb; exact Or.inl hb
    | fatal s why => rw [r3 s why hbo]; rw [hbo] at hb; exact Or.inl hb
    | segv s => rw [r4 s hbo]; rw [hbo] at hb; exact Or.inl hb

theorem service_request_cases (ssh : Ssh) (pkt : Option CString) :
    (input_service_request ssh pkt).state = ssh ∨
    (ssh.authctxt.success = 0 ∧ ∃ service,
      (input_service_request ssh pkt).state =
        { ssh with
          userauth_request := .input_userauth_request
          trace := ssh.trace ++ [.send (.SERVICE_ACCEPT service)] }) := by
  cases pkt with
  | none => exact Or.inl rfl
  | some service =>
    unfold input_service_request
    simp only
    split
    · rename_i h
      exact Or.inr ⟨h.2, service, rfl⟩
    · exact Or.inl rfl

/-- One message through the dispatch table keeps the connection in one of its
two phases, and sends the success packet exactly when it sets the flag. -/
theorem dispatch_step_phase (env : Env) (ssh : Ssh) (m : Msg) (h : auth_phase ssh) :
    auth_phase (ssh_dispatch env ssh m).state ∧
    (success_count (ssh_dispatch env ssh m).state = success_count ssh + 1 ↔
      ssh.authctxt.success = 0 ∧ (ssh_dispatch env ssh m).state.authctxt.success = 1) := by
  have hsame : ∀ s : Ssh, s = ssh →
      auth_phase s ∧ (success_count s = success_count ssh + 1 ↔
        ssh.authctxt.success = 0 ∧ s.authctxt.success = 1) := by
    intro s hs
    subst hs
    refine ⟨h, ?_⟩
    constructor
    · intro hc; omega
    · intro hc; omega
  cases m with
  | SERVICE_REQUEST pkt =>
    simp only [ssh_dispatch]
    rcases service_request_cases ssh pkt with hs | ⟨h0, service, hs⟩
    · exact hsame _ hs
    · rw [hs]
      have hc : success_count
          { ssh with
            userauth_request := .input_userauth_request
            trace := ssh.trace ++ [.send (.SERVICE_ACCEPT service)] } = success_count ssh := by
        simp only [success_count]
        exact count_append_none _ _ (by simp [Event.is_success])
      rw [hc]
      constructor
      · rcases h with ⟨hs0, hc0⟩ | ⟨hs1, _, _⟩
        · exact Or.inl ⟨hs0, by rw [hc]; exact hc0⟩
        · omega
      · constructor
        · intro hx; omega
        · intro hx
          have : ssh.authctxt.success = 1 := hx.2
          omega
  | USERAUTH_REQUEST pkt =>
    simp only [ssh_dispatch]
    cases hh : ssh.userauth_request with
    | dispatch_protocol_error => exact hsame _ rfl
    | dispatch_protocol_ignore => exact hsame _ rfl
    | input_userauth_request =>
      simp only
      have h0 : ssh.authctxt.success = 0 ∧ success_count ssh = 0 := by
        rcases h with h | ⟨_, _, hi⟩
        · exact h
        · rw [hh] at hi; cases hi
      rcases request_success env ssh pkt with ⟨k1, k2, k3⟩ | ⟨k1, k2, k3⟩
      · constructor
        · exact Or.inl ⟨by rw [k1]; exact h0.1, by rw [k3]; exact h0.2⟩
        · rw [k1, k3]
          constructor
          · intro hx; omega
          · intro hx; omega
      · constructor
        · exact Or.inr ⟨k1, by rw [k3, h0.2], k2⟩
        · rw [k1, k3]
          constructor
          · intro _; exact ⟨h0.1, rfl⟩
          · intro _; rfl

theorem dispatch_all_phase (env : Env) :
    ∀ (msgs : List Msg) (ssh : Ssh), auth_phase ssh →
      auth_phase (dispatch_all env ssh msgs).state := by
  intro msgs
  induction msgs with
  | nil => intro ssh h; exact h
  | cons m rest ih =>
    intro ssh h
    have hstep := (dispatch_step_phase env ssh m h).1
    unfold dispatch_all
    cases ho : ssh_dispatch env ssh m with
    | returned s r =>
      rw [ho] at hstep
      simp only
      split
      · exact hstep
      · exact ih s hstep
    | disconnect s why => rw [ho] at hstep; exact hstep
    | fatal s why => rw [ho] at hstep; exact hstep
    | segv s => rw [ho] at hstep; exact hstep

theorem dispatch_run_phase (env : Env) :
    ∀ (msgs : List Msg) (ssh : Ssh), auth_phase ssh →
      auth_phase (ssh_dispatch_run env ssh msgs).state := by
  intro msgs
  induction msgs with
  | nil => intro ssh h; exact h
  | cons m rest ih =>
    intro ssh h
    have hstep := (dispatch_step_phase env ssh m h).1
    unfold ssh_dispatch_run
    cases ho : ssh_dispatch env ssh m with
    | returned s r =>
      rw [ho] at hstep
      simp only
      split
      · exact hstep
      · split
        · exact hstep
        · exact ih s hstep
    | disconnect s why => rw [ho] at hstep; exact hstep
    | fatal s why => rw [ho] at hstep; exact hstep
    | segv s => rw [ho] at hstep; exact hstep

theorem do_authentication2_phase (env : Env) (ssh : Ssh) (msgs : List Msg)
    (h0 : ssh.authctxt.success = 0) (hc : success_count ssh = 0) :
    auth_phase (do_authentication2 env ssh msgs).state := by
  have h := dispatch_run_phase env msgs
    { ssh with userauth_request := .dispatch_protocol_error } (Or.inl ⟨h0, hc⟩)
  unfold do_authentication2
  cases ho : ssh_dispatch_run env { ssh with userauth_request := .dispatch_protocol_error } msgs with
  | returned s r =>
    rw [ho] at h
    simp only
    split
    · exact h
    · exact h
  | disconnect s why => rw [ho] at h; exact h
  | fatal s why => rw [ho] at h; exact h
  | segv s => rw [ho] at h; exact h

theorem phase_count_le (ssh : Ssh) (h : auth_phase ssh) : success_count ssh ≤ 1 := by
  rcases h with ⟨_, h⟩ | ⟨_, h, _⟩ <;> omega

theorem dispatch_ignored (env : Env) (ssh : Ssh) (pkt : Option Request)
    (hi : ssh.userauth_request = .dispatch_protocol_ignore) :
    ssh_dispatch env ssh (.USERAUTH_REQUEST pkt) = .returned ssh 0 := by
  simp only [ssh_dispatch, hi, dispatch_protocol_ignore]

theorem dispatch_service_denied (env : Env) (ssh : Ssh) (service : CString)
    (hs : ssh.authctxt.success ≠ 0) :
    ssh_dispatch env ssh (.SERVICE_REQUEST (some service)) = .disconnect ssh .bad_service := by
  simp only [ssh_dispatch, input_service_request]
  rw [if_neg (fun h => hs h.2)]

theorem dispatch_all_after_success (env : Env) (ssh : Ssh)
    (hs : ssh.authctxt.success ≠ 0)
    (hi : ssh.userauth_request = .dispatch_protocol_ignore) :
    ∀ msgs : List Msg, (dispatch_all env ssh msgs).state = ssh := by
  intro msgs
  induction msgs with
  | nil => rfl
  | cons m rest ih =>
    unfold dispatch_all
    cases m with
    | SERVICE_REQUEST pkt =>
      cases pkt with
      | none => rfl
      | some service => rw [dispatch_service_denied env ssh service hs]; rfl
    | USERAUTH_REQUEST pkt =>
      rw [dispatch_ignored env ssh pkt hi]
      simp only [ne_eq, not_true_eq_false, if_false]
      exact ih

theorem dispatch_all_append (env : Env) :
    ∀ (a b : List Msg) (ssh : Ssh),
      dispatch_all env ssh (a ++ b) =
        match dispatch_all env ssh a with
        | .returned s r => if r ≠ 0 then .returned s r else dispatch_all env s b
        | .disconnect s why => .disconnect s why
        | .fatal s why => .fatal s why
        | .segv s => .segv s := by
  intro a b
  induction a with
  | nil => intro ssh; simp [dispatch_all]
  | cons m rest ih =>
    intro ssh
    simp only [List.cons_append, dispatch_all]
    cases ho : ssh_dispatch env ssh m with
    | returned s r =>
      simp only
      by_cases hr : r ≠ 0
      · simp only [if_pos hr]
      · simp only [if_neg hr]
        exact ih s
    | disconnect s why => rfl
    | fatal s why => rfl
    | segv s => rfl

theorem dispatch_all_settled (env : Env) (ssh : Ssh) (msgs more : List Msg)
    (h : auth_phase ssh) (hs : (dispatch_all env ssh msgs).state.authctxt.success ≠ 0) :
    (dispatch_all env ssh (msgs ++ more)).state = (dispatch_all env ssh msgs).state := by
  have hp := dispatch_all_phase env msgs ssh h
  rw [dispatch_all_append]
  cases ho : dispatch_all env ssh msgs with
  | returned s r =>
    rw [ho] at hp hs
    simp only [Outcome.state] at hp hs
    simp only
    by_cases hr : r ≠ 0
    · simp only [if_pos hr, Outcome.state]
    · simp only [if_neg hr]
      rcases hp with ⟨h0, _⟩ | ⟨_, _, hi⟩
      · exact absurd h0 hs
      · exact dispatch_all_after_success env s hs hi more
  | disconnect s why => rfl
  | fatal s why => rfl
  | segv s => rfl

/-- C15: over every sequence of service requests and user-auth requests on a
connection that starts with `success` 0 and no success packet sent, the
success packet is sent at most once, and `success` is 1 with user-auth
requests going to the ignore sink exactly when it has been sent (also over
`do_authentication2`); a message sends the success packet exactly when it sets
`success`; and once `success` is set a user-auth request is ignored with the
state unchanged, a service request (for "ssh-userauth" too) is answered by a
disconnect without a service accept and without installing a handler, and no
later message changes the state, so `success` is never reset. -/
theorem C15_success_once (env : Env) :
    (∀ (ssh : Ssh) (msgs : List Msg),
      ssh.authctxt.success = 0 → success_count ssh = 0 →
      success_count (dispatch_all env ssh msgs).state ≤ 1 ∧
      auth_phase (dispatch_all env ssh msgs).state ∧
      success_count (do_authentication2 env ssh msgs).state ≤ 1 ∧
      auth_phase (do_authentication2 env ssh msgs).state) ∧
    (∀ (ssh : Ssh) (m : Msg), auth_phase ssh →
      (success_count (ssh_dispatch env ssh m).state = success_count ssh + 1 ↔
        ssh.authctxt.success = 0 ∧ (ssh_dispatch env ssh m).state.authctxt.success = 1)) ∧
    (∀ (ssh : Ssh), ssh.authctxt.success ≠ 0 →
      ssh.userauth_request = .dispatch_protocol_ignore →
      (∀ pkt, ssh_dispatch env ssh (.USERAUTH_REQUEST pkt) = .returned ssh 0) ∧
      (∀ service,
        ssh_dispatch env ssh (.SERVICE_REQUEST (some service)) =
          .disconnect ssh .bad_service) ∧
      (∀ msgs, (dispatch_all env ssh msgs).state = ssh)) ∧
    (∀ (ssh : Ssh) (msgs more : List Msg),
      ssh.authctxt.success = 0 → success_count ssh = 0 →
      (dispatch_all env ssh msgs).state.authctxt.success ≠ 0 →
      (dispatch_all env ssh (msgs ++ more)).state = (dispatch_all env ssh msgs).state) := by
  refine ⟨?_, ?_, ?_, ?_⟩
  · intro ssh msgs h0 hc
    have h1 := dispatch_all_phase env msgs ssh (Or.inl ⟨h0, hc⟩)
    have h2 := do_authentication2_phase env ssh msgs h0 hc
    exact ⟨phase_count_le _ h1, h1, phase_count_le _ h2, h2⟩
  · intro ssh m h
    exact (dispatch_step_phase env ssh m h).2
  · intro ssh hs hi
    exact ⟨fun pkt => dispatch_ignored env ssh pkt hi,
      fun service => dispatch_service_denied env ssh service hs,
      dispatch_all_after_success env ssh hs hi⟩
  · intro ssh msgs more h0 hc hs
    exact dispatch_all_settled env ssh msgs more (Or.inl ⟨h0, hc⟩) hs

/-- C15 on a login of alice: one success packet is sent, and the password
request and the service request that follow it leave the state as it was. -/
theorem C15_success_once_witness :
    success_count (dispatch_all (ex_env 6 []) ex_ssh_new ex_msgs).state ≤ 1 ∧
    (dispatch_all (ex_env 6 []) ex_ssh_new ex_msgs).state.authctxt.success ≠ 0 ∧
    (dispatch_all (ex_env 6 []) ex_ssh_new (ex_msgs ++ ex_msgs_late)).state =
      (dispatch_all (ex_env 6 []) ex_ssh_new ex_msgs).state :=
  ⟨((C15_success_once (ex_env 6 [])).1 ex_ssh_new ex_msgs (by decide) (by decide)).1,
    by decide,
    (C15_success_once (ex_env 6 [])).2.2.2 ex_ssh_new ex_msgs ex_msgs_late
      (by decide) (by decide) (by decide)⟩

/-! ## Advertisement and dispatch -/

/-- With registry names that are non-empty and have no comma, the names in the
string `authmethods_get` returns are the advertised names. -/
theorem name_list_get (env : Env) (authctxt : Authctxt) (hnames : registry_names_ok env) :
    name_list (authmethods_get env authctxt) = advertised env authctxt := by
  have hget : authmethods_get env authctxt = [','].intercalate (advertised env authctxt) :=
    get_loop_empty env authctxt env.authmethods (fun m hm => (hnames m hm).1)
  have hmem := advertised_of_mem env authctxt env.authmethods
  unfold name_list
  rw [hget]
  cases hadv : advertised env authctxt with
  | nil => simp [List.intercalate]
  | cons n ns =>
    have hall : ∀ x ∈ n :: ns, x ≠ [] ∧ ',' ∉ x := by
      intro x hx
      have hx2 : x ∈ advertised_of env authctxt env.authmethods := by
        have : x ∈ advertised env authctxt := hadv ▸ hx
        exact this
      obtain ⟨m, hm, rfl, _⟩ := (hmem x).1 hx2
      exact hnames m hm
    have hn : n ≠ [] := (hall n (List.mem_cons_self _ _)).1
    rw [intercalate_cons]
    have hne : n ++ (ns.map (fun x => ',' :: x)).flatten ≠ [] := by
      intro h
      exact hn (List.append_eq_nil.1 h).1
    rw [if_neg hne]
    exact strsep_all_joined n ns (fun x hx => (hall x hx).2)

theorem lookup_some_iff (env : Env) (authctxt : Authctxt) (name : CString) :
    authmethod_lookup env authctxt (some name) ≠ none ↔
      ∃ m ∈ env.authmethods, m.name = name ∧ m.enabled ≠ none ∧ m.enabled ≠ some 0 ∧
        method_allowed env authctxt m.name ≠ 0 := by
  have h := (lookup_loop_spec env authctxt name env.authmethods).2
  simp only [authmethod_lookup]
  rw [ne_eq, h, not_not]

/-- A name other than "none" is advertised iff `authmethod_lookup` finds an
entry for it. -/
theorem advertised_iff_lookup (env : Env) (authctxt : Authctxt) (name : CString)
    (hn : name ≠ s_none) :
    name ∈ advertised env authctxt ↔ authmethod_lookup env authctxt (some name) ≠ none := by
  rw [lookup_some_iff]
  unfold advertised
  rw [advertised_of_mem]
  constructor
  · rintro ⟨m, hm, h1, _, h3, h4, h5⟩
    exact ⟨m, hm, h1, h3, h4, h5⟩
  · rintro ⟨m, hm, h1, h3, h4, h5⟩
    exact ⟨m, hm, h1, h1 ▸ hn, h3, h4, h5⟩

/-- A failure reply of `userauth_finish_reply` carries the advertisement of the
context the call returns with, and `failures` is then below the limit. -/
theorem reply_failure_list (env : Env) (before ssh : Ssh) (a part : Int) (method : CString)
    (submethod : Option CString) (ht : ssh.trace = before.trace) (ms : CString) (p : Int)
    (h : Event.send (.USERAUTH_FAILURE ms p) ∈
      new_events before (userauth_finish_reply env ssh a part method submethod)) :
    ∃ s : Ssh, userauth_finish_reply env ssh a part method submethod = .returned s () ∧
      ms = authmethods_get env s.authctxt ∧
      s.authctxt.failures < env.options.max_authtries ∧
      s.authctxt.auth_methods = ssh.authctxt.auth_methods := by
  rcases reply_cases env ssh a part method submethod with
    ⟨_, e⟩ | ⟨_, _, e⟩ | ⟨_, _, f, _, ⟨_, e⟩ | ⟨hlt, e⟩⟩
  · rw [e] at h; simp [new_events, Outcome.state, ht] at h
  · rw [e] at h; simp [new_events, Outcome.state, ht] at h
  · rw [e] at h; simp [new_events, Outcome.state, ht] at h
  · rw [e] at h
    simp only [new_events, Outcome.state, ht, List.drop_left', List.mem_cons,
      reduceCtorEq, Event.send.injEq, Packet.USERAUTH_FAILURE.injEq, List.mem_singleton,
      false_or, List.not_mem_nil, or_false] at h
    exact ⟨_, e, h.1, hlt, rfl⟩

theorem finish_failure_list (env : Env) (ssh : Ssh) (authenticated : Int) (method : CString)
    (submethod : Option CString) (ms : CString) (p : Int)
    (h : Event.send (.USERAUTH_FAILURE ms p) ∈
      new_events ssh (userauth_finish env ssh authenticated method submethod)) :
    ∃ s : Ssh, userauth_finish env ssh authenticated method submethod = .returned s () ∧
      ms = authmethods_get env s.authctxt ∧
      s.authctxt.failures < env.options.max_authtries := by
  rcases finish_guard_cases env ssh authenticated method submethod with
    ⟨_, _, e⟩ | ⟨_, _, e⟩ | ⟨_, _, e⟩ | ⟨h1, h2, h3⟩
  · rw [e] at h; simp [new_events, Outcome.state] at h
  · rw [e] at h; simp [new_events, Outcome.state] at h
  · rw [e] at h; simp [new_events, Outcome.state] at h
  · rcases finish_as_reply env ssh authenticated method submethod h1 h2 h3 with
      e | ⟨lists, a, part, _, e⟩
    · rw [e] at h; simp [new_events, Outcome.state] at h
    · rw [e] at h ⊢
      obtain ⟨s, hs, hms, hlt, _⟩ := reply_failure_list env ssh
        { ssh with authctxt := { ssh.authctxt with auth_methods := lists } }
        a part method submethod rfl ms p h
      exact ⟨s, hs, hms, hlt⟩

/-- A request that sends a failure reply returns 0; the reply carries the
advertisement of the context it leaves, and `failures` is below the limit. -/
theorem request_failure_list (env : Env) (ssh : Ssh) (pkt : Option Request) (ms : CString)
    (p : Int)
    (h : Event.send (.USERAUTH_FAILURE ms p) ∈
      new_events ssh (input_userauth_request env ssh pkt)) :
    ∃ s : Ssh, input_userauth_request env ssh pkt = .returned s 0 ∧
      ms = authmethods_get env s.authctxt ∧
      s.authctxt.failures < env.options.max_authtries := by
  cases pkt with
  | none => simp [input_userauth_request, new_events, Outcome.state] at h
  | some rq =>
    have hbind : ∃ l, (input_userauth_request_bind env ssh rq).state.trace = ssh.trace ++ l ∧
        ∀ e ∈ l, e.is_failure_reply = false := by
      by_cases h0 : ssh.authctxt.attempt = 0
      · obtain ⟨lists, pw, valid, l, hst, hl, _⟩ := bind_first env ssh rq h0
        exact ⟨l, by rw [hst], fun e he => (hl e he).1⟩
      · exact ⟨[], by rw [(bind_later env ssh rq h0).1]; simp, by simp⟩
    obtain ⟨l, hl, hlf⟩ := hbind
    obtain ⟨r1, r2, r3, r4⟩ := request_of_bind env ssh rq
    have hnot : ¬ Event.send (.USERAUTH_FAILURE ms p) ∈ l := by
      intro hin
      have := hlf _ hin
      simp [Event.is_failure_reply] at this
    cases hbo : input_userauth_request_bind env ssh rq with
    | returned sb u =>
      rw [hbo] at hl
      simp only [Outcome.state] at hl
      rw [r1 sb u hbo] at h ⊢
      obtain ⟨s2, a, l2, htry, ht2, hl2, _, _⟩ := try_summary env sb rq
      obtain ⟨lf, hf, _⟩ := finish_summary env s2 a rq.method none
      have hev : new_events ssh (input_userauth_request_try env sb rq) = l ++ l2 ++ lf := by
        apply new_events_of_trace
        rw [htry, ret_state, hf, ht2, hl]
        simp
      have hev2 : new_events s2 (userauth_finish env s2 a rq.method none) = lf :=
        new_events_of_trace _ _ _ hf
      rw [hev] at h
      have hin : Event.send (.USERAUTH_FAILURE ms p) ∈ lf := by
        rcases List.mem_append.1 h with h | h
        · rcases List.mem_append.1 h with h | h
          · exact absurd h hnot
          · have := hl2 _ h
            simp [Event.is_failure_reply] at this
        · exact h
      rw [← hev2] at hin
      obtain ⟨s, hs, hms, hlt⟩ := finish_failure_list env s2 a rq.method none ms p hin
      exact ⟨s, by rw [htry, hs]; rfl, hms, hlt⟩
    | disconnect sb why =>
      rw [hbo] at hl
      simp only [Outcome.state] at hl
      rw [r2 sb why hbo] at h
      simp [new_events, Outcome.state, hl] at h
      exact absurd h hnot
    | fatal sb why =>
      rw [hbo] at hl
      simp only [Outcome.state] at hl
      rw [r3 sb why hbo] at h
      simp [new_events, Outcome.state, hl] at h
      exact absurd h hnot
    | segv sb =>
      rw [hbo] at hl
      simp only [Outcome.state] at hl
      rw [r4 sb hbo] at h
      simp [new_events, Outcome.state, hl] at h
      exact absurd h hnot

/-- A later request for a dispatchable method with the bound user and service
invokes the handler of that name. -/
theorem later_request_invokes (env : Env) (s : Ssh) (rq : Request)
    (h0 : s.authctxt.attempt ≠ 0)
    (hu : s.authctxt.user = some (split_style rq.user).1)
    (hs : s.authctxt.service = some rq.service)
    (hd : dispatchable env s.authctxt rq.method) :
    Event.userauth rq.method ∈ new_events s (input_userauth_request env s (some rq)) := by
  have hb := bind_later_returned env s rq h0 hu hs
  rw [(request_of_bind env s rq).1 _ () hb]
  obtain ⟨hlt, m0, hm0, hname, hen1, hen2, hal⟩ := hd
  generalize hsb : ({ s with
    authctxt := { s.authctxt with attempt := s.authctxt.attempt + 1 } } : Ssh) = sb
  have hsb1 : sb.authctxt.auth_methods = s.authctxt.auth_methods := by rw [← hsb]
  have hsb2 : sb.authctxt.failures = s.authctxt.failures := by rw [← hsb]
  have hsb3 : sb.trace = s.trace := by rw [← hsb]
  have hspec := lookup_loop_spec env
    { sb.authctxt with postponed := 0, server_caused_failure := 0 } rq.method env.authmethods
  have hal2 : method_allowed env
      { sb.authctxt with postponed := 0, server_caused_failure := 0 } m0.name ≠ 0 := by
    rw [method_allowed_congr env
      { sb.authctxt with postponed := 0, server_caused_failure := 0 } s.authctxt m0.name hsb1]
    exact hal
  rcases try_cases env sb rq with ⟨m, hl, _, h⟩ | ⟨hno, _⟩
  · obtain ⟨_, hmn, _⟩ := hspec.1 m hl
    obtain ⟨lf, hf, _⟩ := finish_summary env
      { sb with
        authctxt := { sb.authctxt with
          postponed := (m.userauth
            { sb.authctxt with postponed := 0, server_caused_failure := 0 }
            rq.payload).postponed
          server_caused_failure := (m.userauth
            { sb.authctxt with postponed := 0, server_caused_failure := 0 }
            rq.payload).server_caused_failure }
        trace := sb.trace ++ [.userauth m.name] }
      (m.userauth { sb.authctxt with postponed := 0, server_caused_failure := 0 }
        rq.payload).authenticated rq.method none
    have hev : new_events s (input_userauth_request_try env sb rq) =
        .userauth m.name :: lf := by
      apply new_events_of_trace
      rw [h, ret_state, hf, hsb3]
      simp
    rw [hev, hmn]
    exact List.mem_cons_self _ _
  · rcases hno with hno | hno
    · exact absurd ⟨m0, hm0, hname, hen1, hen2, hal2⟩ (hspec.2.1 hno)
    · rw [hsb2] at hno
      exact absurd hlt (not_lt.2 hno)

/-- C22: with registry names that are non-empty and have no comma, for every
context a name other than "none" is one of the names in the string
`authmethods_get` returns iff `authmethod_lookup` returns an entry for it; so
every advertised name is dispatchable while `failures` is below
`max_authtries`, and every dispatchable name other than "none" is advertised.
A request that sends a failure reply leaves `failures` below the limit, and a
next request with the bound user and service for a name of that reply invokes
the handler of that name. -/
theorem C22_advertise_dispatch (env : Env) (hnames : registry_names_ok env) :
    (∀ (authctxt : Authctxt) (name : CString), name ≠ s_none →
      (name ∈ name_list (authmethods_get env authctxt) ↔
        authmethod_lookup env authctxt (some name) ≠ none)) ∧
    (∀ (authctxt : Authctxt) (name : CString),
      name ∈ name_list (authmethods_get env authctxt) →
      authctxt.failures < env.options.max_authtries → dispatchable env authctxt name) ∧
    (∀ (authctxt : Authctxt) (name : CString), name ≠ s_none →
      dispatchable env authctxt name → name ∈ name_list (authmethods_get env authctxt)) ∧
    (∀ (ssh : Ssh) (pkt : Option Request) (ms : CString) (p : Int) (rq : Request),
      0 ≤ ssh.authctxt.attempt →
      Event.send (.USERAUTH_FAILURE ms p) ∈
        new_events ssh (input_userauth_request env ssh pkt) →
      rq.method ∈ name_list ms →
      ∃ s : Ssh, input_userauth_request env ssh pkt = .returned s 0 ∧
        ms = authmethods_get env s.authctxt ∧
        s.authctxt.failures < env.options.max_authtries ∧
        (s.authctxt.user = some (split_style rq.user).1 →
          s.authctxt.service = some rq.service →
          Event.userauth rq.method ∈
            new_events s (input_userauth_request env s (some rq)))) := by
  have hadv : ∀ (authctxt : Authctxt) (name : CString),
      name ∈ name_list (authmethods_get env authctxt) →
      ∃ m ∈ env.authmethods, m.name = name ∧ m.name ≠ s_none ∧ m.enabled ≠ none ∧
        m.enabled ≠ some 0 ∧ method_allowed env authctxt m.name ≠ 0 := by
    intro authctxt name h
    rw [name_list_get env authctxt hnames] at h
    exact (advertised_of_mem env authctxt env.authmethods name).1 h
  refine ⟨?_, ?_, ?_, ?_⟩
  · intro authctxt name hn
    rw [name_list_get env authctxt hnames]
    exact advertised_iff_lookup env authctxt name hn
  · intro authctxt name h hlt
    obtain ⟨m, hm, h1, _, h3, h4, h5⟩ := hadv authctxt name h
    exact ⟨hlt, m, hm, h1, h3, h4, h5⟩
  · intro authctxt name hn hd
    obtain ⟨_, m, hm, h1, h3, h4, h5⟩ := hd
    rw [name_list_get env authctxt hnames]
    exact (advertised_of_mem env authctxt env.authmethods name).2
      ⟨m, hm, h1, h1 ▸ hn, h3, h4, h5⟩
  · intro ssh pkt ms p rq h0 hev hin
    obtain ⟨s, hs, hms, hlt⟩ := request_failure_list env ssh pkt ms p hev
    refine ⟨s, hs, hms, hlt, ?_⟩
    intro hu hsv
    have hatt := (request_step env ssh pkt h0).2 s 0 hs rfl
    rw [hms] at hin
    obtain ⟨m, hm, h1, _, h3, h4, h5⟩ := hadv s.authctxt rq.method hin
    exact later_request_invokes env s rq (by omega) hu hsv ⟨hlt, m, hm, h1, h3, h4, h5⟩

/-- C22 on the example registry without a policy: "password" is advertised
and `authmethod_lookup` finds it; "hostbased", which is disabled, is neither
advertised nor found. -/
theorem C22_advertise_dispatch_witness :
    registry_names_ok (ex_env 6 []) ∧
    authmethod_lookup (ex_env 6 []) Authctxt.new (some "password".toList) ≠ none ∧
    "hostbased".toList ∉ name_list (authmethods_get (ex_env 6 []) Authctxt.new) :=
  ⟨by decide,
    ((C22_advertise_dispatch (ex_env 6 []) (by decide)).1 Authctxt.new "password".toList
      (by decide)).1 (by decide),
    fun h =>
      ((C22_advertise_dispatch (ex_env 6 []) (by decide)).1 Authctxt.new "hostbased".toList
        (by decide)).1 h rfl⟩

/-! ## A policy of one list -/

theorem joined_cons_cons (m m2 : CString) (rest : List CString) :
    [','].intercalate (m :: m2 :: rest) = m ++ ',' :: [','].intercalate (m2 :: rest) := by
  rw [intercalate_cons, intercalate_cons]
  simp

theorem joined_single (m : CString) : [','].intercalate [m] = m := by
  rw [intercalate_cons]
  simp

theorem joined_ne_nil (m : CString) (rest : List CString) (hm : m ≠ []) :
    [','].intercalate (m :: rest) ≠ [] := by
  rw [intercalate_cons]
  intro h
  exact hm (List.append_eq_nil.1 h).1

theorem starts_with_joined (m : CString) (rest : List CString) (hcf : ',' ∉ m) :
    list_starts_with ([','].intercalate (m :: rest)) m = 1 := by
  rw [list_starts_with_iff_head _ _ hcf, head_strsep_all_iff _ _ hcf]
  cases rest with
  | nil => exact Or.inl (joined_single m)
  | cons m2 r => exact Or.inr ⟨_, joined_cons_cons m m2 r⟩

/-- The update of a context whose only list is the given methods, by the first
of them: the list is complete when no method is left, and otherwise the rest
of the list stays. -/
theorem update_single (authctxt : Authctxt) (m : CString) (rest : List CString)
    (hl : authctxt.auth_methods = [[','].intercalate (m :: rest)])
    (hcf : ',' ∉ m) (hne : ∀ x ∈ rest, x ≠ []) :
    (rest = [] →
      auth2_update_methods_lists authctxt m =
        .returned { authctxt with auth_methods := [[]] } 1) ∧
    (rest ≠ [] →
      auth2_update_methods_lists authctxt m =
        .returned { authctxt with auth_methods := [[','].intercalate rest] } 0) := by
  have hst := starts_with_joined m rest hcf
  have hfst : (remove_method ([','].intercalate (m :: rest)) m).1 = 1 := by
    rw [remove_method_fst, hst]
  constructor
  · intro hr
    subst hr
    have hsnd : (remove_method ([','].intercalate [m]) m).2 = [] := by
      rw [joined_single, remove_method_snd_self]
    unfold auth2_update_methods_lists
    rw [hl]
    simp [update_loop, hfst, hsnd]
  · intro hr
    obtain ⟨m2, r, rfl⟩ := List.exists_cons_of_ne_nil hr
    have hsnd : (remove_method ([','].intercalate (m :: m2 :: r)) m).2 =
        [','].intercalate (m2 :: r) := by
      rw [joined_cons_cons, remove_method_snd_comma]
    have hnn : [','].intercalate (m2 :: r) ≠ [] :=
      joined_ne_nil m2 r (hne m2 (List.mem_cons_self _ _))
    unfold auth2_update_methods_lists
    rw [hl]
    simp [update_loop, hfst, hsnd, hnn]

/-- When the guards and the root check pass, a policy is configured and
`auth2_update_methods_lists` returns 1, a report of 1 ends in the success
packet. -/
theorem finish_complete (env : Env) (ssh : Ssh) (method : CString)
    (submethod : Option CString) (a1 : Authctxt)
    (hv : ssh.authctxt.valid ≠ 0) (hp : ssh.authctxt.postponed = 0)
    (hpw : ssh.authctxt.pw ≠ none)
    (hroot : ¬ (ssh.authctxt.pw.map Passwd.pw_uid = some 0 ∧
      env.auth_root_allowed method = 0))
    (hnum : env.num_auth_methods ≠ 0)
    (hp1 : a1.postponed = 0)
    (hupd : auth2_update_methods_lists ssh.authctxt method = .returned a1 1) :
    userauth_finish env ssh 1 method submethod =
      .returned { ssh with
        userauth_request := .dispatch_protocol_ignore
        trace := ssh.trace ++ [.auth_log 1 0 method submethod, .send .USERAUTH_SUCCESS]
        authctxt := { a1 with success := 1 } } () := by
  have hr : userauth_finish_root env ssh.authctxt 1 method = 1 := by
    unfold userauth_finish_root
    rw [if_neg (fun h => hroot h.2)]
  have hfin : userauth_finish env ssh 1 method submethod =
      userauth_finish_reply env { ssh with authctxt := a1 } 1 0 method submethod := by
    rw [finish_unfold env ssh 1 method submethod (fun h => hv h.1)
      (fun h => h.2 hp) (fun h => hpw h.2), hr, if_pos ⟨by decide, hnum⟩, hupd]
    simp only [one_ne_zero, if_false]
  rw [hfin]
  rcases reply_cases env { ssh with authctxt := a1 } 1 0 method submethod with
    ⟨hp', _⟩ | ⟨_, _, e⟩ | ⟨_, hone, _⟩
  · exact absurd hp1 hp'
  · rw [e]
  · exact absurd rfl hone

/-- The second part of a request for the first method of the only list, on a
valid context with tries left, when the client succeeds at the method: with no
method left the success packet is sent; otherwise the attempt is a partial
success, which is counted unless the request is the opening one with method
"none", and which ends in the failure reply with the partial flag or, at the
limit, in the disconnect. -/
theorem try_policy (env : Env) (s : Ssh) (rq : Request) (rest : List CString) (pw : Passwd)
    (hnum : env.num_auth_methods ≠ 0)
    (hv : s.authctxt.valid ≠ 0) (hpw : s.authctxt.pw = some pw)
    (hl : s.authctxt.auth_methods = [[','].intercalate (rq.method :: rest)])
    (hcf : ',' ∉ rq.method) (hne : ∀ x ∈ rest, x ≠ [])
    (hen : ∃ e ∈ env.authmethods, e.name = rq.method ∧ e.enabled ≠ none ∧ e.enabled ≠ some 0)
    (hsucc : succeeds_at env rq.method)
    (hroot : ¬ (pw.pw_uid = 0 ∧ env.auth_root_allowed rq.method = 0))
    (hf : s.authctxt.failures < env.options.max_authtries) :
    (rest = [] →
      input_userauth_request_try env s rq =
        .returned { s with
          userauth_request := .dispatch_protocol_ignore
          trace := s.trace ++ [.userauth rq.method, .auth_log 1 0 rq.method none,
            .send .USERAUTH_SUCCESS]
          authctxt := { s.authctxt with
            postponed := 0, server_caused_failure := 0, auth_methods := [[]],
            success := 1 } } 0) ∧
    (rest ≠ [] →
      ∃ f : Int,
        f = (if s.authctxt.attempt > 1 ∨ rq.method ≠ s_none then s.authctxt.failures + 1
          else s.authctxt.failures) ∧
        ((f < env.options.max_authtries ∧
          input_userauth_request_try env s rq =
            .returned { s with
              trace := s.trace ++ [.userauth rq.method, .auth_log 0 1 rq.method none,
                .send (.USERAUTH_FAILURE
                  (authmethods_get env { s.authctxt with
                    auth_methods := [[','].intercalate rest] }) 1)]
              authctxt := { s.authctxt with
                postponed := 0, server_caused_failure := 0,
                auth_methods := [[','].intercalate rest], failures := f } } 0) ∨
        (env.options.max_authtries ≤ f ∧
          input_userauth_request_try env s rq =
            .disconnect { s with
              trace := s.trace ++ [.userauth rq.method, .auth_log 0 1 rq.method none]
              authctxt := { s.authctxt with
                postponed := 0, server_caused_failure := 0,
                auth_methods := [[','].intercalate rest], failures := f } }
              .auth_fail))) := by
  obtain ⟨e0, he0, hname0, hen1, hen2⟩ := hen
  have hstart := starts_with_joined rq.method rest hcf
  have hallow : ∀ c : Authctxt, c.auth_methods = s.authctxt.auth_methods →
      method_allowed env c rq.method ≠ 0 := by
    intro c hc
    unfold method_allowed
    rw [if_neg hnum, hc, hl]
    have := (method_allowed_loop_iff rq.method [[','].intercalate (rq.method :: rest)]).1.2
      ⟨_, List.mem_singleton.2 rfl, hstart⟩
    rw [this]
    decide
  have hspec := lookup_loop_spec env
    { s.authctxt with postponed := 0, server_caused_failure := 0 } rq.method env.authmethods
  rcases try_cases env s rq with ⟨m, hlk, _, h⟩ | ⟨hno, _⟩
  · obtain ⟨hm, hmn, _⟩ := hspec.1 m hlk
    have hres := hsucc m hm hmn
      { s.authctxt with postponed := 0, server_caused_failure := 0 } rq.payload
    rw [hres, hmn] at h
    simp only at h
    have hupd := update_single
      { s.authctxt with postponed := 0, server_caused_failure := 0 } rq.method rest hl hcf hne
    have hpw2 : (some pw : Option Passwd) ≠ none := by simp
    have hroot2 : ¬ ((some pw : Option Passwd).map Passwd.pw_uid = some 0 ∧
        env.auth_root_allowed rq.method = 0) := by
      intro hh
      exact hroot ⟨by simpa using hh.1, hh.2⟩
    constructor
    · intro hr
      have hfin := finish_complete env
        { s with
          authctxt := { s.authctxt with postponed := 0, server_caused_failure := 0 }
          trace := s.trace ++ [.userauth rq.method] } rq.method none
        { s.authctxt with postponed := 0, server_caused_failure := 0, auth_methods := [[]] }
        hv rfl (by simp only; rw [hpw]; exact hpw2) (by simp only; rw [hpw]; exact hroot2)
        hnum rfl (hupd.1 hr)
      rw [h, hfin]
      simp [Outcome.ret]
    · intro hr
      obtain ⟨f, hfv, hcase⟩ := finish_partial env
        { s with
          authctxt := { s.authctxt with postponed := 0, server_caused_failure := 0 }
          trace := s.trace ++ [.userauth rq.method] } 1 rq.method none
        { s.authctxt with postponed := 0, server_caused_failure := 0,
                          auth_methods := [[','].intercalate rest] }
        hv (by decide) rfl (by simp only; rw [hpw]; exact hpw2)
        (by simp only; rw [hpw]; exact hroot2) hnum (hupd.2 hr)
      refine ⟨f, ?_, ?_⟩
      · rw [hfv]
        simp
      · rcases hcase with ⟨hlt, e⟩ | ⟨hge, e⟩
        · refine Or.inl ⟨hlt, ?_⟩
          rw [h, e]
          simp only [Outcome.ret, List.append_assoc, List.singleton_append]
          rw [authmethods_get_congr env
            { s.authctxt with postponed := 0, server_caused_failure := 0,
                              auth_methods := [[','].intercalate rest] }
            { s.authctxt with auth_methods := [[','].intercalate rest] } rfl]
        · refine Or.inr ⟨hge, ?_⟩
          rw [h, e]
          simp [Outcome.ret]
  · rcases hno with hno | hno
    · exact absurd ⟨e0, he0, hname0, hen1, hen2, hname0 ▸ hallow _ rfl⟩ (hspec.2.1 hno)
    · exact absurd hf (not_lt.2 hno)

theorem run_cons_returned (env : Env) (s s1 : Ssh) (pkt : Option Request)
    (rest : List (Option Request))
    (h : input_userauth_request env s pkt = .returned s1 0) :
    run_requests env s (pkt :: rest) = run_requests env s1 rest := by
  rw [run_requests, h]
  simp

theorem run_cons_disconnect (env : Env) (s s1 : Ssh) (pkt : Option Request)
    (rest : List (Option Request)) (why : Disconnect)
    (h : input_userauth_request env s pkt = .disconnect s1 why) :
    run_requests env s (pkt :: rest) = .disconnect s1 why := by
  rw [run_requests, h]

/-- A later request of the bound user for "ssh-connection" is its second part
on the context with one more attempt. -/
theorem later_request_try (env : Env) (s : Ssh) (user m : CString)
    (h0 : s.authctxt.attempt ≠ 0)
    (hu : s.authctxt.user = some (split_style user).1)
    (hs : s.authctxt.service = some s_ssh_connection) :
    input_userauth_request env s (some ⟨user, s_ssh_connection, m, []⟩) =
      input_userauth_request_try env
        { s with authctxt := { s.authctxt with attempt := s.authctxt.attempt + 1 } }
        ⟨user, s_ssh_connection, m, []⟩ := by
  have hb := bind_later_returned env s ⟨user, s_ssh_connection, m, []⟩ h0 hu hs
  exact (request_of_bind env s ⟨user, s_ssh_connection, m, []⟩).1 _ () hb

/-- One later request of the bound user for the first method of the only list,
on a valid context with tries left. -/
theorem later_policy_request (env : Env) (user : CString) (pw : Passwd)
    (hnum : env.num_auth_methods ≠ 0) (s : Ssh) (m : CString) (rest : List CString)
    (hatt : 1 ≤ s.authctxt.attempt)
    (hu : s.authctxt.user = some (split_style user).1)
    (hs : s.authctxt.service = some s_ssh_connection)
    (hv : s.authctxt.valid ≠ 0) (hpw : s.authctxt.pw = some pw)
    (hl : s.authctxt.auth_methods = [[','].intercalate (m :: rest)])
    (hcf : ',' ∉ m) (hne : ∀ x ∈ rest, x ≠ [])
    (hen : ∃ e ∈ env.authmethods, e.name = m ∧ e.enabled ≠ none ∧ e.enabled ≠ some 0)
    (hsucc : succeeds_at env m)
    (hroot : ¬ (pw.pw_uid = 0 ∧ env.auth_root_allowed m = 0))
    (hf : s.authctxt.failures < env.options.max_authtries) :
    (rest = [] →
      ∃ s1 : Ssh,
        input_userauth_request env s (some ⟨user, s_ssh_connection, m, []⟩) =
          .returned s1 0 ∧
        s1.authctxt.success = 1 ∧ s1.userauth_request = .dispatch_protocol_ignore ∧
        s1.authctxt.failures = s.authctxt.failures ∧
        s1.authctxt.attempt = s.authctxt.attempt + 1 ∧
        s1.trace = s.trace ++ [.userauth m, .auth_log 1 0 m none, .send .USERAUTH_SUCCESS]) ∧
    (rest ≠ [] → s.authctxt.failures + 1 < env.options.max_authtries →
      ∃ s1 : Ssh,
        input_userauth_request env s (some ⟨user, s_ssh_connection, m, []⟩) =
          .returned s1 0 ∧
        s1.authctxt.success = s.authctxt.success ∧
        s1.authctxt.failures = s.authctxt.failures + 1 ∧
        s1.authctxt.attempt = s.authctxt.attempt + 1 ∧
        s1.authctxt.user = s.authctxt.user ∧ s1.authctxt.service = s.authctxt.service ∧
        s1.authctxt.valid = s.authctxt.valid ∧ s1.authctxt.pw = s.authctxt.pw ∧
        s1.authctxt.auth_methods = [[','].intercalate rest] ∧
        s1.trace = s.trace ++ [.userauth m, .auth_log 0 1 m none,
          .send (.USERAUTH_FAILURE (authmethods_get env s1.authctxt) 1)]) ∧
    (rest ≠ [] → env.options.max_authtries ≤ s.authctxt.failures + 1 →
      ∃ s1 : Ssh,
        input_userauth_request env s (some ⟨user, s_ssh_connection, m, []⟩) =
          .disconnect s1 .auth_fail ∧
        s1.authctxt.success = s.authctxt.success ∧
        s1.authctxt.failures = s.authctxt.failures + 1 ∧
        s1.authctxt.attempt = s.authctxt.attempt + 1 ∧
        s1.trace = s.trace ++ [.userauth m, .auth_log 0 1 m none]) := by
  have hreq := later_request_try env s user m (by omega) hu hs
  have htry := try_policy env
    { s with authctxt := { s.authctxt with attempt := s.authctxt.attempt + 1 } }
    ⟨user, s_ssh_connection, m, []⟩ rest pw hnum hv hpw hl hcf hne hen hsucc hroot hf
  refine ⟨?_, ?_, ?_⟩
  · intro hr
    rw [htry.1 hr] at hreq
    exact ⟨_, hreq, rfl, rfl, rfl, rfl, rfl⟩
  · intro hr hlt
    obtain ⟨f, hfv, hcase⟩ := htry.2 hr
    have hfv2 : f = s.authctxt.failures + 1 := by
      rw [hfv, if_pos (Or.inl (by simp only; omega))]
    subst hfv2
    rcases hcase with ⟨_, e⟩ | ⟨hge, _⟩
    · rw [e] at hreq
      refine ⟨_, hreq, rfl, rfl, rfl, rfl, rfl, rfl, rfl, rfl, ?_⟩
      exact congrArg
        (fun g => s.trace ++ [Event.userauth m, Event.auth_log 0 1 m none,
          Event.send (Packet.USERAUTH_FAILURE g 1)])
        (authmethods_get_congr env _ _ rfl)
    · exact absurd hlt (not_lt.2 hge)
  · intro hr hge
    obtain ⟨f, hfv, hcase⟩ := htry.2 hr
    have hfv2 : f = s.authctxt.failures + 1 := by
      rw [hfv, if_pos (Or.inl (by simp only; omega))]
    subst hfv2
    rcases hcase with ⟨hlt, _⟩ | ⟨_, e⟩
    · exact absurd hlt (not_lt.2 hge)
    · rw [e] at hreq
      exact ⟨_, hreq, rfl, rfl, rfl, rfl⟩

/-- The requests for the methods of the only list, in order, from a bound and
valid context with tries left: the client reaches the success packet when the
partial successes still to come keep `failures` below the limit, and is
otherwise disconnected at the partial success that brings `failures` to the
limit. -/
theorem run_policy_later (env : Env) (user : CString) (pw : Passwd)
    (hnum : env.num_auth_methods ≠ 0) :
    ∀ (rest : List CString) (m : CString) (s : Ssh),
      1 ≤ s.authctxt.attempt →
      s.authctxt.user = some (split_style user).1 →
      s.authctxt.service = some s_ssh_connection →
      s.authctxt.valid ≠ 0 → s.authctxt.pw = some pw →
      s.authctxt.auth_methods = [[','].intercalate (m :: rest)] →
      (∀ x ∈ m :: rest, x ≠ [] ∧ ',' ∉ x ∧
        (∃ e ∈ env.authmethods, e.name = x ∧ e.enabled ≠ none ∧ e.enabled ≠ some 0) ∧
        succeeds_at env x ∧ ¬ (pw.pw_uid = 0 ∧ env.auth_root_allowed x = 0)) →
      s.authctxt.failures < env.options.max_authtries →
      (s.authctxt.failures + rest.length < env.options.max_authtries →
        ∃ s2 : Ssh,
          run_requests env s (policy_requests user (m :: rest)) = .returned s2 0 ∧
          s2.authctxt.success = 1 ∧
          s2.userauth_request = .dispatch_protocol_ignore ∧
          s2.authctxt.failures = s.authctxt.failures + rest.length ∧
          s2.authctxt.attempt = s.authctxt.attempt + rest.length + 1 ∧
          success_count s2 = success_count s + 1) ∧
      (env.options.max_authtries ≤ s.authctxt.failures + rest.length →
        ∃ (s2 : Ssh) (x : CString) (pre : List Event),
          run_requests env s (policy_requests user (m :: rest)) = .disconnect s2 .auth_fail ∧
          s2.authctxt.success = s.authctxt.success ∧
          s2.authctxt.failures = env.options.max_authtries ∧
          s2.authctxt.attempt =
            s.authctxt.attempt + (env.options.max_authtries - s.authctxt.failures) ∧
          success_count s2 = success_count s ∧
          x ∈ m :: rest ∧
          s2.trace = pre ++ [.userauth x, .auth_log 0 1 x none]) := by
  intro rest
  induction rest with
  | nil =>
    intro m s hatt hu hs hv hpw hl hall hf
    obtain ⟨_, hx2, hx3, hx4, hx5⟩ := hall m (List.mem_cons_self _ _)
    obtain ⟨s1, hreq, h1, h2, h3, h4, h5⟩ := (later_policy_request env user pw hnum s m []
      hatt hu hs hv hpw hl hx2 (by simp) hx3 hx4 hx5 hf).1 rfl
    constructor
    · intro _
      refine ⟨s1, ?_, h1, h2, ?_, ?_, ?_⟩
      · simp only [policy_requests, List.map_cons, List.map_nil]
        rw [run_cons_returned env s s1 _ [] hreq]
        rfl
      · rw [h3]; simp
      · rw [h4]; simp
      · simp only [success_count]
        rw [h5, List.countP_append]
        simp [List.countP_cons, Event.is_success]
    · intro hge
      simp only [List.length_nil, Nat.cast_zero, add_zero] at hge
      exact absurd hf (not_lt.2 hge)
  | cons m2 r ih =>
    intro m s hatt hu hs hv hpw hl hall hf
    obtain ⟨_, hx2, hx3, hx4, hx5⟩ := hall m (List.mem_cons_self _ _)
    have hrest : ∀ x ∈ m2 :: r, x ≠ [] := fun x hx => (hall x (List.mem_cons_of_mem _ hx)).1
    obtain ⟨_, hstep, hstop⟩ := later_policy_request env user pw hnum s m (m2 :: r)
      hatt hu hs hv hpw hl hx2 hrest hx3 hx4 hx5 hf
    simp only [List.length_cons, Nat.cast_add, Nat.cast_one]
    by_cases hlt : s.authctxt.failures + 1 < env.options.max_authtries
    · obtain ⟨s1, hreq, k1, k2, k3, k4, k5, k6, k7, k8, k9⟩ := hstep (by simp) hlt
      have hrun : run_requests env s (policy_requests user (m :: m2 :: r)) =
          run_requests env s1 (policy_requests user (m2 :: r)) := by
        simp only [policy_requests, List.map_cons]
        exact run_cons_returned env s s1 _ _ hreq
      have hcount : success_count s1 = success_count s := by
        simp only [success_count]
        rw [k9]
        exact count_append_none _ _ (by simp [Event.is_success])
      obtain ⟨ih1, ih2⟩ := ih m2 s1 (by omega) (by rw [k4]; exact hu) (by rw [k5]; exact hs)
        (by rw [k6]; exact hv) (by rw [k7]; exact hpw) k8
        (fun x hx => hall x (List.mem_cons_of_mem _ hx)) (by rw [k2]; exact hlt)
      constructor
      · intro hlt2
        obtain ⟨s2, h1, h2, h3, h4, h5, h6⟩ := ih1 (by omega)
        exact ⟨s2, by rw [hrun, h1], h2, h3, by omega, by omega, by omega⟩
      · intro hge2
        obtain ⟨s2, x, pre, h1, h2, h3, h4, h5, h6, h7⟩ := ih2 (by omega)
        exact ⟨s2, x, pre, by rw [hrun, h1], by rw [h2, k1], h3, by omega, by omega,
          List.mem_cons_of_mem _ h6, h7⟩
    · obtain ⟨s1, hreq, k1, k2, k3, k4⟩ := hstop (by simp) (not_lt.1 hlt)
      have hrun : run_requests env s (policy_requests user (m :: m2 :: r)) =
          .disconnect s1 .auth_fail := by
        simp only [policy_requests, List.map_cons]
        exact run_cons_disconnect env s s1 _ _ _ hreq
      constructor
      · intro hlt2
        omega
      · intro _
        refine ⟨s1, m, s.trace, hrun, k1, by omega, by omega, ?_, List.mem_cons_self _ _, k4⟩
        simp only [success_count]
        rw [k4]
        exact count_append_none _ _ (by simp [Event.is_success])

theorem bind_first_lists (env : Env) (ssh : Ssh) (rq : Request)
    (h0 : ssh.authctxt.attempt = 0) :
    (input_userauth_request_bind env ssh rq).state.authctxt.auth_methods =
      (auth2_setup_methods_lists env (input_userauth_request_setup env
        { ssh.authctxt with attempt := ssh.authctxt.attempt + 1 }
        (split_style rq.user).1 rq.service (split_style rq.user).2)).1.auth_methods := by
  obtain ⟨hb1, _, _, _⟩ := banner_summary env
    { ssh with authctxt := (input_userauth_request_setup env
      ({ ssh.authctxt with attempt := ssh.authctxt.attempt + 1 })
      (split_style rq.user).1 rq.service (split_style rq.user).2) }
  unfold input_userauth_request_bind
  simp only [h0, if_true]
  simp only [h0] at hb1
  rw [hb1]
  split <;> rfl

theorem policy_client_setup (env : Env) (user : CString) (pw : Passwd)
    (methods : List CString) (hp : policy_client env user pw methods) :
    env.num_auth_methods ≠ 0 ∧
    setup_loop env env.options.auth_methods = [[','].intercalate methods] := by
  obtain ⟨h1, h2, _, _⟩ := hp
  constructor
  · unfold Env.num_auth_methods
    rw [h1]
    simp
  · rw [h1]
    simp [setup_loop, h2]

/-- Every method of the policy names an enabled registry entry. -/
theorem policy_client_enabled (env : Env) (user : CString) (pw : Passwd)
    (m : CString) (rest : List CString) (hp : policy_client env user pw (m :: rest)) :
    ∀ x ∈ m :: rest,
      ∃ e ∈ env.authmethods, e.name = x ∧ e.enabled ≠ none ∧ e.enabled ≠ some 0 := by
  obtain ⟨_, h2, _, h4⟩ := hp
  have htok : strsep_all ([','].intercalate (m :: rest)) = m :: rest := by
    rw [intercalate_cons]
    exact strsep_all_joined m rest (fun x hx => (h4 x hx).2.1)
  obtain ⟨_, hreg⟩ := valid_tokens_registered env _ 1 h2
  intro x hx
  obtain ⟨e, he, hn, hen⟩ := hreg x (by rw [htok]; exact hx)
  exact ⟨e, he, hn, (hen (by decide)).1, (hen (by decide)).2⟩

/-- The first part of the opening request under a policy of one list: the
context is bound to the user, valid, and holds the list. -/
theorem first_policy_bind (env : Env) (ssh : Ssh) (user : CString) (pw : Passwd)
    (methods : List CString) (hp : policy_client env user pw methods) (mm : CString)
    (h0 : ssh.authctxt.attempt = 0) :
    ∃ sb : Ssh,
      input_userauth_request_bind env ssh ⟨user, s_ssh_connection, mm, []⟩ = .returned sb () ∧
      sb.authctxt.attempt = 1 ∧ sb.authctxt.failures = ssh.authctxt.failures ∧
      sb.authctxt.success = ssh.authctxt.success ∧
      sb.authctxt.user = some (split_style user).1 ∧
      sb.authctxt.service = some s_ssh_connection ∧
      sb.authctxt.valid = 1 ∧ sb.authctxt.pw = some pw ∧
      sb.authctxt.auth_methods = [[','].intercalate methods] ∧
      success_count sb = success_count ssh ∧
      ∃ l, sb.trace = ssh.trace ++ l ∧ ∀ e ∈ l, e.is_userauth = false := by
  obtain ⟨hnum, hloop⟩ := policy_client_setup env user pw methods hp
  have hsetup : (auth2_setup_methods_lists env Authctxt.new).2 = 0 := by
    unfold auth2_setup_methods_lists
    simp [hnum, hloop]
  have hret := bind_first_returned env ssh ⟨user, s_ssh_connection, mm, []⟩ h0 hsetup
  obtain ⟨lists, pw2, valid, l, hst, hl, _⟩ :=
    bind_first env ssh ⟨user, s_ssh_connection, mm, []⟩ h0
  obtain ⟨hval, hpw⟩ := bind_first_valid env ssh ⟨user, s_ssh_connection, mm, []⟩ h0
  have hlists := bind_first_lists env ssh ⟨user, s_ssh_connection, mm, []⟩ h0
  have hknown : env.getpwnamallow (split_style user).1 ≠ none ∧
      s_ssh_connection = s_ssh_connection := by
    rw [hp.2.2.1]
    simp
  obtain ⟨hv1, hpw1⟩ := (request_setup_valid env
    { ssh.authctxt with attempt := ssh.authctxt.attempt + 1 }
    (split_style user).1 s_ssh_connection (split_style user).2).1 hknown
  have hcount := (bind_success env ssh ⟨user, s_ssh_connection, mm, []⟩).2.2
  refine ⟨_, hret, ?_, ?_, ?_, ?_, ?_, ?_, ?_, ?_, hcount, l, ?_, fun e he => (hl e he).2⟩
  · rw [hst]
  · rw [hst]
  · rw [hst]
  · rw [hst]
  · rw [hst]
  · rw [hval]; exact hv1
  · rw [hpw, hpw1]; exact hp.2.2.1
  · rw [hlists, setup_lists env _ hnum, hloop]
  · rw [hst]

/-- The opening request under a policy of one list of at least two methods,
for the first method, which is not "none": a partial success that brings
`failures` to 1, or, when `max_authtries` is not positive, a failed attempt
without a handler; at or above the limit the connection is disconnected. -/
theorem first_policy_request (env : Env) (ssh : Ssh) (user : CString) (pw : Passwd)
    (m : CString) (rest : List CString) (hp : policy_client env user pw (m :: rest))
    (hrest : rest ≠ []) (hn : m ≠ s_none)
    (h0 : ssh.authctxt.attempt = 0) (hf0 : ssh.authctxt.failures = 0) :
    (1 < env.options.max_authtries →
      ∃ s1 : Ssh,
        input_userauth_request env ssh (some ⟨user, s_ssh_connection, m, []⟩) =
          .returned s1 0 ∧
        s1.authctxt.success = ssh.authctxt.success ∧
        s1.authctxt.failures = 1 ∧ s1.authctxt.attempt = 1 ∧
        s1.authctxt.user = some (split_style user).1 ∧
        s1.authctxt.service = some s_ssh_connection ∧
        s1.authctxt.valid ≠ 0 ∧ s1.authctxt.pw = some pw ∧
        s1.authctxt.auth_methods = [[','].intercalate rest] ∧
        success_count s1 = success_count ssh) ∧
    (env.options.max_authtries = 1 →
      ∃ (s1 : Ssh) (pre : List Event),
        input_userauth_request env ssh (some ⟨user, s_ssh_connection, m, []⟩) =
          .disconnect s1 .auth_fail ∧
        s1.authctxt.success = ssh.authctxt.success ∧
        s1.authctxt.failures = 1 ∧ s1.authctxt.attempt = 1 ∧
        success_count s1 = success_count ssh ∧
        s1.trace = pre ++ [.userauth m, .auth_log 0 1 m none]) ∧
    (env.options.max_authtries ≤ 0 →
      ∃ (s1 : Ssh) (l : List Event),
        input_userauth_request env ssh (some ⟨user, s_ssh_connection, m, []⟩) =
          .disconnect s1 .auth_fail ∧
        s1.authctxt.success = ssh.authctxt.success ∧
        success_count s1 = success_count ssh ∧
        s1.trace = ssh.trace ++ l ++ [.auth_log 0 0 m none] ∧
        ∀ e ∈ l, e.is_userauth = false) := by
  obtain ⟨hnum, _⟩ := policy_client_setup env user pw (m :: rest) hp
  obtain ⟨hx1, hx2, hx4, hx5⟩ := hp.2.2.2 m (List.mem_cons_self _ _)
  have hx3 := policy_client_enabled env user pw m rest hp m (List.mem_cons_self _ _)
  have hne : ∀ x ∈ rest, x ≠ [] := fun x hx => (hp.2.2.2 x (List.mem_cons_of_mem _ hx)).1
  obtain ⟨sb, hb, b1, b2, b3, b4, b5, b6, b7, b8, b9, l, b10, b11⟩ :=
    first_policy_bind env ssh user pw (m :: rest) hp m h0
  have hreq := (request_of_bind env ssh ⟨user, s_ssh_connection, m, []⟩).1 sb () hb
  have hv : sb.authctxt.valid ≠ 0 := by rw [b6]; decide
  have hcount : ∀ l2 : List Event, (∀ e ∈ l2, e.is_success = false) →
      List.countP Event.is_success (sb.trace ++ l2) = success_count ssh := by
    intro l2 hl2
    rw [count_append_none _ _ hl2]
    exact b9
  refine ⟨?_, ?_, ?_⟩
  · intro hmax
    obtain ⟨f, hfv, hcase⟩ := (try_policy env sb ⟨user, s_ssh_connection, m, []⟩ rest pw
      hnum hv b7 b8 hx2 hne hx3 hx4 hx5 (by rw [b2, hf0]; omega)).2 hrest
    have hfv2 : f = 1 := by
      rw [hfv, if_pos (Or.inr hn), b2, hf0]
      rfl
    subst hfv2
    rcases hcase with ⟨_, e⟩ | ⟨hge, _⟩
    · rw [e] at hreq
      refine ⟨_, hreq, b3, rfl, b1, b4, b5, hv, b7, rfl, ?_⟩
      simp only [success_count]
      exact hcount _ (by simp [Event.is_success])
    · omega
  · intro hmax
    obtain ⟨f, hfv, hcase⟩ := (try_policy env sb ⟨user, s_ssh_connection, m, []⟩ rest pw
      hnum hv b7 b8 hx2 hne hx3 hx4 hx5 (by rw [b2, hf0]; omega)).2 hrest
    have hfv2 : f = 1 := by
      rw [hfv, if_pos (Or.inr hn), b2, hf0]
      rfl
    subst hfv2
    rcases hcase with ⟨hlt, _⟩ | ⟨_, e⟩
    · omega
    · rw [e] at hreq
      refine ⟨_, sb.trace, hreq, b3, rfl, b1, ?_, rfl⟩
      simp only [success_count]
      exact hcount _ (by simp [Event.is_success])
  · intro hmax
    rcases try_cases env sb ⟨user, s_ssh_connection, m, []⟩ with ⟨_, _, hlt, _⟩ | ⟨_, h⟩
    · rw [b2, hf0] at hlt
      omega
    · obtain ⟨f, hfv, hcase⟩ := finish_zero env
        { sb with authctxt := { sb.authctxt with postponed := 0, server_caused_failure := 0 } }
        m none rfl
      have hfv2 : f = 1 := by
        rw [hfv]
        simp only [true_and]
        rw [if_pos (Or.inr hn), b2, hf0]
        rfl
      subst hfv2
      rcases hcase with ⟨_, e⟩ | ⟨hlt, _⟩
      · rw [h, e] at hreq
        refine ⟨_, l, hreq, b3, ?_, ?_, b11⟩
        · simp only [Outcome.ret, success_count]
          exact hcount _ (by simp [Event.is_success])
        · simp only [Outcome.ret]
          rw [b10]
      · omega

theorem ex_policy_client :
    policy_client (ex_env 2 ["publickey,password".toList]) "alice".toList
      ⟨"alice".toList, 1000⟩ ["publickey".toList, "password".toList] := by
  refine ⟨rfl, by decide, by decide, ?_⟩
  intro x hx
  have hs : ∀ y : CString, y = "publickey".toList ∨ y = "password".toList →
      succeeds_at (ex_env 2 ["publickey,password".toList]) y := by
    intro y hy m hm hname c payload
    simp only [ex_env, ex_authmethods, List.mem_cons, List.mem_singleton,
      List.not_mem_nil, or_false] at hm
    rcases hm with rfl | rfl | rfl | rfl | rfl
    · rcases hy with rfl | rfl <;> exact absurd hname (by decide)
    · rfl
    · rfl
    · rfl
    · rcases hy with rfl | rfl <;> exact absurd hname (by decide)
  simp only [List.mem_cons, List.mem_singleton, List.not_mem_nil, or_false] at hx
  rcases hx with rfl | rfl
  · exact ⟨by decide, by decide, hs _ (Or.inl rfl), by decide⟩
  · exact ⟨by decide, by decide, hs _ (Or.inr rfl), by decide⟩

/-- C21, the claim as stated fails when the list starts with "none": with the
policy "none,password" and `max_authtries` = 1, the opening request with
method "none" succeeds, is downgraded to a partial success that is not
server-caused, and leaves `failures` at 0; the password request then gets the
success packet although `max_authtries` is below the 2 methods of the list.
And with `max_authtries` = 0 and the policy "publickey,password" the client is
disconnected at its first request without the handler being invoked, so not at
a partial success. -/
theorem C21_counterexample :
    (ex_env_open 1 ["none,password".toList]).options.max_authtries = 1 ∧
    input_userauth_request (ex_env_open 1 ["none,password".toList]) ex_ssh
        (ex_request "none".toList) =
      .returned
        { authctxt :=
            { Authctxt.new with
              valid := 1, attempt := 1, failures := 0, server_caused_failure := 0,
              user := some "alice".toList, service := some "ssh-connection".toList,
              pw := some ⟨"alice".toList, 1000⟩, auth_methods := ["password".toList] }
          bug_banner := false
          userauth_request := .input_userauth_request
          trace := [.userauth "none".toList, .auth_log 0 1 "none".toList none,
            .send (.USERAUTH_FAILURE "password".toList 1)] } 0 ∧
    (run_requests (ex_env_open 1 ["none,password".toList]) ex_ssh
      (policy_requests "alice".toList ["none".toList, "password".toList])).state.authctxt.success
        = 1 ∧
    (run_requests (ex_env_open 1 ["none,password".toList]) ex_ssh
      (policy_requests "alice".toList ["none".toList, "password".toList])).state.trace.getLast?
        = some (.send .USERAUTH_SUCCESS) ∧
    run_requests (ex_env 0 ["publickey,password".toList]) ex_ssh
        (policy_requests "alice".toList ["publickey".toList, "password".toList]) =
      .disconnect
        { authctxt :=
            { Authctxt.new with
              valid := 1, attempt := 1, failures := 1,
              user := some "alice".toList, service := some "ssh-connection".toList,
              pw := some ⟨"alice".toList, 1000⟩,
              auth_methods := ["publickey,password".toList] }
          bug_banner := false
          userauth_request := .input_userauth_request
          trace := [.auth_log 0 0 "publickey".toList none] } .auth_fail := by
  decide

/-- C21 (amended): a partial success that is not server-caused adds 1 to
`failures`, unless it is the opening request with method "none", which adds
nothing. Hence, for a policy of one list of k >= 2 methods whose first method
is not "none", a client that succeeds at each method in order on a new
connection gets the success packet, once, iff `max_authtries` >= k, with
`failures` = k - 1; with 1 <= `max_authtries` < k it is disconnected with the
exhausted-attempts message at the partial success, number `max_authtries`,
that brings `failures` to `max_authtries`; and with `max_authtries` <= 0 it is
disconnected with that message at its first request, without a handler being
invoked. In the last two cases no success packet is sent. -/
theorem C21_partial_charged (env : Env) :
    (∀ (ssh : Ssh) (authenticated : Int) (method : CString) (submethod : Option CString)
        (a1 : Authctxt),
      ssh.authctxt.valid ≠ 0 → authenticated ≠ 0 → ssh.authctxt.postponed = 0 →
      ssh.authctxt.pw ≠ none →
      ¬ (ssh.authctxt.pw.map Passwd.pw_uid = some 0 ∧ env.auth_root_allowed method = 0) →
      env.num_auth_methods ≠ 0 →
      auth2_update_methods_lists ssh.authctxt method = .returned a1 0 →
      ssh.authctxt.server_caused_failure = 0 →
      (userauth_finish env ssh authenticated method submethod).state.authctxt.failures =
        if ssh.authctxt.attempt > 1 ∨ method ≠ s_none then ssh.authctxt.failures + 1
        else ssh.authctxt.failures) ∧
    (∀ (ssh : Ssh) (user : CString) (pw : Passwd) (m1 m2 : CString) (rest : List CString),
      policy_client env user pw (m1 :: m2 :: rest) → m1 ≠ s_none →
      ssh.authctxt.attempt = 0 → ssh.authctxt.failures = 0 →
      ((rest.length : Int) + 2 ≤ env.options.max_authtries →
        ∃ s2 : Ssh,
          run_requests env ssh (policy_requests user (m1 :: m2 :: rest)) = .returned s2 0 ∧
          s2.authctxt.success = 1 ∧
          s2.userauth_request = .dispatch_protocol_ignore ∧
          success_count s2 = success_count ssh + 1 ∧
          s2.authctxt.failures = (rest.length : Int) + 1 ∧
          s2.authctxt.attempt = (rest.length : Int) + 2) ∧
      (1 ≤ env.options.max_authtries →
        env.options.max_authtries < (rest.length : Int) + 2 →
        ∃ (s2 : Ssh) (x : CString) (pre : List Event),
          run_requests env ssh (policy_requests user (m1 :: m2 :: rest)) =
            .disconnect s2 .auth_fail ∧
          s2.authctxt.success = ssh.authctxt.success ∧
          success_count s2 = success_count ssh ∧
          s2.authctxt.failures = env.options.max_authtries ∧
          s2.authctxt.attempt = env.options.max_authtries ∧
          x ∈ m1 :: m2 :: rest ∧
          s2.trace = pre ++ [.userauth x, .auth_log 0 1 x none]) ∧
      (env.options.max_authtries ≤ 0 →
        ∃ (s2 : Ssh) (l : List Event),
          run_requests env ssh (policy_requests user (m1 :: m2 :: rest)) =
            .disconnect s2 .auth_fail ∧
          s2.authctxt.success = ssh.authctxt.success ∧
          success_count s2 = success_count ssh ∧
          s2.trace = ssh.trace ++ l ++ [.auth_log 0 0 m1 none] ∧
          ∀ e ∈ l, e.is_userauth = false)) := by
  constructor
  · intro ssh authenticated method submethod a1 hv ha hp hpw hroot hnum hupd hscf
    obtain ⟨f, hf, hcase⟩ := finish_partial env ssh authenticated method submethod a1
      hv ha hp hpw hroot hnum hupd
    simp only [hscf, true_and] at hf
    rw [← hf]
    rcases hcase with ⟨_, e⟩ | ⟨_, e⟩ <;> rw [e] <;> rfl
  · intro ssh user pw m1 m2 rest hp hn h0 hf0
    obtain ⟨hnum, _⟩ := policy_client_setup env user pw (m1 :: m2 :: rest) hp
    obtain ⟨hfirst, hone, hzero⟩ := first_policy_request env ssh user pw m1 (m2 :: rest) hp
      (by simp) hn h0 hf0
    have hen := policy_client_enabled env user pw m1 (m2 :: rest) hp
    have hall : ∀ x ∈ m2 :: rest, x ≠ [] ∧ ',' ∉ x ∧
        (∃ e ∈ env.authmethods, e.name = x ∧ e.enabled ≠ none ∧ e.enabled ≠ some 0) ∧
        succeeds_at env x ∧ ¬ (pw.pw_uid = 0 ∧ env.auth_root_allowed x = 0) := by
      intro x hx
      obtain ⟨a, b, c, d⟩ := hp.2.2.2 x (List.mem_cons_of_mem _ hx)
      exact ⟨a, b, hen x (List.mem_cons_of_mem _ hx), c, d⟩
    have hlater : 1 < env.options.max_authtries →
        ∃ s1 : Ssh,
          run_requests env ssh (policy_requests user (m1 :: m2 :: rest)) =
            run_requests env s1 (policy_requests user (m2 :: rest)) ∧
          s1.authctxt.success = ssh.authctxt.success ∧
          s1.authctxt.failures = 1 ∧ s1.authctxt.attempt = 1 ∧
          success_count s1 = success_count ssh ∧
          ((s1.authctxt.failures + rest.length < env.options.max_authtries →
            ∃ s2 : Ssh,
              run_requests env s1 (policy_requests user (m2 :: rest)) = .returned s2 0 ∧
              s2.authctxt.success = 1 ∧
              s2.userauth_request = .dispatch_protocol_ignore ∧
              s2.authctxt.failures = s1.authctxt.failures + rest.length ∧
              s2.authctxt.attempt = s1.authctxt.attempt + rest.length + 1 ∧
              success_count s2 = success_count s1 + 1) ∧
          (env.options.max_authtries ≤ s1.authctxt.failures + rest.length →
            ∃ (s2 : Ssh) (x : CString) (pre : List Event),
              run_requests env s1 (policy_requests user (m2 :: rest)) =
                .disconnect s2 .auth_fail ∧
              s2.authctxt.success = s1.authctxt.success ∧
              s2.authctxt.failures = env.options.max_authtries ∧
              s2.authctxt.attempt =
                s1.authctxt.attempt + (env.options.max_authtries - s1.authctxt.failures) ∧
              success_count s2 = success_count s1 ∧
              x ∈ m2 :: rest ∧
              s2.trace = pre ++ [.userauth x, .auth_log 0 1 x none])) := by
      intro hmax
      obtain ⟨s1, hreq, k1, k2, k3, k4, k5, k6, k7, k8, k9⟩ := hfirst hmax
      have hrun : run_requests env ssh (policy_requests user (m1 :: m2 :: rest)) =
          run_requests env s1 (policy_requests user (m2 :: rest)) := by
        simp only [policy_requests, List.map_cons]
        exact run_cons_returned env ssh s1 _ _ hreq
      have hl := run_policy_later env user pw hnum rest m2 s1 (by omega) k4 k5 k6 k7 k8 hall
        (by rw [k2]; exact hmax)
      exact ⟨s1, hrun, k1, k2, k3, k9, hl.1, hl.2⟩
    refine ⟨?_, ?_, ?_⟩
    · intro hk
      obtain ⟨s1, hrun, k1, k2, k3, k9, hl1, _⟩ := hlater (by omega)
      obtain ⟨s2, h1, h2, h3, h4, h5, h6⟩ := hl1 (by omega)
      exact ⟨s2, by rw [hrun, h1], h2, h3, by omega, by omega, by omega⟩
    · intro h1max hk
      by_cases hone1 : env.options.max_authtries = 1
      · obtain ⟨s1, pre, hreq, k1, k2, k3, k4, k5⟩ := hone hone1
        have hrun : run_requests env ssh (policy_requests user (m1 :: m2 :: rest)) =
            .disconnect s1 .auth_fail := by
          simp only [policy_requests, List.map_cons]
          exact run_cons_disconnect env ssh s1 _ _ _ hreq
        exact ⟨s1, m1, pre, hrun, k1, k4, by omega, by omega, List.mem_cons_self _ _, k5⟩
      · obtain ⟨s1, hrun, k1, k2, k3, k9, _, hl2⟩ := hlater (by omega)
        obtain ⟨s2, x, pre, h1, h2, h3, h4, h5, h6, h7⟩ := hl2 (by omega)
        exact ⟨s2, x, pre, by rw [hrun, h1], by rw [h2, k1], by omega, h3, by omega,
          List.mem_cons_of_mem _ h6, h7⟩
    · intro hmax
      obtain ⟨s1, l, hreq, k1, k2, k3, k4⟩ := hzero hmax
      have hrun : run_requests env ssh (policy_requests user (m1 :: m2 :: rest)) =
          .disconnect s1 .auth_fail := by
        simp only [policy_requests, List.map_cons]
        exact run_cons_disconnect env ssh s1 _ _ _ hreq
      exact ⟨s1, l, hrun, k1, k2, k3, k4⟩

/-- C21 (amended) on the third scenario of the specification with
`max_authtries` = 2: publickey is a partial success that brings `failures` to
1, and the password request gets the success packet. -/
theorem C21_partial_charged_witness :
    ∃ s2 : Ssh,
      run_requests (ex_env 2 ["publickey,password".toList]) ex_ssh
          (policy_requests "alice".toList ["publickey".toList, "password".toList]) =
        .returned s2 0 ∧
      s2.authctxt.success = 1 ∧
      s2.userauth_request = .dispatch_protocol_ignore ∧
      success_count s2 = success_count ex_ssh + 1 ∧
      s2.authctxt.failures = (([] : List CString).length : Int) + 1 ∧
      s2.authctxt.attempt = (([] : List CString).length : Int) + 2 :=
  ((C21_partial_charged (ex_env 2 ["publickey,password".toList])).2 ex_ssh "alice".toList
    ⟨"alice".toList, 1000⟩ "publickey".toList "password".toList [] ex_policy_client
    (by decide) (by decide) (by decide)).1 (by decide)

end Auth2

namespace Mac

open Auth2

theorem ex_macenv_errors : ex_macenv.errors_negative := by
  unfold MacEnv.errors_negative ex_macenv
  decide

/-! ## The name check of `mac_valid` -/

theorem setup_loop_null (env : MacEnv) (name : CString) :
    ∀ l : List MacEntry,
      mac_setup_loop env none name l =
        some (if name ∈ l.map MacEntry.name then 0 else env.SSH_ERR_INVALID_ARGUMENT, none) := by
  intro l
  induction l with
  | nil => simp [mac_setup_loop]
  | cons e rest ih =>
    unfold mac_setup_loop
    by_cases h : name = e.name
    · simp [strcmp_eq, h]
    · simp [strcmp_eq, h, ih]

/-- With a null mac, `mac_setup` returns 0 for a table name and the
invalid-argument code for every other name. -/
theorem setup_null (env : MacEnv) (name : CString) :
    mac_setup env none name =
      some (if name ∈ macs.map MacEntry.name then 0 else env.SSH_ERR_INVALID_ARGUMENT, none) :=
  setup_loop_null env name macs

theorem valid_loop_spec (env : MacEnv) (hneg : env.errors_negative) :
    ∀ toks : List CString,
      (mac_valid_loop env toks = some 1 ↔
        ∀ t ∈ toks.takeWhile (fun t => decide (t ≠ [])), t ∈ macs.map MacEntry.name) ∧
      (mac_valid_loop env toks = some 1 ∨ mac_valid_loop env toks = some 0) := by
  intro toks
  induction toks with
  | nil => simp [mac_valid_loop]
  | cons p rest ih =>
    unfold mac_valid_loop
    by_cases hp : p = []
    · simp [hp]
    · have htw : List.takeWhile (fun t => decide (t ≠ [])) (p :: rest) =
          p :: List.takeWhile (fun t => decide (t ≠ [])) rest := by
        simp [List.takeWhile_cons, hp]
      rw [if_neg hp, setup_null, htw]
      by_cases hm : p ∈ macs.map MacEntry.name
      · simp only [if_pos hm, lt_self_iff_false, if_false]
        refine ⟨?_, ih.2⟩
        rw [ih.1]
        simp only [List.mem_cons, forall_eq_or_imp]
        exact ⟨fun h => ⟨hm, h⟩, fun h => h.2⟩
      · have hlt : env.SSH_ERR_INVALID_ARGUMENT < 0 := hneg.2.2.1
        simp only [if_neg hm, hlt, if_true]
        refine ⟨⟨fun h => ?_, fun h => absurd (h p (List.mem_cons_self _ _)) hm⟩, Or.inr trivial⟩
        simp at h

/-- What `mac_valid` computes: it returns 1 iff `names` is a non-empty string
and every token before the first empty token is a table name; the tokens after
an empty token are not looked at. In every other case it returns 0. -/
theorem mac_valid_spec (env : MacEnv) (hneg : env.errors_negative) (names : CString) :
    (mac_valid env (some names) = some 1 ↔
      names ≠ [] ∧
        ∀ t ∈ (strsep_all names).takeWhile (fun t => decide (t ≠ [])),
          t ∈ macs.map MacEntry.name) ∧
    (mac_valid env (some names) ≠ some 1 → mac_valid env (some names) = some 0) := by
  simp only [mac_valid, strcmp_eq, decide_eq_true_eq]
  by_cases hn : names = []
  · simp [hn]
  · rw [if_neg hn]
    obtain ⟨h1, h2⟩ := valid_loop_spec env hneg (strsep_all names)
    refine ⟨?_, fun h => h2.resolve_left h⟩
    rw [h1]
    exact ⟨fun h => ⟨hn, h⟩, fun h => h.2⟩

/-- C17, the list "hmac-sha1,,bogus": its tokens are "hmac-sha1", the empty
string and "bogus"; neither of the last two is a name of the table, and
`mac_valid` returns 1 all the same, because its loop ends at the empty token.
The list ",bogus" is accepted in the same way, whatever the library; and
"hmac-sha1,bogus" is rejected (shown with the example library). -/
theorem C17_mac_valid_divergence (env : MacEnv) :
    strsep_all "hmac-sha1,,bogus".toList =
      ["hmac-sha1".toList, [], "bogus".toList] ∧
    "bogus".toList ∉ macs.map MacEntry.name ∧
    ([] : CString) ∉ macs.map MacEntry.name ∧
    mac_valid env (some "hmac-sha1,,bogus".toList) = some 1 ∧
    mac_valid env (some ",bogus".toList) = some 1 ∧
    mac_valid ex_macenv (some "hmac-sha1,bogus".toList) = some 0 := by
  have h1 : strsep_all "hmac-sha1,,bogus".toList =
      ["hmac-sha1".toList, [], "bogus".toList] := by decide
  have h2 : strsep_all ",bogus".toList = [[], "bogus".toList] := by decide
  have hb : "bogus".toList ∉ macs.map MacEntry.name := by decide
  have hs : "hmac-sha1".toList ∈ macs.map MacEntry.name := by decide
  refine ⟨h1, hb, by decide, ?_, ?_, ?_⟩
  · simp only [mac_valid]
    rw [if_neg (by decide), h1]
    simp only [mac_valid_loop, setup_null, if_pos hs]
    simp
  · simp only [mac_valid]
    rw [if_neg (by decide), h2]
    simp [mac_valid_loop]
  · decide

/-! ## Sizes bound by `mac_setup` -/

theorem macs_names_nodup : (macs.map MacEntry.name).Nodup := by
  decide

theorem macs_fields :
    ∀ e ∈ macs,
      0 ≤ e.truncatebits ∧ e.truncatebits < 2 ^ 31 ∧ 0 ≤ e.len ∧ e.len < 2 ^ 31 ∧
      0 ≤ e.key_len ∧ e.key_len < 2 ^ 31 ∧
      (e.type = SSH_EVP → e.mdfunc ≠ none) := by
  decide

/-- With a mac given, the loop of `mac_setup` hands the row with the name to
`mac_setup_by_id`, when the names of the rows are pairwise different. -/
theorem setup_loop_finds (env : MacEnv) (m : sshmac) :
    ∀ l : List MacEntry, (l.map MacEntry.name).Nodup → ∀ e ∈ l,
      mac_setup_loop env (some m) e.name l =
        match mac_setup_by_id env m e with
        | none => none
        | some (r, m) => some (r, some m) := by
  intro l
  induction l with
  | nil => intro _ e he; cases he
  | cons x rest ih =>
    intro hnd e he
    rw [List.map_cons, List.nodup_cons] at hnd
    unfold mac_setup_loop
    rcases List.mem_cons.1 he with rfl | hin
    · simp [strcmp_eq]
    · have hne : e.name ≠ x.name := by
        intro h
        exact hnd.1 (h ▸ List.mem_map_of_mem MacEntry.name hin)
      simp only [strcmp_eq, decide_eq_true_eq, if_neg hne]
      exact ih hnd.2 e hin

theorem tdiv_bytes (x : Int) (h0 : 0 ≤ x) (h1 : x < 2 ^ 31) :
    ((Int.tdiv x 8 % 2 ^ 32).toNat : Int) = x / 8 := by
  rw [Int.tdiv_eq_ediv h0 (by decide)]
  norm_num at h1 ⊢
  omega

theorem size_bytes (x : Int) (h0 : 0 < x) (h1 : x < 2 ^ 31) :
    ((x % 2 ^ 32).toNat : Int) = x := by
  norm_num at h1 ⊢
  omega

/-- What `mac_setup_by_id` binds for a row of the HMAC family. -/
theorem setup_by_id_evp (env : MacEnv) (hs : env.digest_sizes) (mac : sshmac) (e : MacEntry)
    (md : EvpMd) (ht : e.type = SSH_EVP) (hmd : e.mdfunc = some md) :
    mac_setup_by_id env mac e =
      some (0, { mac with
        type := e.type
        evp_md := some md
        key_len := (env.EVP_MD_size md % 2 ^ 32).toNat
        mac_len :=
          if e.truncatebits ≠ 0 then (Int.tdiv e.truncatebits 8 % 2 ^ 32).toNat
          else (env.EVP_MD_size md % 2 ^ 32).toNat
        etm := e.etm }) := by
  have hpos : ¬ env.EVP_MD_size md ≤ 0 := not_le.2 (hs md).1
  unfold mac_setup_by_id
  simp only [ht, hmd, if_true, if_neg hpos]
  by_cases htr : e.truncatebits ≠ 0
  · simp [htr]
  · simp [htr]

/-- What `mac_setup_by_id` binds for a row of a UMAC family. -/
theorem setup_by_id_umac (env : MacEnv) (mac : sshmac) (e : MacEntry)
    (ht : e.type ≠ SSH_EVP) :
    mac_setup_by_id env mac e =
      some (0, { mac with
        type := e.type
        umac_ctx := none
        key_len := (Int.tdiv e.key_len 8 % 2 ^ 32).toNat
        mac_len :=
          if e.truncatebits ≠ 0 then (Int.tdiv e.truncatebits 8 % 2 ^ 32).toNat
          else (Int.tdiv e.len 8 % 2 ^ 32).toNat
        etm := e.etm }) := by
  unfold mac_setup_by_id
  simp only [if_neg ht]
  by_cases htr : e.truncatebits ≠ 0
  · simp [htr]
  · simp [htr]

theorem setup_evp (env : MacEnv) (hs : env.digest_sizes) (mac : sshmac) (e : MacEntry)
    (he : e ∈ macs) (md : EvpMd) (ht : e.type = SSH_EVP) (hmd : e.mdfunc = some md) :
    mac_setup env (some mac) e.name =
      some (0, some { mac with
        type := e.type
        evp_md := some md
        key_len := (env.EVP_MD_size md % 2 ^ 32).toNat
        mac_len :=
          if e.truncatebits ≠ 0 then (Int.tdiv e.truncatebits 8 % 2 ^ 32).toNat
          else (env.EVP_MD_size md % 2 ^ 32).toNat
        etm := e.etm }) := by
  unfold mac_setup
  rw [setup_loop_finds env mac macs macs_names_nodup e he,
    setup_by_id_evp env hs mac e md ht hmd]

theorem setup_umac (env : MacEnv) (mac : sshmac) (e : MacEntry)
    (he : e ∈ macs) (ht : e.type ≠ SSH_EVP) :
    mac_setup env (some mac) e.name =
      some (0, some { mac with
        type := e.type
        umac_ctx := none
        key_len := (Int.tdiv e.key_len 8 % 2 ^ 32).toNat
        mac_len :=
          if e.truncatebits ≠ 0 then (Int.tdiv e.truncatebits 8 % 2 ^ 32).toNat
          else (Int.tdiv e.len 8 % 2 ^ 32).toNat
        etm := e.etm }) := by
  unfold mac_setup
  rw [setup_loop_finds env mac macs macs_names_nodup e he, setup_by_id_umac env mac e ht]

/-- The sizes `mac_setup` binds for a row of the table. -/
theorem setup_sizes (env : MacEnv) (hs : env.digest_sizes) (mac : sshmac) (e : MacEntry)
    (he : e ∈ macs) :
    ∃ mac2 : sshmac,
      mac_setup env (some mac) e.name = some (0, some mac2) ∧
      mac2.type = e.type ∧ mac2.etm = e.etm ∧ mac2.key = mac.key ∧
      (e.truncatebits ≠ 0 → (mac2.mac_len : Int) = e.truncatebits / 8) ∧
      (e.type = SSH_EVP → ∃ md, e.mdfunc = some md ∧ mac2.evp_md = some md ∧
        (mac2.key_len : Int) = env.EVP_MD_size md ∧
        (e.truncatebits = 0 → (mac2.mac_len : Int) = env.EVP_MD_size md)) ∧
      (e.type ≠ SSH_EVP →
        (mac2.key_len : Int) = e.key_len / 8 ∧ mac2.umac_ctx = none ∧
        (e.truncatebits = 0 → (mac2.mac_len : Int) = e.len / 8)) := by
  obtain ⟨h1, h2, h3, h4, h5, h6, h7⟩ := macs_fields e he
  by_cases ht : e.type = SSH_EVP
  · obtain ⟨md, hmd⟩ := Option.ne_none_iff_exists'.1 (h7 ht)
    refine ⟨_, setup_evp env hs mac e he md ht hmd, rfl, rfl, rfl, ?_, ?_, ?_⟩
    · intro htr
      simp only [if_pos htr]
      exact tdiv_bytes _ h1 h2
    · intro _
      refine ⟨md, hmd, rfl, size_bytes _ (hs md).1 (hs md).2, ?_⟩
      intro htr
      simp only [htr, ne_eq, not_true_eq_false, if_false]
      exact size_bytes _ (hs md).1 (hs md).2
    · intro hne
      exact absurd ht hne
  · refine ⟨_, setup_umac env mac e he ht, rfl, rfl, rfl, ?_, ?_, ?_⟩
    · intro htr
      simp only [if_pos htr]
      exact tdiv_bytes _ h1 h2
    · intro h
      exact absurd h ht
    · intro _
      refine ⟨tdiv_bytes _ h5 h6, rfl, ?_⟩
      intro htr
      simp only [htr, ne_eq, not_true_eq_false, if_false]
      exact tdiv_bytes _ h3 h4

/-- The lengths bound for a table name, read off `setup_sizes`. -/
theorem setup_lengths (env : MacEnv) (hs : env.digest_sizes) (mac : sshmac) (e : MacEntry)
    (he : e ∈ macs) (n k : Int)
    (hn : (e.truncatebits ≠ 0 → e.truncatebits / 8 = n) ∧
      (e.truncatebits = 0 → e.type ≠ SSH_EVP → e.len / 8 = n) ∧
      (e.truncatebits = 0 → ∀ md, e.mdfunc = some md → env.EVP_MD_size md = n))
    (hk : (e.type ≠ SSH_EVP → e.key_len / 8 = k) ∧
      (∀ md, e.mdfunc = some md → env.EVP_MD_size md = k)) :
    ∃ mac2 : sshmac,
      mac_setup env (some mac) e.name = some (0, some mac2) ∧
      (mac2.mac_len : Int) = n ∧ (mac2.key_len : Int) = k := by
  obtain ⟨mac2, h, _, _, _, htr, hevp, humac⟩ := setup_sizes env hs mac e he
  refine ⟨mac2, h, ?_, ?_⟩
  · by_cases h0 : e.truncatebits = 0
    · by_cases ht : e.type = SSH_EVP
      · obtain ⟨md, hmd, _, _, hl⟩ := hevp ht
        rw [hl h0]
        exact hn.2.2 h0 md hmd
      · rw [(humac ht).2.2 h0]
        exact hn.2.1 h0 ht
    · rw [htr h0]
      exact hn.1 h0
  · by_cases ht : e.type = SSH_EVP
    · obtain ⟨md, hmd, _, hkl, _⟩ := hevp ht
      rw [hkl]
      exact hk.2 md hmd
    · rw [(humac ht).1]
      exact hk.1 ht

/-- C19: when every digest has a positive size, `mac_setup` with a mac given
returns 0 for the name of every row of the table and sets `mac_len` to
`truncatebits / 8` when `truncatebits` is not 0 and otherwise to the digest size
(HMAC family) or `len / 8` (UMAC families), `key_len` to the digest size (HMAC
family, truncated or not) or `key_len / 8` (UMAC families), and `etm` to the
flag of the row; with the digest sizes of OpenSSL, "hmac-sha1-96" gives 12 and
20, "hmac-sha2-256" gives 32 and 32, "umac-64@openssh.com" gives 8 and 16 and
"umac-128@openssh.com" gives 16 and 16. -/
theorem C19_setup_sizes (env : MacEnv) (mac : sshmac) (hs : env.digest_sizes) :
    (∀ e ∈ macs, ∃ mac2 : sshmac,
      mac_setup env (some mac) e.name = some (0, some mac2) ∧
      mac2.type = e.type ∧ mac2.etm = e.etm ∧ mac2.key = mac.key ∧
      (e.truncatebits ≠ 0 → (mac2.mac_len : Int) = e.truncatebits / 8) ∧
      (e.type = SSH_EVP → ∃ md, e.mdfunc = some md ∧ mac2.evp_md = some md ∧
        (mac2.key_len : Int) = env.EVP_MD_size md ∧
        (e.truncatebits = 0 → (mac2.mac_len : Int) = env.EVP_MD_size md)) ∧
      (e.type ≠ SSH_EVP →
        (mac2.key_len : Int) = e.key_len / 8 ∧ mac2.umac_ctx = none ∧
        (e.truncatebits = 0 → (mac2.mac_len : Int) = e.len / 8))) ∧
    (env.openssl_sizes →
      (∃ mac2 : sshmac, mac_setup env (some mac) "hmac-sha1-96".toList = some (0, some mac2) ∧
        (mac2.mac_len : Int) = 12 ∧ (mac2.key_len : Int) = 20) ∧
      (∃ mac2 : sshmac, mac_setup env (some mac) "hmac-sha2-256".toList = some (0, some mac2) ∧
        (mac2.mac_len : Int) = 32 ∧ (mac2.key_len : Int) = 32) ∧
      (∃ mac2 : sshmac,
        mac_setup env (some mac) "umac-64@openssh.com".toList = some (0, some mac2) ∧
        (mac2.mac_len : Int) = 8 ∧ (mac2.key_len : Int) = 16) ∧
      (∃ mac2 : sshmac,
        mac_setup env (some mac) "umac-128@openssh.com".toList = some (0, some mac2) ∧
        (mac2.mac_len : Int) = 16 ∧ (mac2.key_len : Int) = 16)) := by
  refine ⟨fun e he => setup_sizes env hs mac e he, ?_⟩
  intro ho
  obtain ⟨o1, o2, o3, o4, o5⟩ := ho
  refine ⟨?_, ?_, ?_, ?_⟩
  · exact setup_lengths env hs mac
      ⟨"hmac-sha1-96".toList, SSH_EVP, some .sha1, 96, 0, 0, 0⟩ (by decide) 12 20
      ⟨fun _ => by decide, fun h => absurd h (by decide), fun h => absurd h (by decide)⟩
      ⟨fun h => absurd rfl h, fun md hmd => by cases hmd; exact o1⟩
  · exact setup_lengths env hs mac
      ⟨"hmac-sha2-256".toList, SSH_EVP, some .sha256, 0, 0, 0, 0⟩ (by decide) 32 32
      ⟨fun h => absurd rfl h, fun _ h => absurd rfl h, fun _ md hmd => by cases hmd; exact o2⟩
      ⟨fun h => absurd rfl h, fun md hmd => by cases hmd; exact o2⟩
  · exact setup_lengths env hs mac
      ⟨"umac-64@openssh.com".toList, SSH_UMAC, none, 0, 128, 64, 0⟩ (by decide) 8 16
      ⟨fun h => absurd rfl h, fun _ _ => by decide, fun _ md hmd => by cases hmd⟩
      ⟨fun _ => by decide, fun md hmd => by cases hmd⟩
  · exact setup_lengths env hs mac
      ⟨"umac-128@openssh.com".toList, SSH_UMAC128, none, 0, 128, 128, 0⟩ (by decide) 16 16
      ⟨fun h => absurd rfl h, fun _ _ => by decide, fun _ md hmd => by cases hmd⟩
      ⟨fun _ => by decide, fun md hmd => by cases hmd⟩

/-- C19 on the example library: "hmac-md5-96-etm@openssh.com" gets a tag of 12
bytes, a key of 16 bytes and the flag of its row. -/
theorem C19_setup_sizes_witness :
    ∃ mac2 : sshmac,
      mac_setup ex_macenv (some sshmac.zero) "hmac-md5-96-etm@openssh.com".toList =
        some (0, some mac2) ∧
      mac2.etm = 1 ∧ (mac2.mac_len : Int) = 12 ∧ (mac2.key_len : Int) = 16 := by
  obtain ⟨mac2, h, _, hetm, _, htr, hevp, _⟩ :=
    (C19_setup_sizes ex_macenv sshmac.zero (fun md => by cases md <;> decide)).1
      ⟨"hmac-md5-96-etm@openssh.com".toList, SSH_EVP, some .md5, 96, 0, 0, 1⟩ (by decide)
  obtain ⟨md, hmd, _, hk, _⟩ := hevp rfl
  cases hmd
  exact ⟨mac2, h, hetm, htr (by decide), hk⟩

/-! ## What `mac_clear` leaves -/

/-- C20, the claim as stated fails: a mac set up for "hmac-sha1" and keyed with
the bytes 1 to 20 still holds these bytes after `mac_clear`, and its `key_len`
is still 20. -/
theorem C20_counterexample :
    (mac_keyed ex_macenv sshmac.zero "hmac-sha1".toList ex_key).map
        (fun mac => ((mac_clear ex_macenv mac).key, (mac_clear ex_macenv mac).key_len)) =
      some (some ex_key, 20) ∧
    ¬ (∀ b ∈ ex_key, b = 0) := by
  decide

/-- C20 (amended): after `mac_clear`, for a mac of any family, `evp_md` and
`umac_ctx` are both null; the key, `key_len`, `mac_len`, `type` and `etm` are as
they were; and the HMAC context has gone through `HMAC_cleanup` exactly when
the mac is of neither UMAC family and had a digest. -/
theorem C20_clear_frame (env : MacEnv) (mac : sshmac) :
    (mac_clear env mac).evp_md = none ∧
    (mac_clear env mac).umac_ctx = none ∧
    (mac_clear env mac).key = mac.key ∧
    (mac_clear env mac).key_len = mac.key_len ∧
    (mac_clear env mac).mac_len = mac.mac_len ∧
    (mac_clear env mac).type = mac.type ∧
    (mac_clear env mac).etm = mac.etm ∧
    (mac_clear env mac).evp_ctx =
      (if mac.type ≠ SSH_UMAC ∧ mac.type ≠ SSH_UMAC128 ∧ mac.evp_md ≠ none then
        env.HMAC_cleanup mac.evp_ctx
      else mac.evp_ctx) := by
  unfold mac_clear
  by_cases h1 : mac.type = SSH_UMAC
  · simp [h1]
  · by_cases h2 : mac.type = SSH_UMAC128
    · simp [h1, h2]
    · by_cases h3 : mac.evp_md = none
      · simp [h1, h2, h3]
      · simp [h1, h2, h3]

/-! ## The tag of `mac_compute` for the HMAC family -/

theorem init_evp (env : MacEnv) (hl : env.hmac_library) (mac : sshmac) (md : EvpMd)
    (k : Bytes) (ht : mac.type = SSH_EVP) (hmd : mac.evp_md = some md)
    (hk : mac.key = some k) :
    mac_init env mac =
      some (0, { mac with evp_ctx := ⟨some md, k.take mac.key_len, []⟩ }) := by
  unfold mac_init
  simp only [hk, ht, if_true, hmd, hl.1]
  simp

theorem store_take (buf bytes : Bytes) (n : Nat) (h : n ≤ bytes.length) :
    (store buf bytes).take n = bytes.take n := by
  unfold store
  rw [List.take_append_of_le_length h]

theorem store_length (buf bytes : Bytes) (h : bytes.length ≤ buf.length) :
    (store buf bytes).length = buf.length := by
  unfold store
  simp only [List.length_append, List.length_drop]
  omega

/-- One call of `mac_compute` on a keyed mac of the HMAC family. -/
theorem compute_ready (env : MacEnv) (hl : env.hmac_library) (md : EvpMd) (key : Bytes)
    (n : Nat) (mac : sshmac) (hr : hmac_ready md key n mac)
    (hsz : (n : Int) ≤ env.EVP_MD_size md)
    (hmax : env.EVP_MD_size md ≤ env.MAC_DIGEST_LEN_MAX)
    (seqno : Nat) (data d : Bytes) (dlen : Nat) (m : Bytes)
    (hm : m.length = env.MAC_DIGEST_LEN_MAX) (hd : min dlen n ≤ d.length) :
    ∃ c : Computed,
      mac_compute env mac seqno data (some d) dlen m = some c ∧ c.result = 0 ∧
      c.digest =
        some (store d ((env.HMAC md key (POKE_U32 seqno ++ data)).take (min dlen n))) ∧
      c.m = store m (env.HMAC md key (POKE_U32 seqno ++ data)) ∧
      hmac_ready md key n c.mac := by
  obtain ⟨ht, hlen, hmd, hkey⟩ := hr
  subst hkey
  obtain ⟨_, hreset, hupd, hfin, hsize⟩ := hl
  have hne : mac.evp_ctx.md ≠ none := by rw [hmd]; simp
  have e1 := hreset mac.evp_ctx hne
  have e2 := hupd { mac.evp_ctx with data := [] } (POKE_U32 seqno) hne
  have e3 := hupd { mac.evp_ctx with data := [] ++ POKE_U32 seqno } data hne
  obtain ⟨f1, f2, f3, f4⟩ :=
    hfin { mac.evp_ctx with data := [] ++ POKE_U32 seqno ++ data } md hmd
  simp only [List.nil_append] at e2 e3 f1 f2 f3 f4
  have hout : (env.HMAC md mac.evp_ctx.key (POKE_U32 seqno ++ data)).length ≤ m.length := by
    have := hsize md mac.evp_ctx.key (POKE_U32 seqno ++ data)
    omega
  have hnle : n ≤ (env.HMAC md mac.evp_ctx.key (POKE_U32 seqno ++ data)).length := by
    have := hsize md mac.evp_ctx.key (POKE_U32 seqno ++ data)
    omega
  have hnmax : ¬ mac.mac_len > env.MAC_DIGEST_LEN_MAX := by
    rw [hlen]
    omega
  have hmin : (if dlen > n then n else dlen) = min dlen n := by
    by_cases h : dlen > n
    · rw [if_pos h]; omega
    · rw [if_neg h]; omega
  unfold mac_compute
  simp only [if_neg hnmax, ht, if_true, e1, e2, e3]
  simp only [f1, f2, ne_eq, not_true_eq_false, if_false, if_neg (not_lt.2 hout), hlen, hmin,
    if_pos hd]
  refine ⟨_, rfl, rfl, ?_, rfl, rfl, rfl, f3, f4⟩
  simp only
  rw [store_take _ _ _ (le_trans (Nat.min_le_right dlen n) hnle)]

theorem openssl_digest_sizes (env : MacEnv) (ho : env.openssl_sizes) : env.digest_sizes := by
  obtain ⟨o1, o2, o3, o4, o5⟩ := ho
  intro md
  cases md
  · rw [o1]; decide
  · rw [o2]; decide
  · rw [o3]; decide
  · rw [o4]; decide
  · rw [o5]; decide

theorem macs_truncations :
    ∀ e ∈ macs, e.truncatebits = 0 ∨
      (e.truncatebits = 96 ∧ (e.mdfunc = some .sha1 ∨ e.mdfunc = some .md5)) := by
  decide

/-- With the digest sizes of OpenSSL the tag length of a row of the HMAC family
is between 0 and the digest size. -/
theorem entry_len_le (env : MacEnv) (ho : env.openssl_sizes) (e : MacEntry) (he : e ∈ macs)
    (md : EvpMd) (hmd : e.mdfunc = some md) :
    0 < entry_mac_len e (env.EVP_MD_size md) ∧
    entry_mac_len e (env.EVP_MD_size md) ≤ env.EVP_MD_size md := by
  have hs := openssl_digest_sizes env ho md
  obtain ⟨o1, _, _, o4, _⟩ := ho
  unfold entry_mac_len
  rcases macs_truncations e he with h0 | ⟨h96, h | h⟩
  · simp only [h0, ne_eq, not_true_eq_false, if_false]
    exact ⟨hs.1, le_refl _⟩
  · rw [hmd] at h
    cases h
    rw [h96, o1]
    decide
  · rw [hmd] at h
    cases h
    rw [h96, o4]
    decide

/-- A row of the HMAC family set up, keyed and initialised: the mac is ready
with the digest of the row, the first `key_len` bytes of the key and the tag
length of the row. -/
theorem keyed_evp (env : MacEnv) (hl : env.hmac_library) (hs : env.digest_sizes)
    (e : MacEntry) (he : e ∈ macs) (md : EvpMd) (ht : e.type = SSH_EVP)
    (hmd : e.mdfunc = some md) (mac0 : sshmac) (k : Bytes) :
    ∃ mac : sshmac,
      mac_keyed env mac0 e.name k = some mac ∧
      (mac.mac_len : Int) = entry_mac_len e (env.EVP_MD_size md) ∧
      (mac.key_len : Int) = env.EVP_MD_size md ∧
      mac.key = some k ∧
      hmac_ready md (k.take (env.EVP_MD_size md).toNat) mac.mac_len mac := by
  obtain ⟨h1, h2, _⟩ := macs_fields e he
  have hkl : (env.EVP_MD_size md % 2 ^ 32).toNat = (env.EVP_MD_size md).toNat := by
    have := size_bytes _ (hs md).1 (hs md).2
    omega
  have hinit := init_evp env hl
    { ({ mac0 with
        type := e.type
        evp_md := some md
        key_len := (env.EVP_MD_size md % 2 ^ 32).toNat
        mac_len :=
          if e.truncatebits ≠ 0 then (Int.tdiv e.truncatebits 8 % 2 ^ 32).toNat
          else (env.EVP_MD_size md % 2 ^ 32).toNat
        etm := e.etm } : sshmac) with key := some k } md k ht rfl rfl
  unfold mac_keyed
  rw [setup_evp env hs mac0 e he md ht hmd]
  simp only [if_true]
  rw [hinit]
  simp only [if_true]
  refine ⟨_, rfl, ?_, size_bytes _ (hs md).1 (hs md).2, rfl, ht, rfl, rfl, ?_⟩
  · simp only [entry_mac_len]
    by_cases htr : e.truncatebits ≠ 0
    · simp only [if_pos htr]
      exact tdiv_bytes _ h1 h2
    · simp only [if_neg htr]
      exact size_bytes _ (hs md).1 (hs md).2
  · simp only [hkl]

theorem openssl_size_le (env : MacEnv) (ho : env.openssl_sizes) (md : EvpMd) :
    env.EVP_MD_size md ≤ 64 := by
  obtain ⟨o1, o2, o3, o4, o5⟩ := ho
  cases md <;> omega

/-- The tag of a packet under a row of the HMAC family: the first `mac_len`
bytes of the keyed hash over the sequence number and the data. -/
theorem packet_tag_evp (env : MacEnv) (hl : env.hmac_library) (ho : env.openssl_sizes)
    (hmax : 64 ≤ env.MAC_DIGEST_LEN_MAX) (e : MacEntry) (he : e ∈ macs) (md : EvpMd)
    (ht : e.type = SSH_EVP) (hmd : e.mdfunc = some md) (k : Bytes) (seqno : Nat)
    (data : Bytes) :
    packet_tag env e.name k seqno data =
      some ((env.HMAC md (k.take (env.EVP_MD_size md).toNat) (POKE_U32 seqno ++ data)).take
        (entry_mac_len e (env.EVP_MD_size md)).toNat) := by
  have hs := openssl_digest_sizes env ho
  obtain ⟨mac, hk, hlen, _, _, hready⟩ := keyed_evp env hl hs e he md ht hmd sshmac.zero k
  obtain ⟨hpos, hle⟩ := entry_len_le env ho e he md hmd
  have h64 := openssl_size_le env ho md
  obtain ⟨c, hc, _, hdig, _, _⟩ := compute_ready env hl md
    (k.take (env.EVP_MD_size md).toNat) mac.mac_len mac hready (by omega) (by omega)
    seqno data (List.replicate mac.mac_len 0) mac.mac_len
    (List.replicate env.MAC_DIGEST_LEN_MAX 0) (by simp) (by simp)
  have hsize := hl.2.2.2.2 md (k.take (env.EVP_MD_size md).toNat) (POKE_U32 seqno ++ data)
  have hn : (entry_mac_len e (env.EVP_MD_size md)).toNat = mac.mac_len := by omega
  unfold packet_tag
  rw [hk]
  simp only
  rw [hc]
  simp only
  rw [hdig, hn, Nat.min_self]
  congr 1
  unfold store
  have hlt : ((env.HMAC md (k.take (env.EVP_MD_size md).toNat)
      (POKE_U32 seqno ++ data)).take mac.mac_len).length = mac.mac_len := by
    rw [List.length_take]
    omega
  rw [hlt]
  simp

theorem poke_u32_spec (v : Nat) (hv : v < 2 ^ 32) :
    ∃ b0 b1 b2 b3 : Nat, POKE_U32 v = [b0, b1, b2, b3] ∧
      b0 < 256 ∧ b1 < 256 ∧ b2 < 256 ∧ b3 < 256 ∧
      v = b0 * 2 ^ 24 + b1 * 2 ^ 16 + b2 * 2 ^ 8 + b3 := by
  refine ⟨_, _, _, _, rfl, ?_, ?_, ?_, ?_, ?_⟩
  · omega
  · omega
  · omega
  · omega
  · norm_num at hv ⊢
    omega

theorem ex_macenv_library : ex_macenv.hmac_library := by
  refine ⟨?_, ?_, ?_, ?_, ?_⟩
  · intro ctx key len md
    rfl
  · intro ctx h
    simp [ex_macenv, h]
  · intro ctx bytes h
    simp [ex_macenv, h]
  · intro ctx md h
    simp [ex_macenv, h]
  · intro md key msg
    cases md <;> simp [ex_macenv, ex_hmac]

/-- C18: with an OpenSSL that meets the HMAC contract and has its digest sizes,
and a staging buffer of at least 64 bytes, every row of the HMAC family can be
set up, keyed and initialised, and on the mac so made, and on the mac any such
call leaves, `mac_compute` returns 0 for every sequence number and data and
writes to `digest` exactly the first `min(dlen, mac_len)` bytes of the keyed
hash of the key over the 4 big-endian bytes of `seqno` followed by `data`; that
many bytes are written, so `mac_len` bytes when `dlen` is at least `mac_len`.
The tag of "hmac-sha1" is the whole keyed hash, 20 bytes, and the tag of
"hmac-sha1-96" is its first 12 bytes. -/
theorem C18_hmac_tag (env : MacEnv) (hl : env.hmac_library) (ho : env.openssl_sizes)
    (hmax : 64 ≤ env.MAC_DIGEST_LEN_MAX) :
    (∀ e ∈ macs, e.type = SSH_EVP → ∀ (mac0 : sshmac) (k : Bytes),
      ∃ (md : EvpMd) (mac : sshmac),
        e.mdfunc = some md ∧
        mac_keyed env mac0 e.name k = some mac ∧
        (mac.mac_len : Int) = entry_mac_len e (env.EVP_MD_size md) ∧
        hmac_ready md (k.take (env.EVP_MD_size md).toNat) mac.mac_len mac ∧
        ∀ cur : sshmac, hmac_ready md (k.take (env.EVP_MD_size md).toNat) mac.mac_len cur →
          ∀ (seqno : Nat) (data d : Bytes) (dlen : Nat) (m : Bytes),
            m.length = env.MAC_DIGEST_LEN_MAX → min dlen mac.mac_len ≤ d.length →
            ∃ c : Computed,
              mac_compute env cur seqno data (some d) dlen m = some c ∧
              c.result = 0 ∧
              c.digest = some (store d
                ((env.HMAC md (k.take (env.EVP_MD_size md).toNat)
                  (POKE_U32 seqno ++ data)).take (min dlen mac.mac_len))) ∧
              ((env.HMAC md (k.take (env.EVP_MD_size md).toNat)
                (POKE_U32 seqno ++ data)).take (min dlen mac.mac_len)).length =
                  min dlen mac.mac_len ∧
              hmac_ready md (k.take (env.EVP_MD_size md).toNat) mac.mac_len c.mac) ∧
    (∀ (k : Bytes) (seqno : Nat) (data : Bytes),
      packet_tag env "hmac-sha1".toList k seqno data =
        some (env.HMAC .sha1 (k.take 20) (POKE_U32 seqno ++ data)) ∧
      packet_tag env "hmac-sha1-96".toList k seqno data =
        some ((env.HMAC .sha1 (k.take 20) (POKE_U32 seqno ++ data)).take 12) ∧
      (env.HMAC .sha1 (k.take 20) (POKE_U32 seqno ++ data)).length = 20 ∧
      ((env.HMAC .sha1 (k.take 20) (POKE_U32 seqno ++ data)).take 12).length = 12 ∧
      (env.HMAC .sha1 (k.take 20) (POKE_U32 seqno ++ data)).take 12 <+:
        env.HMAC .sha1 (k.take 20) (POKE_U32 seqno ++ data)) ∧
    (∀ seqno : Nat, seqno < 2 ^ 32 →
      ∃ b0 b1 b2 b3 : Nat, POKE_U32 seqno = [b0, b1, b2, b3] ∧
        b0 < 256 ∧ b1 < 256 ∧ b2 < 256 ∧ b3 < 256 ∧
        seqno = b0 * 2 ^ 24 + b1 * 2 ^ 16 + b2 * 2 ^ 8 + b3) := by
  have hs := openssl_digest_sizes env ho
  refine ⟨?_, ?_, poke_u32_spec⟩
  · intro e he ht mac0 k
    obtain ⟨_, _, _, _, _, _, hmdf⟩ := macs_fields e he
    obtain ⟨md, hmd⟩ := Option.ne_none_iff_exists'.1 (hmdf ht)
    obtain ⟨mac, hk, hlen, _, _, hready⟩ := keyed_evp env hl hs e he md ht hmd mac0 k
    obtain ⟨hpos, hle⟩ := entry_len_le env ho e he md hmd
    have h64 := openssl_size_le env ho md
    refine ⟨md, mac, hmd, hk, hlen, hready, ?_⟩
    intro cur hcur seqno data d dlen m hm hd
    obtain ⟨c, hc, hres, hdig, _, hnext⟩ := compute_ready env hl md
      (k.take (env.EVP_MD_size md).toNat) mac.mac_len cur hcur (by omega) (by omega)
      seqno data d dlen m hm hd
    refine ⟨c, hc, hres, hdig, ?_, hnext⟩
    have hsize := hl.2.2.2.2 md (k.take (env.EVP_MD_size md).toNat) (POKE_U32 seqno ++ data)
    rw [List.length_take]
    omega
  · intro k seqno data
    have o1 := ho.1
    have hsize := hl.2.2.2.2 .sha1 (k.take 20) (POKE_U32 seqno ++ data)
    rw [o1] at hsize
    have t1 : packet_tag env "hmac-sha1".toList k seqno data =
        some ((env.HMAC .sha1 (k.take 20) (POKE_U32 seqno ++ data)).take 20) := by
      have h := packet_tag_evp env hl ho hmax
        ⟨"hmac-sha1".toList, SSH_EVP, some .sha1, 0, 0, 0, 0⟩ (by decide) .sha1 rfl rfl
        k seqno data
      rw [o1] at h
      exact h
    have t2 : packet_tag env "hmac-sha1-96".toList k seqno data =
        some ((env.HMAC .sha1 (k.take 20) (POKE_U32 seqno ++ data)).take 12) := by
      have h := packet_tag_evp env hl ho hmax
        ⟨"hmac-sha1-96".toList, SSH_EVP, some .sha1, 96, 0, 0, 0⟩ (by decide) .sha1 rfl rfl
        k seqno data
      rw [o1] at h
      exact h
    refine ⟨?_, t2, by omega, ?_, List.take_prefix _ _⟩
    · rw [t1]
      congr 1
      apply List.take_of_length_le
      omega
    · rw [List.length_take]
      omega

/-- C18 on the example library: the tag of "hmac-sha1-96" for the key of 20
bytes, the sequence number 0x01020304 and the data 1, 2, 3 is the first 12
bytes of the keyed hash over 1, 2, 3, 4, 1, 2, 3. -/
theorem C18_hmac_tag_witness :
    ex_macenv.hmac_library ∧ ex_macenv.openssl_sizes ∧
    packet_tag ex_macenv "hmac-sha1-96".toList ex_key 16909060 [1, 2, 3] =
      some ((ex_macenv.HMAC .sha1 (ex_key.take 20) (POKE_U32 16909060 ++ [1, 2, 3])).take 12) :=
  ⟨ex_macenv_library, ⟨rfl, rfl, rfl, rfl, rfl⟩,
    ((C18_hmac_tag ex_macenv ex_macenv_library ⟨rfl, rfl, rfl, rfl, rfl⟩ (by decide)).2.1
      ex_key 16909060 [1, 2, 3]).2.1⟩

end Mac
